import Mathlib

/-! # Nominatim search URL builder (`nominatim_api.go`)

A shallow embedding of `NominatimAPI.buildSearchURL` and of the parts of the Go
standard library it runs through (`net/url`: `Parse`, `URL.Query`, `Values.Set`,
`Values.Encode`, `URL.String`; `strings.Join`; `fmt.Sprintf`), followed by
theorems about the URLs it produces.

Go strings are byte sequences, so a string is a list of bytes here.  The model of
`net/url` follows the sources of Go 1.22.
-/

namespace Mapquest

/-! ## Go strings -/

/-- One byte of a Go string. -/
abbrev Byte := Fin 256

/-- A Go `string`: a finite sequence of bytes. -/
abbrev GoString := List Byte

/-- The byte of an ASCII character. -/
def ch (c : Char) : Byte := Fin.ofNat c.toNat

/-- The bytes of an ASCII string literal. -/
def B (s : String) : GoString := s.toList.map ch

/-- Go's `strings.HasPrefix(s, p)`. -/
def startsWith : GoString → GoString → Bool
  | _, [] => true
  | [], _ :: _ => false
  | c :: s, d :: p => c = d && startsWith s p

/-- Go's `strings.Contains(s, sep)` for a one-byte `sep`. -/
def containsByte (s : GoString) (sep : Byte) : Bool := s.any (fun c => c = sep)

/-- Go's `strings.Cut(s, sep)` for a one-byte `sep`: the text before the first
`sep` and the text after it; when `sep` does not occur, `s` and the empty
string. -/
def Cut : GoString → Byte → GoString × GoString
  | [], _ => ([], [])
  | c :: s, sep => if c = sep then ([], s) else ((c :: (Cut s sep).1), (Cut s sep).2)

/-- Go's `strings.Count(s, sep)` for a one-byte `sep`. -/
def countByte (s : GoString) (sep : Byte) : Nat := s.countP (fun c => c = sep)

/-- Go's `strings.Index(s, sep)`: the position of the first occurrence of `sep`
in `s`, `none` for Go's `-1`. -/
def Index : GoString → GoString → Option Nat
  | [], sep => if sep = [] then some 0 else none
  | c :: s, sep =>
    if startsWith (c :: s) sep then some 0 else (Index s sep).map (· + 1)

/-- Go's `strings.LastIndex(s, sep)` for a one-byte `sep`, `none` for `-1`. -/
def LastIndex : GoString → Byte → Option Nat
  | [], _ => none
  | c :: s, sep =>
    match LastIndex s sep with
    | some i => some (i + 1)
    | none => if c = sep then some 0 else none

/-- Go's `strings.ToLower` on ASCII text (the only text it is applied to here,
a URL scheme). -/
def ToLower (s : GoString) : GoString :=
  s.map (fun c => if (ch 'A').val ≤ c.val ∧ c.val ≤ (ch 'Z').val then Fin.ofNat (c.val + 32) else c)

/-- Go's `strings.Join(elems, sep)`. -/
def Join : List GoString → GoString → GoString
  | [], _ => []
  | [a], _ => a
  | a :: b :: rest, sep => a ++ sep ++ Join (b :: rest) sep

/-- Go's `fmt.Sprintf("%d", n)` for an `int`. -/
def Sprintf_d (n : Int) : GoString :=
  match n with
  | Int.ofNat m => B (Nat.repr m)
  | Int.negSucc m => ch '-' :: B (Nat.repr (m + 1))

/-! ## `net/url`: escaping -/

/-- The `encoding` modes of `net/url`. -/
inductive encoding
  | encodePath
  | encodePathSegment
  | encodeHost
  | encodeZone
  | encodeUserPassword
  | encodeQueryComponent
  | encodeFragment
  deriving DecidableEq, Repr

open encoding

/-- The errors `net/url` reports while parsing. -/
inductive UrlErr
  | msg (text : String)
  | EscapeError (s : GoString)
  | InvalidHostError (s : GoString)
  | invalidPort (colonPort : GoString)
  deriving DecidableEq, Repr

/-- Go's `url.Error`: the operation, the URL text and the cause. -/
structure Error where
  Op : String
  URL : GoString
  Err : UrlErr
  deriving DecidableEq, Repr

/-- Whether `c` is an ASCII letter or digit. -/
def isAlnum (c : Byte) : Bool :=
  ((ch 'a').val ≤ c.val && c.val ≤ (ch 'z').val) ||
  ((ch 'A').val ≤ c.val && c.val ≤ (ch 'Z').val) ||
  ((ch '0').val ≤ c.val && c.val ≤ (ch '9').val)

/-- Go's `ishex`. -/
def ishex (c : Byte) : Bool :=
  ((ch '0').val ≤ c.val && c.val ≤ (ch '9').val) ||
  ((ch 'a').val ≤ c.val && c.val ≤ (ch 'f').val) ||
  ((ch 'A').val ≤ c.val && c.val ≤ (ch 'F').val)

/-- Go's `unhex`: the value of a hexadecimal digit. -/
def unhex (c : Byte) : Nat :=
  if (ch '0').val ≤ c.val ∧ c.val ≤ (ch '9').val then c.val - (ch '0').val
  else if (ch 'a').val ≤ c.val ∧ c.val ≤ (ch 'f').val then c.val - (ch 'a').val + 10
  else if (ch 'A').val ≤ c.val ∧ c.val ≤ (ch 'F').val then c.val - (ch 'A').val + 10
  else 0

/-- Go's `upperhex[d]`, the digit of a value below 16. -/
def upperhex (d : Nat) : Byte :=
  if d < 10 then Fin.ofNat (d + 48) else Fin.ofNat (d + 55)

/-- Go's `shouldEscape(c, mode)`. -/
def shouldEscape (c : Byte) (mode : encoding) : Bool :=
  if isAlnum c then false
  else if (mode = encodeHost ∨ mode = encodeZone) ∧
      c ∈ [ch '!', ch '$', ch '&', ch '\'', ch '(', ch ')', ch '*', ch '+', ch ',', ch ';',
           ch '=', ch ':', ch '[', ch ']', ch '<', ch '>', ch '"'] then false
  else if c ∈ [ch '-', ch '_', ch '.', ch '~'] then false
  else if c ∈ [ch '$', ch '&', ch '+', ch ',', ch '/', ch ':', ch ';', ch '=', ch '?', ch '@'] then
    match mode with
    | encodePath => c = ch '?'
    | encodePathSegment => c = ch '/' || c = ch ';' || c = ch ',' || c = ch '?'
    | encodeUserPassword => c = ch '@' || c = ch '/' || c = ch '?' || c = ch ':'
    | encodeQueryComponent => true
    | encodeFragment => false
    | _ => true
  else if mode = encodeFragment ∧ c ∈ [ch '!', ch '(', ch ')', ch '*'] then false
  else true

/-- Go's `escape(s, mode)`: bytes that need escaping become `%XX` (a space
becomes `+` in a query component), the others are copied.  Go returns `s`
itself when nothing needs escaping, which is what the loop gives then. -/
def escape : GoString → encoding → GoString
  | [], _ => []
  | c :: s, mode =>
    if shouldEscape c mode then
      if c = ch ' ' ∧ mode = encodeQueryComponent then ch '+' :: escape s mode
      else ch '%' :: upperhex (c.val / 16) :: upperhex (c.val % 16) :: escape s mode
    else c :: escape s mode

/-- The first loop of Go's `unescape(s, mode)`: the error it finds, if any. -/
def unescapeCheck : GoString → encoding → Option UrlErr
  | [], _ => none
  | c :: rest, mode =>
    if c = ch '%' then
      match rest with
      | h1 :: h2 :: rest2 =>
        if !ishex h1 || !ishex h2 then some (.EscapeError ((c :: rest).take 3))
        else if mode = encodeHost ∧ unhex h1 < 8 ∧ [c, h1, h2] ≠ B "%25" then
          some (.EscapeError [c, h1, h2])
        else if mode = encodeZone ∧ [c, h1, h2] ≠ B "%25" ∧
            unhex h1 * 16 + unhex h2 ≠ (ch ' ').val ∧
            shouldEscape (Fin.ofNat (unhex h1 * 16 + unhex h2)) encodeHost then
          some (.EscapeError [c, h1, h2])
        else unescapeCheck rest2 mode
      | _ => some (.EscapeError ((c :: rest).take 3))
    else if c = ch '+' then unescapeCheck rest mode
    else if (mode = encodeHost ∨ mode = encodeZone) ∧ c.val < 128 ∧ shouldEscape c encodeHost then
      some (.InvalidHostError [c])
    else unescapeCheck rest mode

/-- The second loop of Go's `unescape(s, mode)`, run on a string the first loop
accepted: `%XX` becomes the byte, `+` a space in a query component. -/
def unescapeDecode : GoString → encoding → GoString
  | [], _ => []
  | c :: rest, mode =>
    if c = ch '%' then
      match rest with
      | h1 :: h2 :: rest2 => Fin.ofNat (unhex h1 * 16 + unhex h2) :: unescapeDecode rest2 mode
      | _ => []
    else if c = ch '+' then
      (if mode = encodeQueryComponent then ch ' ' else ch '+') :: unescapeDecode rest mode
    else c :: unescapeDecode rest mode

/-- Go's `unescape(s, mode)`.  Go returns `s` itself when it holds no `%` and no
`+` to turn into a space, which is what the second loop gives then. -/
def unescape (s : GoString) (mode : encoding) : Except UrlErr GoString :=
  match unescapeCheck s mode with
  | some e => .error e
  | none => .ok (unescapeDecode s mode)

/-- Go's `url.QueryEscape`. -/
def QueryEscape (s : GoString) : GoString := escape s encodeQueryComponent

/-- Go's `url.QueryUnescape`. -/
def QueryUnescape (s : GoString) : Except UrlErr GoString := unescape s encodeQueryComponent

/-- Go's `validEncoded(s, mode)`. -/
def validEncoded (s : GoString) (mode : encoding) : Bool :=
  s.all (fun c =>
    if c ∈ [ch '!', ch '$', ch '&', ch '\'', ch '(', ch ')', ch '*', ch '+', ch ',', ch ';',
            ch '=', ch ':', ch '@'] then true
    else if c ∈ [ch '[', ch ']'] then true
    else if c = ch '%' then true
    else !shouldEscape c mode)

/-! ## `net/url`: parsing -/

/-- Go's `url.Userinfo`. -/
structure Userinfo where
  username : GoString
  password : GoString
  passwordSet : Bool
  deriving DecidableEq, Repr

/-- Go's `url.URL`. -/
structure URL where
  Scheme : GoString := []
  Opaque : GoString := []
  User : Option Userinfo := none
  Host : GoString := []
  Path : GoString := []
  RawPath : GoString := []
  OmitHost : Bool := false
  ForceQuery : Bool := false
  RawQuery : GoString := []
  Fragment : GoString := []
  RawFragment : GoString := []
  deriving DecidableEq, Repr

deriving instance DecidableEq for Except

/-- Go's `stringContainsCTLByte`. -/
def stringContainsCTLByte (s : GoString) : Bool :=
  s.any (fun b => b.val < (ch ' ').val || b.val = 127)

/-- The loop of Go's `getScheme(rawURL)`; `acc` is `rawURL[:i]` and the list
argument `rawURL[i:]`. -/
def getSchemeLoop (rawURL : GoString) : GoString → GoString → Except UrlErr (GoString × GoString)
  | _, [] => .ok ([], rawURL)
  | acc, c :: rest =>
    if ((ch 'a').val ≤ c.val ∧ c.val ≤ (ch 'z').val) ∨ ((ch 'A').val ≤ c.val ∧ c.val ≤ (ch 'Z').val) then
      getSchemeLoop rawURL (acc ++ [c]) rest
    else if ((ch '0').val ≤ c.val ∧ c.val ≤ (ch '9').val) ∨ c = ch '+' ∨ c = ch '-' ∨ c = ch '.' then
      if acc = [] then .ok ([], rawURL) else getSchemeLoop rawURL (acc ++ [c]) rest
    else if c = ch ':' then
      if acc = [] then .error (.msg "missing protocol scheme") else .ok (acc, rest)
    else .ok ([], rawURL)

/-- Go's `getScheme(rawURL)`: the scheme and the text after its colon. -/
def getScheme (rawURL : GoString) : Except UrlErr (GoString × GoString) :=
  getSchemeLoop rawURL [] rawURL

/-- Go's `validOptionalPort`. -/
def validOptionalPort (port : GoString) : Bool :=
  match port with
  | [] => true
  | c :: digits =>
    c = ch ':' && digits.all (fun b => (ch '0').val ≤ b.val && b.val ≤ (ch '9').val)

/-- Go's `validUserinfo`. -/
def validUserinfo (s : GoString) : Bool :=
  s.all (fun r => isAlnum r ||
    r ∈ [ch '-', ch '.', ch '_', ch ':', ch '~', ch '!', ch '$', ch '&', ch '\'',
         ch '(', ch ')', ch '*', ch '+', ch ',', ch ';', ch '=', ch '%', ch '@'])

/-- Go's `parseHost`. -/
def parseHost (host : GoString) : Except UrlErr GoString :=
  if startsWith host (B "[") then
    match LastIndex host (ch ']') with
    | none => .error (.msg "missing ']' in host")
    | some i =>
      let colonPort := host.drop (i + 1)
      if !validOptionalPort colonPort then .error (.invalidPort colonPort)
      else
        match Index (host.take i) (B "%25") with
        | some zone =>
          match unescape (host.take zone) encodeHost with
          | .error e => .error e
          | .ok host1 =>
            match unescape ((host.take i).drop zone) encodeZone with
            | .error e => .error e
            | .ok host2 =>
              match unescape (host.drop i) encodeHost with
              | .error e => .error e
              | .ok host3 => .ok (host1 ++ host2 ++ host3)
        | none => unescape host encodeHost
  else
    match LastIndex host (ch ':') with
    | some i =>
      let colonPort := host.drop i
      if !validOptionalPort colonPort then .error (.invalidPort colonPort)
      else unescape host encodeHost
    | none => unescape host encodeHost

/-- Go's `parseAuthority`. -/
def parseAuthority (authority : GoString) : Except UrlErr (Option Userinfo × GoString) :=
  match LastIndex authority (ch '@') with
  | none =>
    match parseHost authority with
    | .error e => .error e
    | .ok host => .ok (none, host)
  | some i =>
    match parseHost (authority.drop (i + 1)) with
    | .error e => .error e
    | .ok host =>
      let userinfo := authority.take i
      if !validUserinfo userinfo then .error (.msg "net/url: invalid userinfo")
      else if !containsByte userinfo (ch ':') then
        match unescape userinfo encodeUserPassword with
        | .error e => .error e
        | .ok name => .ok (some ⟨name, [], false⟩, host)
      else
        match unescape (Cut userinfo (ch ':')).1 encodeUserPassword with
        | .error e => .error e
        | .ok username =>
          match unescape (Cut userinfo (ch ':')).2 encodeUserPassword with
          | .error e => .error e
          | .ok password => .ok (some ⟨username, password, true⟩, host)

/-- Go's `URL.setPath`. -/
def URL.setPath (u : URL) (p : GoString) : Except UrlErr URL :=
  match unescape p encodePath with
  | .error e => .error e
  | .ok path =>
    .ok { u with Path := path, RawPath := if p = escape path encodePath then [] else p }

/-- Go's `URL.setFragment`. -/
def URL.setFragment (u : URL) (f : GoString) : Except UrlErr URL :=
  match unescape f encodeFragment with
  | .error e => .error e
  | .ok frag =>
    .ok { u with Fragment := frag, RawFragment := if f = escape frag encodeFragment then [] else f }

/-- The second half of Go's `parse(rawURL, viaRequest)` at `viaRequest = false`:
from `rest`, the text between the scheme and the query, the opaque part or the
authority and the path of `url`. -/
def parseRest (url : URL) (rest : GoString) : Except UrlErr URL :=
  if !startsWith rest (B "/") && url.Scheme ≠ [] then .ok { url with Opaque := rest }
  else if !startsWith rest (B "/") && containsByte (Cut rest (ch '/')).1 (ch ':') then
    .error (.msg "first path segment in URL cannot contain colon")
  else if (url.Scheme ≠ [] || !startsWith rest (B "///")) && startsWith rest (B "//") then
    let authority0 := rest.drop 2
    let i := (Index authority0 (B "/")).getD authority0.length
    match parseAuthority (authority0.take i) with
    | .error e => .error e
    | .ok (user, host) => URL.setPath { url with User := user, Host := host } (authority0.drop i)
  else if url.Scheme ≠ [] && startsWith rest (B "/") then
    URL.setPath { url with OmitHost := true } rest
  else URL.setPath url rest

/-- Go's `parse(rawURL, viaRequest)` at `viaRequest = false`, the way `Parse`
calls it: the scheme is split off and lowered, the query is cut off at the first
`?` (a lone trailing `?` sets `ForceQuery`), and `parseRest` reads what is left. -/
def parse (rawURL : GoString) : Except UrlErr URL :=
  if stringContainsCTLByte rawURL then
    .error (.msg "net/url: invalid control character in URL")
  else if rawURL = B "*" then .ok { Path := B "*" }
  else
    match getScheme rawURL with
    | .error e => .error e
    | .ok (scheme, rest0) =>
      if rest0.getLast? = some (ch '?') ∧ countByte rest0 (ch '?') = 1 then
        parseRest { Scheme := ToLower scheme, ForceQuery := true } rest0.dropLast
      else
        parseRest { Scheme := ToLower scheme, RawQuery := (Cut rest0 (ch '?')).2 }
          (Cut rest0 (ch '?')).1

/-- Go's `url.Parse(rawURL)`. -/
def Parse (rawURL : GoString) : Except Error URL :=
  match parse (Cut rawURL (ch '#')).1 with
  | .error err => .error ⟨"parse", (Cut rawURL (ch '#')).1, err⟩
  | .ok url =>
    if (Cut rawURL (ch '#')).2 = [] then .ok url
    else
      match URL.setFragment url (Cut rawURL (ch '#')).2 with
      | .error err => .error ⟨"parse", rawURL, err⟩
      | .ok url2 => .ok url2

/-! ## `net/url`: printing -/

/-- Go's `Userinfo.String`. -/
def Userinfo.String (u : Userinfo) : GoString :=
  escape u.username encodeUserPassword ++
    (if u.passwordSet then ch ':' :: escape u.password encodeUserPassword else [])

/-- Whether `unescape(s, mode)` succeeds and gives `t`. -/
def unescapesTo (s : GoString) (mode : encoding) (t : GoString) : Bool :=
  match unescape s mode with
  | .ok p => p = t
  | .error _ => false

/-- Go's `URL.EscapedPath`. -/
def URL.EscapedPath (u : URL) : GoString :=
  if u.RawPath ≠ [] ∧ validEncoded u.RawPath encodePath ∧
      unescapesTo u.RawPath encodePath u.Path then u.RawPath
  else if u.Path = B "*" then B "*"
  else escape u.Path encodePath

/-- Go's `URL.EscapedFragment`. -/
def URL.EscapedFragment (u : URL) : GoString :=
  if u.RawFragment ≠ [] ∧ validEncoded u.RawFragment encodeFragment ∧
      unescapesTo u.RawFragment encodeFragment u.Fragment then u.RawFragment
  else escape u.Fragment encodeFragment

/-- The part of Go's `URL.String` that writes the authority: `//`, the user
information and the host. -/
def URL.authorityString (u : URL) : GoString :=
  if u.Scheme ≠ [] ∨ u.Host ≠ [] ∨ u.User.isSome then
    if u.OmitHost ∧ u.Host = [] ∧ u.User.isNone then []
    else
      (if u.Host ≠ [] ∨ u.Path ≠ [] ∨ u.User.isSome then B "//" else []) ++
      (match u.User with
        | some ui => ui.String ++ [ch '@']
        | none => []) ++
      (if u.Host ≠ [] then escape u.Host encodeHost else [])
  else []

/-- The part of Go's `URL.String` written before the query: scheme, then the
opaque text or the authority and the path. -/
def URL.headString (u : URL) : GoString :=
  let buf0 := if u.Scheme ≠ [] then u.Scheme ++ [ch ':'] else []
  if u.Opaque ≠ [] then buf0 ++ u.Opaque
  else
    let buf1 := buf0 ++ u.authorityString
    let path := u.EscapedPath
    let buf2 := if path ≠ [] ∧ path.head? ≠ some (ch '/') ∧ u.Host ≠ [] then buf1 ++ [ch '/'] else buf1
    let buf3 := if buf2 = [] ∧ containsByte (Cut path (ch '/')).1 (ch ':') then buf2 ++ B "./" else buf2
    buf3 ++ path

/-- Go's `URL.String`. -/
def URL.String (u : URL) : GoString :=
  u.headString ++
  (if u.ForceQuery ∨ u.RawQuery ≠ [] then ch '?' :: u.RawQuery else []) ++
  (if u.Fragment ≠ [] then ch '#' :: u.EscapedFragment else [])

/-! ## `net/url`: query values -/

/-- Go's `url.Values`, a `map[string][]string`: the keys with their value
lists, each key once. -/
abbrev Values := List (GoString × List GoString)

/-- The map access `v[key]`: the value list of `key`, `none` when the map has
no such key. -/
def Values.lookup : Values → GoString → Option (List GoString)
  | [], _ => none
  | (k, vs) :: m, key => if k = key then some vs else Values.lookup m key

/-- The map assignment `v[key] = vs`. -/
def Values.assign : Values → GoString → List GoString → Values
  | [], key, vs => [(key, vs)]
  | (k, old) :: m, key, vs =>
    if k = key then (k, vs) :: m else (k, old) :: Values.assign m key vs

/-- Go's `Values.Set(key, value)`: `v[key] = []string{value}`. -/
def Values.Set (v : Values) (key value : GoString) : Values := v.assign key [value]

/-- The statement `m[key] = append(m[key], value)`. -/
def Values.append (v : Values) (key value : GoString) : Values :=
  v.assign key ((v.lookup key).getD [] ++ [value])

/-- Go's `strings.Split(s, sep)` for a one-byte `sep`. -/
def Split : GoString → Byte → List GoString
  | [], _ => [[]]
  | c :: s, sep =>
    if c = sep then [] :: Split s sep
    else
      match Split s sep with
      | [] => [[c]]
      | p :: ps => (c :: p) :: ps

/-- One round of the loop of Go's `parseQuery` on the piece `key` cut off at
`&`: a piece with a semicolon, an empty piece and a piece whose name or value
does not unescape are skipped. -/
def parseQueryPiece (m : Values) (key : GoString) : Values :=
  if containsByte key (ch ';') then m
  else if key = [] then m
  else
    match QueryUnescape (Cut key (ch '=')).1 with
    | .error _ => m
    | .ok k =>
      match QueryUnescape (Cut key (ch '=')).2 with
      | .error _ => m
      | .ok value => m.append k value

/-- The map Go's `url.ParseQuery(query)` returns (with or without an error):
the loop of `parseQuery` cuts `query` at each `&` and handles the pieces in
order. -/
def ParseQuery (query : GoString) : Values :=
  (Split query (ch '&')).foldl parseQueryPiece []

/-- Go's `URL.Query`: `ParseQuery(u.RawQuery)`, the error dropped. -/
def URL.Query (u : URL) : Values := ParseQuery u.RawQuery

/-- Go's order of strings, bytewise lexicographic: `s <= t`. -/
def strLe : GoString → GoString → Bool
  | [], _ => true
  | _ :: _, [] => false
  | a :: s, b :: t => a.val < b.val || (a = b && strLe s t)

/-- Go's `Values.Encode`: the keys in ascending order, each value as
`name=value` with both escaped, the pairs joined by `&`. -/
def Values.Encode (v : Values) : GoString :=
  Join
    (((v.map Prod.fst).insertionSort (fun a b => strLe a b = true)).flatMap (fun k =>
      ((v.lookup k).getD []).map (fun x => QueryEscape k ++ ch '=' :: QueryEscape x)))
    (B "&")

/-! ## `nominatim_api.go` -/

/-- A Go `float64`, by its 64 bits. -/
abbrev Float64 := Fin (2 ^ 64)

/-- The path the client puts before `/search.php`. -/
def NominatimPathPrefix : GoString := B "/nominatim/v1"

/-- The two fields of `Client` that `buildSearchURL` reads: what `BaseURL()`
returns and the API key. -/
structure Client where
  baseURL : GoString
  key : GoString
  deriving DecidableEq, Repr

/-- The request of a Nominatim search; `Bounded` and `RouteWidth` are pointers
in Go, `none` standing for `nil`. -/
structure NominatimSearchRequest where
  Query : GoString := []
  Street : GoString := []
  City : GoString := []
  County : GoString := []
  State : GoString := []
  Country : GoString := []
  PostalCode : GoString := []
  Limit : Int := 0
  CountryCodes : List GoString := []
  ViewBox : List Float64 := []
  ExcludePlaceIds : List GoString := []
  Bounded : Option Bool := none
  RouteWidth : Option Float64 := none
  OSMType : GoString := []
  OSMId : GoString := []

/-- Lines 53 to 74 of `buildSearchURL`: the free-text query, or else the
structured address fields that are not empty. -/
def setAddressParams (req : NominatimSearchRequest) (q : Values) : Values :=
  if req.Query ≠ [] then q.Set (B "q") req.Query
  else
    let q := if req.Street ≠ [] then q.Set (B "street") req.Street else q
    let q := if req.City ≠ [] then q.Set (B "city") req.City else q
    let q := if req.County ≠ [] then q.Set (B "county") req.County else q
    let q := if req.State ≠ [] then q.Set (B "state") req.State else q
    let q := if req.Country ≠ [] then q.Set (B "country") req.Country else q
    let q := if req.PostalCode ≠ [] then q.Set (B "postalcode") req.PostalCode else q
    q

/-- Lines 75 to 104 of `buildSearchURL`: the filters.  `fmtF x` stands for
`fmt.Sprintf("%f", x)`. -/
def setFilterParams (fmtF : Float64 → GoString) (req : NominatimSearchRequest) (q : Values) :
    Values :=
  let q := q.Set (B "addressdetails") (B "1")
  let q := if req.Limit > 0 then q.Set (B "limit") (Sprintf_d req.Limit) else q
  let q := if req.CountryCodes.length > 0 then
    q.Set (B "countrycodes") (Join req.CountryCodes (B ",")) else q
  let q := match req.ViewBox with
    | [a, b, c, d] =>
      q.Set (B "viewbox") (fmtF a ++ B "," ++ fmtF b ++ B "," ++ fmtF c ++ B "," ++ fmtF d)
    | _ => q
  let q := if req.ExcludePlaceIds.length > 0 then
    q.Set (B "exclude_place_ids") (Join req.ExcludePlaceIds (B ",")) else q
  let q := match req.Bounded with
    | some true => q.Set (B "bounded") (B "1")
    | some false => q.Set (B "bounded") (B "0")
    | none => q
  let q := match req.RouteWidth with
    | some w => q.Set (B "routewidth") (fmtF w)
    | none => q
  let q := if req.OSMType ≠ [] then q.Set (B "osm_type") req.OSMType else q
  let q := if req.OSMId ≠ [] then q.Set (B "osm_id") req.OSMId else q
  q

/-- Lines 51 to 108 of `buildSearchURL`: the values `q` holds when it is
encoded, from the values `q0` that `u.Query()` gave. -/
def searchValues (fmtF : Float64 → GoString) (key : GoString) (req : NominatimSearchRequest)
    (q0 : Values) : Values :=
  let q := q0.Set (B "format") (B "json")
  let q := setAddressParams req q
  let q := setFilterParams fmtF req q
  if key ≠ [] then q.Set (B "key") key else q

/-- Line 44 of `buildSearchURL`: the text
`fmt.Sprintf("%s%s/search.php", api.c.BaseURL(), NominatimPathPrefix)`. -/
def urls (c : Client) : GoString := c.baseURL ++ NominatimPathPrefix ++ B "/search.php"

/-- The method `NominatimAPI.buildSearchURL`: the URL and the error it returns.
`fmtF x` stands for `fmt.Sprintf("%f", x)`. -/
def buildSearchURL (fmtF : Float64 → GoString) (c : Client) (req : NominatimSearchRequest) :
    GoString × Option Error :=
  match Parse (urls c) with
  | .error err => ([], some err)
  | .ok u =>
    (URL.String { u with RawQuery := (searchValues fmtF c.key req u.Query).Encode }, none)

/-! ## Reading a URL back -/

/-- The query string of a URL text: what follows its first `?`, up to the first
`#`.  This is the `RawQuery` that `url.Parse` finds in the text. -/
def rawQueryOf (url : GoString) : GoString := (Cut (Cut url (ch '#')).1 (ch '?')).2

/-- The query parameters of a URL text, names and values decoded. -/
def queryParams (url : GoString) : Values := ParseQuery (rawQueryOf url)

/-- The pieces `name=value` of the query string of a URL text, as written
there, whose name is written `name`. -/
def rawPieces (url name : GoString) : List GoString :=
  (Split (rawQueryOf url) (ch '&')).filter (fun piece => (Cut piece (ch '=')).1 = name)


/-! ## Definitions for the statements and the proofs -/

/-- The invariant of a `Values` built by `ParseQuery` and `Set`: each key
occurs once and no value list is empty. -/
def Values.WF (v : Values) : Prop :=
  (v.map Prod.fst).Nodup ∧ ∀ p ∈ v, p.2 ≠ []

/-- The name and the value of each pair `Values.Encode` writes, in the order it
writes them. -/
def Values.pairs (v : Values) : List (GoString × GoString) :=
  ((v.map Prod.fst).insertionSort (fun a b => strLe a b = true)).flatMap (fun k =>
    ((v.lookup k).getD []).map (fun x => (k, x)))

/-- The text `Values.Encode` writes for one pair. -/
def encPair (p : GoString × GoString) : GoString := QueryEscape p.1 ++ ch '=' :: QueryEscape p.2

/-- The values of `key` among a list of pairs, in order. -/
def valsOf (ps : List (GoString × GoString)) (key : GoString) : List GoString :=
  (ps.filter (fun p => p.1 = key)).map Prod.snd

/-- A text with no `?` and no `#`. -/
def clean (s : GoString) : Prop := ch '?' ∉ s ∧ ch '#' ∉ s

/-- The bytes `getScheme` lets into a scheme. -/
def schemeByte (c : Byte) : Bool :=
  ((ch 'a').val ≤ c.val && c.val ≤ (ch 'z').val) || ((ch 'A').val ≤ c.val && c.val ≤ (ch 'Z').val) ||
  ((ch '0').val ≤ c.val && c.val ≤ (ch '9').val) || c = ch '+' || c = ch '-' || c = ch '.'

/-- One statement of the builder: `q.Set(name, value)` when there is a value,
nothing otherwise. -/
def Values.setOpt (q : Values) (step : GoString × Option GoString) : Values :=
  match step.2 with
  | some x => q.Set step.1 x
  | none => q

/-- A sequence of such statements, run in order. -/
def applySteps (q : Values) (steps : List (GoString × Option GoString)) : Values :=
  steps.foldl Values.setOpt q

/-- The value list of `key` after a sequence of statements, from the value list
`r` it had before: the last statement that sets `key` decides. -/
def stepsValue : List (GoString × Option GoString) → GoString → Option (List GoString) →
    Option (List GoString)
  | [], _, r => r
  | (k, some x) :: steps, key, r => stepsValue steps key (if k = key then some [x] else r)
  | (_, none) :: steps, key, r => stepsValue steps key r

/-- The statements of lines 53 to 74, in order. -/
def addressSteps (req : NominatimSearchRequest) : List (GoString × Option GoString) :=
  if req.Query ≠ [] then [(B "q", some req.Query)]
  else
    [(B "street", if req.Street ≠ [] then some req.Street else none),
     (B "city", if req.City ≠ [] then some req.City else none),
     (B "county", if req.County ≠ [] then some req.County else none),
     (B "state", if req.State ≠ [] then some req.State else none),
     (B "country", if req.Country ≠ [] then some req.Country else none),
     (B "postalcode", if req.PostalCode ≠ [] then some req.PostalCode else none)]

/-- The statements of lines 75 to 104, in order. -/
def filterSteps (fmtF : Float64 → GoString) (req : NominatimSearchRequest) :
    List (GoString × Option GoString) :=
  [(B "addressdetails", some (B "1")),
   (B "limit", if req.Limit > 0 then some (Sprintf_d req.Limit) else none),
   (B "countrycodes",
      if req.CountryCodes.length > 0 then some (Join req.CountryCodes (B ",")) else none),
   (B "viewbox",
      match req.ViewBox with
      | [a, b, c, d] => some (fmtF a ++ B "," ++ fmtF b ++ B "," ++ fmtF c ++ B "," ++ fmtF d)
      | _ => none),
   (B "exclude_place_ids",
      if req.ExcludePlaceIds.length > 0 then some (Join req.ExcludePlaceIds (B ",")) else none),
   (B "bounded",
      match req.Bounded with
      | some true => some (B "1")
      | some false => some (B "0")
      | none => none),
   (B "routewidth",
      match req.RouteWidth with
      | some w => some (fmtF w)
      | none => none),
   (B "osm_type", if req.OSMType ≠ [] then some req.OSMType else none),
   (B "osm_id", if req.OSMId ≠ [] then some req.OSMId else none)]

/-- The statements of lines 52 to 108, in order. -/
def searchSteps (fmtF : Float64 → GoString) (key : GoString) (req : NominatimSearchRequest) :
    List (GoString × Option GoString) :=
  (B "format", some (B "json")) :: addressSteps req ++ filterSteps fmtF req ++
    [(B "key", if key ≠ [] then some key else none)]

/-- The value list a statement leaves: its one value, or else the list `r`
that was there. -/
def valueOr (o : Option GoString) (r : Option (List GoString)) : Option (List GoString) :=
  match o with
  | some x => some [x]
  | none => r

/-- Whether the base URL of a client carries a query component: whether it has
a `?` before its first `#`. -/
def Client.hasBaseQuery (c : Client) : Bool := containsByte (Cut c.baseURL (ch '#')).1 (ch '?')

/-- A formatter of floats for the examples: every float prints as `0.000000`. -/
def fmtZero : Float64 → GoString := fun _ => B "0.000000"

/-- A client for the examples. -/
def sampleClient : Client := { baseURL := B "http://open.mapquestapi.com", key := B "s3cret" }

/-- What `url.Parse` reads from the base URL of `sampleClient` followed by
`/nominatim/v1/search.php`. -/
def sampleURL : URL :=
  { Scheme := B "http", Host := B "open.mapquestapi.com", Path := B "/nominatim/v1/search.php" }

/-- A free-text request for the examples, its address fields filled in too. -/
def sampleQueryRequest : NominatimSearchRequest :=
  { Query := B "10 Downing St & Whitehall", Street := B "Main St", City := B "Springfield",
    Limit := 3, CountryCodes := [B "gb", B "de"], Bounded := some false }

/-- A structured request for the examples. -/
def sampleAddressRequest : NominatimSearchRequest :=
  { Street := B "1 Main St", City := B "K&R #5", PostalCode := B "12345",
    ViewBox := [1, 2, 3, 4], ExcludePlaceIds := [B "17", B "4"], Bounded := some true }

/-- The names of the parameters the builder sets. -/
def paramNames : List GoString :=
  [B "format", B "addressdetails", B "q", B "street", B "city", B "county", B "state",
   B "country", B "postalcode", B "limit", B "countrycodes", B "viewbox",
   B "exclude_place_ids", B "bounded", B "routewidth", B "osm_type", B "osm_id", B "key"]

/-- The names of the pieces of the query string of a URL text, as written there,
in order. -/
def rawNames (url : GoString) : List GoString :=
  (Split (rawQueryOf url) (ch '&')).map (fun piece => (Cut piece (ch '=')).1)

/-- A `Values` in which every name has exactly one value. -/
def Values.Single (v : Values) : Prop := ∀ p ∈ v, ∃ x, p.2 = [x]

/-- The decoded names of the pieces of the query string of a URL text, in
order; a name that does not unescape is left out, as `ParseQuery` does. -/
def decodedNames (url : GoString) : List GoString :=
  (rawNames url).filterMap (fun n =>
    match QueryUnescape n with
    | .ok name => some name
    | .error _ => none)

/-! ## `nominatim_api.go`: the response and `Search` -/

/-- The anonymous struct behind `NominatimSearchResult.Address` (lines 138 to
154), every field at its zero value by default. -/
structure Address where
  City : GoString := []
  CityDistrict : GoString := []
  Continent : GoString := []
  Country : GoString := []
  CountryCode : GoString := []
  County : GoString := []
  Hamlet : GoString := []
  HouseNumber : GoString := []
  Pedestrian : GoString := []
  Neighbourhood : GoString := []
  PostCode : GoString := []
  Road : GoString := []
  State : GoString := []
  StateDistrict : GoString := []
  Suburb : GoString := []
  deriving DecidableEq, Repr

/-- The struct `NominatimSearchResult` (lines 137 to 166), every field at its
zero value by default; `Address` is a pointer in Go, `none` standing for `nil`,
and the field `Type` is written `Type_`. -/
structure NominatimSearchResult where
  Address : Option Address := none
  Class : GoString := []
  DisplayName : GoString := []
  Importance : Float64 := 0
  Latitude : Float64 := 0
  Longitude : Float64 := 0
  OSMId : GoString := []
  OSMType : GoString := []
  PlaceId : GoString := []
  Type_ : GoString := []
  License : GoString := []
  deriving DecidableEq, Repr

/-- A Go slice `[]*NominatimSearchResult`: `none` is the nil slice, and an
element `none` a nil pointer. -/
abbrev ResultSlice := Option (List (Option NominatimSearchResult))

/-- The struct `NominatimSearchResponse` (lines 133 to 135). -/
structure NominatimSearchResponse where
  Results : ResultSlice
  deriving DecidableEq, Repr

/-- The `error` values `Search` returns: the `*url.Error` of `buildSearchURL`,
or an error `e` of the client, of whatever type `E` its errors are. -/
inductive SearchError (E : Type)
  | url (err : Error)
  | client (e : E)
  deriving DecidableEq, Repr

/-- What a run of `Search` gives: the response pointer (`none` for `nil`), the
error (`none` for `nil`), and the URLs with which it invoked `getJSON`, in
order. -/
structure SearchRun (E : Type) where
  res : Option NominatimSearchResponse
  err : Option (SearchError E)
  calls : List GoString
  deriving DecidableEq, Repr

/-- The method `NominatimAPI.Search` (lines 25 to 39).  `getJSON url target`
stands for the call `api.c.getJSON(url, &res.Results)` of the client, whose
code is not in `nominatim_api.go`: from the URL and the slice the target holds, the slice
it leaves there and the error it returns.  `fmtF x` stands for
`fmt.Sprintf("%f", x)`. -/
def Search {E : Type} (fmtF : Float64 → GoString)
    (getJSON : GoString → ResultSlice → ResultSlice × Option E) (c : Client)
    (req : NominatimSearchRequest) : SearchRun E :=
  match buildSearchURL fmtF c req with
  | (_, some err) => { res := none, err := some (.url err), calls := [] }
  | (u, none) =>
    match getJSON u (some []) with
    | (_, some err) => { res := none, err := some (.client err), calls := [u] }
    | (results, none) => { res := some { Results := results }, err := none, calls := [u] }

/-! ## The response decoder of the specification -/

/-- Modelled from the spec: whether `c` is an ASCII digit. -/
def isDigit (c : Byte) : Bool := (ch '0').val ≤ c.val && c.val ≤ (ch '9').val

/-- Modelled from the spec: the digits at the start of a text, and what follows them. -/
def takeDigits : GoString → GoString × GoString
  | [] => ([], [])
  | c :: s => if isDigit c then (c :: (takeDigits s).1, (takeDigits s).2) else ([], c :: s)

/-- Modelled from the spec: the number a text of digits writes in base 10. -/
def digitsToNat (ds : GoString) : Nat :=
  ds.foldl (fun n d => 10 * n + (d.val - (ch '0').val)) 0

/-- Modelled from the spec: the number of binary digits of `n`; the first argument
bounds the number of steps and is taken as `n` itself. -/
def bitLength : Nat → Nat → Nat
  | 0, _ => 0
  | fuel + 1, n => if n = 0 then 0 else bitLength fuel (n / 2) + 1

/-- Modelled from the spec: the integer part of the binary logarithm of a positive number. -/
def floorLog2 (n : Nat) : Nat := bitLength n n - 1

/-- Modelled from the spec: a decimal number `(-1)^neg * digits * 10^exp10`, the
value of a JSON number literal. -/
structure Decimal where
  neg : Bool
  digits : Nat
  exp10 : Int
  deriving DecidableEq, Repr

/-- Modelled from the spec: what it calls a decimal number in a response ("JSON
strings containing decimal numbers", section 4.2), read as the number literal
of JSON: an optional `-`, an integer part without leading zeros, an optional
fraction, an optional exponent.  Gives the value and the text after the
literal. -/
def scanNumber (s : GoString) : Option (Decimal × GoString) :=
  let neg := s.head? = some (ch '-')
  let s1 := if neg then s.tail else s
  let (ip, s2) := takeDigits s1
  if ip = [] ∨ (ip.length > 1 ∧ ip.head? = some (ch '0')) then none
  else
    let (fp, s3) :=
      if s2.head? = some (ch '.') then takeDigits s2.tail else ([], s2)
    if s2.head? = some (ch '.') ∧ fp = [] then none
    else
      if s3.head? = some (ch 'e') ∨ s3.head? = some (ch 'E') then
        let s4 := s3.tail
        let eneg := s4.head? = some (ch '-')
        let s5 := if eneg ∨ s4.head? = some (ch '+') then s4.tail else s4
        let (ep, s6) := takeDigits s5
        if ep = [] then none
        else
          some (⟨neg, digitsToNat (ip ++ fp),
            (if eneg then - (digitsToNat ep : Int) else (digitsToNat ep : Int)) - fp.length⟩, s6)
      else some (⟨neg, digitsToNat (ip ++ fp), - (fp.length : Int)⟩, s3)

/-- Modelled from the spec: "parsed to floating point" (section 4.2), read as
the `float64` nearest to the decimal number, ties to the even mantissa, as
IEEE 754 and Go's `strconv.ParseFloat` round; `none` when the number is too
large for a finite `float64`. -/
def Decimal.toFloat64 (d : Decimal) : Option Float64 :=
  let sign : Nat := if d.neg then 2 ^ 63 else 0
  if d.digits = 0 then some (Fin.ofNat sign)
  else
    let p : Nat := if d.exp10 ≥ 0 then d.digits * 10 ^ d.exp10.toNat else d.digits
    let q : Nat := if d.exp10 ≥ 0 then 1 else 10 ^ (- d.exp10).toNat
    let e1 : Int := (floorLog2 p : Int) - (floorLog2 q : Int) - 52
    let quot (e : Int) : Nat :=
      if e ≥ 0 then p / (q * 2 ^ e.toNat) else (p * 2 ^ (- e).toNat) / q
    let e2 : Int := if quot e1 < 2 ^ 52 then e1 - 1 else e1
    let e : Int := if e2 < -1074 then -1074 else e2
    let num : Nat := if e ≥ 0 then p else p * 2 ^ (- e).toNat
    let den : Nat := if e ≥ 0 then q * 2 ^ e.toNat else q
    let m := num / den
    let r := num % den
    let m2 := if 2 * r > den ∨ (2 * r = den ∧ m % 2 = 1) then m + 1 else m
    let bits := (e + 1074).toNat * 2 ^ 52 + m2
    if bits ≥ 0x7FF0000000000000 then none else some (Fin.ofNat (sign + bits))

/-- Modelled from the spec: the float a text holds, when the whole text is a
decimal number. -/
def parseFloat64 (s : GoString) : Option Float64 :=
  match scanNumber s with
  | some (d, []) => d.toFloat64
  | _ => none

/-- Modelled from the spec: a JSON value; a number is kept as the decimal number it writes. -/
inductive JSON
  | null
  | bool (b : Bool)
  | number (d : Decimal)
  | string (s : GoString)
  | array (elems : List JSON)
  | object (members : List (GoString × JSON))

/-- Modelled from the spec: the white space of JSON at the start of a text, dropped. -/
def skipWS : GoString → GoString
  | [] => []
  | c :: s =>
    if c = ch ' ' ∨ c = ch '\t' ∨ c = ch '\n' ∨ c = ch '\r' then skipWS s else c :: s

/-- Modelled from the spec: the UTF-8 bytes of a code point. -/
def utf8 (cp : Nat) : GoString :=
  if cp < 0x80 then [Fin.ofNat cp]
  else if cp < 0x800 then [Fin.ofNat (0xC0 + cp / 64), Fin.ofNat (0x80 + cp % 64)]
  else if cp < 0x10000 then
    [Fin.ofNat (0xE0 + cp / 4096), Fin.ofNat (0x80 + cp / 64 % 64), Fin.ofNat (0x80 + cp % 64)]
  else
    [Fin.ofNat (0xF0 + cp / 262144), Fin.ofNat (0x80 + cp / 4096 % 64),
     Fin.ofNat (0x80 + cp / 64 % 64), Fin.ofNat (0x80 + cp % 64)]

/-- Modelled from the spec: the value of four hexadecimal digits. -/
def hex4 (a b c d : Byte) : Option Nat :=
  if ishex a && ishex b && ishex c && ishex d then
    some (((unhex a * 16 + unhex b) * 16 + unhex c) * 16 + unhex d)
  else none

/-- Modelled from the spec: the byte a two-character escape of a JSON string stands for. -/
def simpleEscape (e : Byte) : Option Byte :=
  if e = ch '"' then some (ch '"')
  else if e = ch '\\' then some (ch '\\')
  else if e = ch '/' then some (ch '/')
  else if e = ch 'b' then some 8
  else if e = ch 'f' then some 12
  else if e = ch 'n' then some (ch '\n')
  else if e = ch 'r' then some (ch '\r')
  else if e = ch 't' then some (ch '\t')
  else none

/-- Modelled from the spec: the value of a `\u` escape for a low surrogate at the
start of a text, if the text starts with one. -/
def lowSurrogate (s : GoString) : Option Nat :=
  match s with
  | b1 :: b2 :: a :: b :: c :: d :: _ =>
    if b1 = ch '\\' ∧ b2 = ch 'u' then
      match hex4 a b c d with
      | some lo => if 0xDC00 ≤ lo ∧ lo < 0xE000 then some lo else none
      | none => none
    else none
  | _ => none

/-- Modelled from the spec: a JSON string from the byte after its opening quote: its
content, escapes resolved, and the text after its closing quote. A `\u` escape
gives the UTF-8 bytes of its code point, a surrogate pair those of the code
point it encodes, a lone surrogate those of U+FFFD; a control character ends the
scan in failure. The first argument bounds the number of steps. -/
def scanStringLoop : Nat → GoString → Option (GoString × GoString)
  | 0, _ => none
  | _ + 1, [] => none
  | fuel + 1, c :: s =>
    if c = ch '"' then some ([], s)
    else if c = ch '\\' then
      match s with
      | [] => none
      | e :: s2 =>
        if e = ch 'u' then
          match s2 with
          | a :: b :: c2 :: d :: s3 =>
            match hex4 a b c2 d with
            | none => none
            | some hi =>
              if 0xD800 ≤ hi ∧ hi < 0xDC00 then
                match lowSurrogate s3 with
                | some lo =>
                  (scanStringLoop fuel (s3.drop 6)).map (fun r =>
                    (utf8 (0x10000 + (hi - 0xD800) * 1024 + (lo - 0xDC00)) ++ r.1, r.2))
                | none => (scanStringLoop fuel s3).map (fun r => (utf8 0xFFFD ++ r.1, r.2))
              else if 0xDC00 ≤ hi ∧ hi < 0xE000 then
                (scanStringLoop fuel s3).map (fun r => (utf8 0xFFFD ++ r.1, r.2))
              else (scanStringLoop fuel s3).map (fun r => (utf8 hi ++ r.1, r.2))
          | _ => none
        else
          match simpleEscape e with
          | none => none
          | some x => (scanStringLoop fuel s2).map (fun r => (x :: r.1, r.2))
    else if c.val < 0x20 then none
    else (scanStringLoop fuel s).map (fun r => (c :: r.1, r.2))

/-- Modelled from the spec: a JSON string from the byte after its opening quote, with steps enough
for the whole text. -/
def scanString (s : GoString) : Option (GoString × GoString) := scanStringLoop (s.length + 1) s

mutual
/-- Modelled from the spec: one JSON value at the start of a text, after white
space: the value and the text after it. The first argument bounds the depth of
the calls. -/
def parseValue : Nat → GoString → Option (JSON × GoString)
  | 0, _ => none
  | fuel + 1, s =>
    match skipWS s with
    | [] => none
    | c :: rest =>
      if c = ch '"' then (scanString rest).map (fun r => (JSON.string r.1, r.2))
      else if c = ch '[' then
        match skipWS rest with
        | [] => none
        | d :: r2 =>
          if d = ch ']' then some (JSON.array [], r2)
          else (parseElems fuel (d :: r2)).map (fun r => (JSON.array r.1, r.2))
      else if c = ch '{' then
        match skipWS rest with
        | [] => none
        | d :: r2 =>
          if d = ch '}' then some (JSON.object [], r2)
          else (parseMembers fuel (d :: r2)).map (fun r => (JSON.object r.1, r.2))
      else if startsWith (c :: rest) (B "true") then some (JSON.bool true, (c :: rest).drop 4)
      else if startsWith (c :: rest) (B "false") then some (JSON.bool false, (c :: rest).drop 5)
      else if startsWith (c :: rest) (B "null") then some (JSON.null, (c :: rest).drop 4)
      else (scanNumber (c :: rest)).map (fun r => (JSON.number r.1, r.2))
/-- Modelled from the spec: the elements of a JSON array from its first element to its closing
bracket. -/
def parseElems : Nat → GoString → Option (List JSON × GoString)
  | 0, _ => none
  | fuel + 1, s =>
    match parseValue fuel s with
    | none => none
    | some (v, r) =>
      match skipWS r with
      | [] => none
      | c :: r2 =>
        if c = ch ',' then (parseElems fuel r2).map (fun t => (v :: t.1, t.2))
        else if c = ch ']' then some ([v], r2)
        else none
/-- Modelled from the spec: the members of a JSON object from its first name to its
closing brace. -/
def parseMembers : Nat → GoString → Option (List (GoString × JSON) × GoString)
  | 0, _ => none
  | fuel + 1, s =>
    match skipWS s with
    | [] => none
    | q :: r0 =>
      if q = ch '"' then
        match scanString r0 with
        | none => none
        | some (name, r1) =>
          match skipWS r1 with
          | [] => none
          | colon :: r2 =>
            if colon = ch ':' then
              match parseValue fuel r2 with
              | none => none
              | some (v, r3) =>
                match skipWS r3 with
                | [] => none
                | c :: r4 =>
                  if c = ch ',' then (parseMembers fuel r4).map (fun t => ((name, v) :: t.1, t.2))
                  else if c = ch '}' then some ([(name, v)], r4)
                  else none
            else none
      else none
end

/-- Modelled from the spec: the JSON value a whole text writes, `none` when the
text is not JSON.  The depth of the calls is bounded by twice the length of the
text plus two; every element and every level of nesting takes at least one byte
of the text. -/
def parseJSON (body : GoString) : Option JSON :=
  match parseValue (2 * body.length + 2) body with
  | some (v, rest) => if skipWS rest = [] then some v else none
  | none => none

/-- Modelled from the spec: the error of the decoder of the specification: the body
is not JSON, or a value has not the type of its place. -/
inductive DecodeError
  | malformed
  | typeMismatch (place : String)
  deriving DecidableEq, Repr

/-- Modelled from the spec: a JSON string, as the value of the field `place`. -/
def jsonString (place : String) : JSON → Except DecodeError GoString
  | .string s => .ok s
  | _ => .error (.typeMismatch place)

/-- Modelled from the spec: one member of the nested address object (section 3;
the names are the struct tags of lines 139 to 153): a member with a known name
sets its field, which is a string; any other member is passed over. -/
def decodeAddressMember (a : Address) (m : GoString × JSON) : Except DecodeError Address :=
  if m.1 = B "city" then (jsonString "city" m.2).map (fun s => { a with City := s })
  else if m.1 = B "city_district" then
    (jsonString "city_district" m.2).map (fun s => { a with CityDistrict := s })
  else if m.1 = B "continent" then
    (jsonString "continent" m.2).map (fun s => { a with Continent := s })
  else if m.1 = B "country" then (jsonString "country" m.2).map (fun s => { a with Country := s })
  else if m.1 = B "country_code" then
    (jsonString "country_code" m.2).map (fun s => { a with CountryCode := s })
  else if m.1 = B "county" then (jsonString "county" m.2).map (fun s => { a with County := s })
  else if m.1 = B "hamlet" then (jsonString "hamlet" m.2).map (fun s => { a with Hamlet := s })
  else if m.1 = B "house_number" then
    (jsonString "house_number" m.2).map (fun s => { a with HouseNumber := s })
  else if m.1 = B "pedestrian" then
    (jsonString "pedestrian" m.2).map (fun s => { a with Pedestrian := s })
  else if m.1 = B "neighbourhood" then
    (jsonString "neighbourhood" m.2).map (fun s => { a with Neighbourhood := s })
  else if m.1 = B "postcode" then
    (jsonString "postcode" m.2).map (fun s => { a with PostCode := s })
  else if m.1 = B "road" then (jsonString "road" m.2).map (fun s => { a with Road := s })
  else if m.1 = B "state" then (jsonString "state" m.2).map (fun s => { a with State := s })
  else if m.1 = B "state_district" then
    (jsonString "state_district" m.2).map (fun s => { a with StateDistrict := s })
  else if m.1 = B "suburb" then (jsonString "suburb" m.2).map (fun s => { a with Suburb := s })
  else .ok a

/-- Modelled from the spec: the members of a list, handled in order by `step` from `init`, up to the
first error. -/
def decodeMembers {α : Type} (step : α → GoString × JSON → Except DecodeError α) :
    α → List (GoString × JSON) → Except DecodeError α
  | a, [] => .ok a
  | a, m :: ms =>
    match step a m with
    | .error e => .error e
    | .ok a2 => decodeMembers step a2 ms

/-- Modelled from the spec: a float carried by a JSON string, as latitude and longitude are. -/
def jsonFloatString (place : String) : JSON → Except DecodeError Float64
  | .string s =>
    match parseFloat64 s with
    | some x => .ok x
    | none => .error (.typeMismatch place)
  | _ => .error (.typeMismatch place)

/-- Modelled from the spec: a float carried by a JSON number. -/
def jsonFloat (place : String) : JSON → Except DecodeError Float64
  | .number d =>
    match d.toFloat64 with
    | some x => .ok x
    | none => .error (.typeMismatch place)
  | _ => .error (.typeMismatch place)

/-- Modelled from the spec: one member of a result object (section 3 and
section 4.2; the names are the struct tags of lines 154 to 165).  `address` is
an object, decoded into the nested address; `lat` and `lon` are JSON strings
holding decimal numbers, parsed to floats; `importance` is a number; the other
known names are strings; a value of another type is an error, and a member with
any other name is passed over. -/
def decodeResultMember (r : NominatimSearchResult) (m : GoString × JSON) :
    Except DecodeError NominatimSearchResult :=
  if m.1 = B "address" then
    match m.2 with
    | .object members =>
      (decodeMembers decodeAddressMember {} members).map (fun a => { r with Address := some a })
    | _ => .error (.typeMismatch "address")
  else if m.1 = B "class" then (jsonString "class" m.2).map (fun s => { r with Class := s })
  else if m.1 = B "display_name" then
    (jsonString "display_name" m.2).map (fun s => { r with DisplayName := s })
  else if m.1 = B "importance" then
    (jsonFloat "importance" m.2).map (fun x => { r with Importance := x })
  else if m.1 = B "lat" then (jsonFloatString "lat" m.2).map (fun x => { r with Latitude := x })
  else if m.1 = B "lon" then (jsonFloatString "lon" m.2).map (fun x => { r with Longitude := x })
  else if m.1 = B "osm_id" then (jsonString "osm_id" m.2).map (fun s => { r with OSMId := s })
  else if m.1 = B "osm_type" then
    (jsonString "osm_type" m.2).map (fun s => { r with OSMType := s })
  else if m.1 = B "place_id" then
    (jsonString "place_id" m.2).map (fun s => { r with PlaceId := s })
  else if m.1 = B "type" then (jsonString "type" m.2).map (fun s => { r with Type_ := s })
  else if m.1 = B "licence" then (jsonString "licence" m.2).map (fun s => { r with License := s })
  else .ok r

/-- Modelled from the spec: one element of the response array, which is an
object and maps to one result record, absent keys leaving the zero value and an
absent address leaving no address. -/
def decodeResult : JSON → Except DecodeError NominatimSearchResult
  | .object members => decodeMembers decodeResultMember {} members
  | _ => .error (.typeMismatch "result")

/-- Modelled from the spec: the elements of a list decoded in order, up to the first error. -/
def decodeResults : List JSON → Except DecodeError (List NominatimSearchResult)
  | [] => .ok []
  | v :: vs =>
    match decodeResult v with
    | .error e => .error e
    | .ok r =>
      match decodeResults vs with
      | .error e => .error e
      | .ok rs => .ok (r :: rs)

/-- Modelled from the spec: the response decoder of section 4.2,
`Decode(jsonBody)`, which the client's `getJSON` (not in `nominatim_api.go`)
runs on the response body.  The body must be JSON and its top-level value an array;
the elements are decoded in order into result records; malformed JSON or a
value of the wrong type is a `DecodeError`. -/
def Decode (body : GoString) : Except DecodeError (List NominatimSearchResult) :=
  match parseJSON body with
  | none => .error .malformed
  | some (.array elems) => decodeResults elems
  | some _ => .error (.typeMismatch "response")

/-- Modelled from the spec: the errors of the client of the specification: a failure
of the transport, handed on as it is, or an error of the decoder. -/
inductive ClientError (T : Type)
  | transport (e : T)
  | decode (e : DecodeError)
  deriving DecidableEq, Repr

/-- Modelled from the spec: the method `Client.getJSON` (not in
`nominatim_api.go`), which "performs the GET and decodes JSON into the given destination"
(section 6).  `httpGet url` stands for the transport: the body of the response,
or its failure.  A failure of the transport or of the decoder is returned and
the destination left as it was; otherwise the destination holds the decoded
sequence, one pointer for each record. -/
def getJSON {T : Type} (httpGet : GoString → Except T GoString) (url : GoString)
    (target : ResultSlice) : ResultSlice × Option (ClientError T) :=
  match httpGet url with
  | .error e => (target, some (.transport e))
  | .ok body =>
    match Decode body with
    | .error e => (target, some (.decode e))
    | .ok rs => (some (rs.map some), none)

/-- The mantissa of a finite float with its sign: the float is this number
times two to the power `Float64.exp2`. -/
def Float64.scaled (x : Float64) : Int :=
  let e : Nat := x.val / 2 ^ 52 % 2048
  let m : Nat := if e = 0 then x.val % 2 ^ 52 else 2 ^ 52 + x.val % 2 ^ 52
  if x.val ≥ 2 ^ 63 then - Int.ofNat m else Int.ofNat m

/-- The power of two by which the mantissa of a finite float is scaled. -/
def Float64.exp2 (x : Float64) : Int :=
  let e : Nat := x.val / 2 ^ 52 % 2048
  if e = 0 then -1074 else Int.ofNat e - 1075

/-- A transport for the examples: every request is answered with `body`. -/
def httpAlways (body : GoString) : GoString → Except String GoString := fun _ => .ok body

/-! # Theorems -/


/-! ## Facts about single bytes -/

set_option maxRecDepth 100000

theorem upperhex_roundtrip : ∀ c : Byte,
    ishex (upperhex (c.val / 16)) = true ∧ ishex (upperhex (c.val % 16)) = true ∧
    (Fin.ofNat (unhex (upperhex (c.val / 16)) * 16 + unhex (upperhex (c.val % 16))) : Byte) = c := by
  decide!

theorem upperhex_plain : ∀ d : Fin 16,
    upperhex d.val ∉ [ch '&', ch '=', ch ';', ch '#', ch '?', ch '%', ch '+'] := by
  decide!

theorem queryByte_plain : ∀ c : Byte, shouldEscape c encodeQueryComponent = false →
    c ∉ [ch '&', ch '=', ch ';', ch '#', ch '?', ch '%', ch '+'] := by
  decide!

/-! ## Escaping a query component and reading it back -/

theorem plus_plain : ch '+' ∉ [ch '&', ch '=', ch ';', ch '#', ch '?'] := by decide

theorem percent_plain : ch '%' ∉ [ch '&', ch '=', ch ';', ch '#', ch '?'] := by decide

/-- No byte of an escaped query component is one of `&`, `=`, `;`, `#`, `?`. -/
theorem mem_QueryEscape (s : GoString) (c : Byte) (h : c ∈ QueryEscape s) :
    c ∉ [ch '&', ch '=', ch ';', ch '#', ch '?'] := by
  induction s with
  | nil => simp [QueryEscape, escape] at h
  | cons a s ih =>
    have hhi := upperhex_plain ⟨a.val / 16, by omega⟩
    have hlo := upperhex_plain ⟨a.val % 16, by omega⟩
    simp only [QueryEscape, escape] at h ih
    split at h
    · split at h
      · rcases List.mem_cons.1 h with rfl | h
        · exact plus_plain
        · exact ih h
      · rcases List.mem_cons.1 h with rfl | h
        · exact percent_plain
        · rcases List.mem_cons.1 h with rfl | h
          · intro hm; apply hhi; simp only [List.mem_cons] at hm ⊢; tauto
          · rcases List.mem_cons.1 h with rfl | h
            · intro hm; apply hlo; simp only [List.mem_cons] at hm ⊢; tauto
            · exact ih h
    · rcases List.mem_cons.1 h with rfl | h
      · rename_i hne
        have := queryByte_plain c (by simpa using hne)
        intro hm; apply this; simp only [List.mem_cons] at hm ⊢; tauto
      · exact ih h

theorem unescapeCheck_cons_query (c : Byte) (rest : GoString) (h : c ≠ ch '%') :
    unescapeCheck (c :: rest) encodeQueryComponent = unescapeCheck rest encodeQueryComponent := by
  rcases rest with _ | ⟨h1, _ | ⟨h2, t⟩⟩ <;> simp [unescapeCheck, h]

theorem unescapeDecode_cons_plus (rest : GoString) :
    unescapeDecode (ch '+' :: rest) encodeQueryComponent =
      ch ' ' :: unescapeDecode rest encodeQueryComponent := by
  have h : ch '+' ≠ ch '%' := by decide
  rcases rest with _ | ⟨h1, _ | ⟨h2, t⟩⟩ <;> simp [unescapeDecode, h]

theorem unescapeDecode_cons_plain (c : Byte) (rest : GoString) (mode : encoding)
    (h : c ≠ ch '%') (hp : c ≠ ch '+') :
    unescapeDecode (c :: rest) mode = c :: unescapeDecode rest mode := by
  rcases rest with _ | ⟨h1, _ | ⟨h2, t⟩⟩ <;> simp [unescapeDecode, h, hp]

theorem unescapeCheck_escape (s : GoString) :
    unescapeCheck (escape s encodeQueryComponent) encodeQueryComponent = none := by
  induction s with
  | nil => rfl
  | cons a s ih =>
    have hx := upperhex_roundtrip a
    simp only [escape]
    split
    · split
      · rw [unescapeCheck_cons_query _ _ (by decide), ih]
      · simp [unescapeCheck, hx.1, hx.2.1, ih]
    · rename_i hne
      have hp := queryByte_plain a (by simpa using hne)
      simp only [List.mem_cons, not_or] at hp
      rw [unescapeCheck_cons_query _ _ hp.2.2.2.2.2.1, ih]

theorem unescapeDecode_escape (s : GoString) :
    unescapeDecode (escape s encodeQueryComponent) encodeQueryComponent = s := by
  induction s with
  | nil => rfl
  | cons a s ih =>
    have hx := upperhex_roundtrip a
    simp only [escape]
    split
    · split
      · rename_i h
        rw [unescapeDecode_cons_plus, ih, h.1]
      · simp [unescapeDecode, hx.2.2, ih]
    · rename_i hne
      have hp := queryByte_plain a (by simpa using hne)
      simp only [List.mem_cons, not_or] at hp
      rw [unescapeDecode_cons_plain _ _ _ hp.2.2.2.2.2.1 hp.2.2.2.2.2.2.1, ih]

/-- Unescaping an escaped query component succeeds and gives the text back. -/
theorem QueryUnescape_QueryEscape (s : GoString) : QueryUnescape (QueryEscape s) = .ok s := by
  simp [QueryUnescape, QueryEscape, unescape, unescapeCheck_escape, unescapeDecode_escape]

/-! ## Query values as a map -/

theorem Values.lookup_assign (v : Values) (k : GoString) (vs : List GoString) (key : GoString) :
    (v.assign k vs).lookup key = if k = key then some vs else v.lookup key := by
  induction v with
  | nil => simp [Values.assign, Values.lookup]
  | cons p m ih =>
    obtain ⟨k0, old⟩ := p
    simp only [Values.assign]
    by_cases h0 : k0 = k
    · subst h0
      by_cases h1 : k0 = key <;> simp [Values.lookup, h1]
    · by_cases h1 : k0 = key
      · subst h1
        have : ¬ k = k0 := fun h => h0 h.symm
        simp [Values.lookup, h0, this]
      · simp [Values.lookup, h0, h1, ih]

theorem Values.lookup_Set (v : Values) (k x key : GoString) :
    (v.Set k x).lookup key = if k = key then some [x] else v.lookup key :=
  Values.lookup_assign v k [x] key

theorem Values.lookup_eq_none_iff (v : Values) (key : GoString) :
    v.lookup key = none ↔ key ∉ v.map Prod.fst := by
  induction v with
  | nil => simp [Values.lookup]
  | cons p m ih =>
    obtain ⟨k0, old⟩ := p
    by_cases h : k0 = key
    · simp [Values.lookup, h]
    · have h2 : ¬ key = k0 := fun e => h e.symm
      simp [Values.lookup, h, h2, ih]

theorem Values.lookup_mem (v : Values) (key : GoString) (vs : List GoString)
    (h : v.lookup key = some vs) : (key, vs) ∈ v := by
  induction v with
  | nil => simp [Values.lookup] at h
  | cons p m ih =>
    obtain ⟨k0, old⟩ := p
    by_cases h0 : k0 = key
    · simp [Values.lookup, h0] at h
      simp [h0, h]
    · simp [Values.lookup, h0] at h
      exact List.mem_cons_of_mem _ (ih h)

theorem Values.mem_keys_assign (v : Values) (k : GoString) (vs : List GoString) (key : GoString) :
    key ∈ (v.assign k vs).map Prod.fst ↔ key = k ∨ key ∈ v.map Prod.fst := by
  induction v with
  | nil => simp [Values.assign]
  | cons p m ih =>
    obtain ⟨k0, old⟩ := p
    simp only [Values.assign]
    by_cases h0 : k0 = k
    · subst h0
      simp
    · simp only [h0, if_false, List.map_cons, List.mem_cons, ih]
      tauto

theorem Values.mem_assign (v : Values) (k : GoString) (vs : List GoString)
    (p : GoString × List GoString) (h : p ∈ v.assign k vs) : p = (k, vs) ∨ p ∈ v := by
  induction v with
  | nil => simpa [Values.assign] using h
  | cons p0 m ih =>
    obtain ⟨k0, old⟩ := p0
    simp only [Values.assign] at h
    by_cases h0 : k0 = k
    · subst h0
      simp only [if_true, List.mem_cons] at h
      rcases h with h | h
      · exact Or.inl h
      · exact Or.inr (List.mem_cons_of_mem _ h)
    · simp only [h0, if_false, List.mem_cons] at h
      rcases h with h | h
      · exact Or.inr (by simp [h])
      · rcases ih h with h | h
        · exact Or.inl h
        · exact Or.inr (List.mem_cons_of_mem _ h)

theorem Values.WF_assign (v : Values) (k : GoString) (vs : List GoString)
    (hv : v.WF) (hvs : vs ≠ []) : (v.assign k vs).WF := by
  refine ⟨?_, ?_⟩
  · have hn := hv.1
    clear hv
    induction v with
    | nil => simp [Values.assign]
    | cons p m ih =>
      obtain ⟨k0, old⟩ := p
      simp only [Values.assign]
      by_cases h0 : k0 = k
      · subst h0
        simpa using hn
      · simp only [h0, if_false, List.map_cons, List.nodup_cons]
        simp only [List.map_cons, List.nodup_cons] at hn
        refine ⟨?_, ih hn.2⟩
        rw [Values.mem_keys_assign]
        intro h
        rcases h with h | h
        · exact h0 h
        · exact hn.1 h
  · intro p hp
    rcases Values.mem_assign v k vs p hp with h | h
    · rw [h]; exact hvs
    · exact hv.2 p h

theorem Values.WF_nil : Values.WF [] := by
  simp [Values.WF]

theorem Values.WF_Set (v : Values) (k x : GoString) (hv : v.WF) : (v.Set k x).WF :=
  Values.WF_assign v k [x] hv (by simp)

theorem Values.WF_append (v : Values) (k x : GoString) (hv : v.WF) : (v.append k x).WF :=
  Values.WF_assign v k _ hv (by simp)

theorem WF_parseQueryPiece (m : Values) (piece : GoString) (hm : m.WF) :
    (parseQueryPiece m piece).WF := by
  unfold parseQueryPiece
  split
  · exact hm
  · split
    · exact hm
    · split
      · exact hm
      · split
        · exact hm
        · exact Values.WF_append _ _ _ hm

theorem WF_foldl_parseQueryPiece (pieces : List GoString) (m : Values) (hm : m.WF) :
    (pieces.foldl parseQueryPiece m).WF := by
  induction pieces generalizing m with
  | nil => exact hm
  | cons p ps ih => exact ih _ (WF_parseQueryPiece m p hm)

/-- The values `ParseQuery` returns have each key once and no empty list. -/
theorem WF_ParseQuery (query : GoString) : (ParseQuery query).WF :=
  WF_foldl_parseQueryPiece _ _ Values.WF_nil

/-! ## Cutting and splitting -/

theorem Cut_append_sep (a b : GoString) (sep : Byte) (h : sep ∉ a) :
    Cut (a ++ sep :: b) sep = (a, b) := by
  induction a with
  | nil => simp [Cut]
  | cons c a ih =>
    simp only [List.mem_cons, not_or] at h
    have hc : ¬ c = sep := fun e => h.1 e.symm
    simp [Cut, hc, ih h.2]

theorem Cut_no_sep (a : GoString) (sep : Byte) (h : sep ∉ a) : Cut a sep = (a, []) := by
  induction a with
  | nil => simp [Cut]
  | cons c a ih =>
    simp only [List.mem_cons, not_or] at h
    have hc : ¬ c = sep := fun e => h.1 e.symm
    simp [Cut, hc, ih h.2]

theorem Cut_fst_no_sep (s : GoString) (sep : Byte) : sep ∉ (Cut s sep).1 := by
  induction s with
  | nil => simp [Cut]
  | cons c s ih =>
    simp only [Cut]
    split
    · simp
    · rename_i hc
      simp only [List.mem_cons, not_or]
      exact ⟨fun e => hc e.symm, ih⟩

theorem Cut_fst_subset (s : GoString) (sep c : Byte) (h : c ∈ (Cut s sep).1) : c ∈ s := by
  induction s with
  | nil => simp [Cut] at h
  | cons d s ih =>
    simp only [Cut] at h
    split at h
    · simp at h
    · rcases List.mem_cons.1 h with h | h
      · simp [h]
      · exact List.mem_cons_of_mem _ (ih h)

theorem Cut_snd_subset (s : GoString) (sep c : Byte) (h : c ∈ (Cut s sep).2) : c ∈ s := by
  induction s with
  | nil => simp [Cut] at h
  | cons d s ih =>
    simp only [Cut] at h
    split at h
    · exact List.mem_cons_of_mem _ h
    · exact List.mem_cons_of_mem _ (ih h)

theorem Split_no_sep (a : GoString) (sep : Byte) (h : sep ∉ a) : Split a sep = [a] := by
  induction a with
  | nil => simp [Split]
  | cons c a ih =>
    simp only [List.mem_cons, not_or] at h
    have hc : ¬ c = sep := fun e => h.1 e.symm
    simp [Split, hc, ih h.2]

theorem Split_append_sep (a t : GoString) (sep : Byte) (h : sep ∉ a) :
    Split (a ++ sep :: t) sep = a :: Split t sep := by
  induction a with
  | nil => simp [Split]
  | cons c a ih =>
    simp only [List.mem_cons, not_or] at h
    have hc : ¬ c = sep := fun e => h.1 e.symm
    simp [Split, hc, ih h.2]

theorem Split_Join (pieces : List GoString) (sep : Byte) (hne : pieces ≠ [])
    (h : ∀ p ∈ pieces, sep ∉ p) : Split (Join pieces [sep]) sep = pieces := by
  induction pieces with
  | nil => exact absurd rfl hne
  | cons a rest ih =>
    cases rest with
    | nil => simpa [Join] using Split_no_sep a sep (h a (by simp))
    | cons b rest =>
      have h1 : sep ∉ a := h a (by simp)
      have h2 := ih (by simp) (fun p hp => h p (List.mem_cons_of_mem _ hp))
      simp only [Join, List.append_assoc, List.singleton_append]
      rw [Split_append_sep _ _ _ h1, h2]

theorem Join_eq_intercalate (pieces : List GoString) (sep : GoString) :
    Join pieces sep = sep.intercalate pieces := by
  induction pieces with
  | nil => rfl
  | cons a rest ih =>
    cases rest with
    | nil => simp [Join, List.intercalate]
    | cons b rest =>
      simp only [Join, ih, List.intercalate, List.intersperse, List.flatten_cons,
        List.append_assoc]

theorem mem_Join (pieces : List GoString) (sep : GoString) (c : Byte)
    (h : c ∈ Join pieces sep) : c ∈ sep ∨ ∃ p ∈ pieces, c ∈ p := by
  induction pieces with
  | nil => simp [Join] at h
  | cons a rest ih =>
    cases rest with
    | nil => exact Or.inr ⟨a, by simp, by simpa [Join] using h⟩
    | cons b rest =>
      simp only [Join, List.mem_append] at h
      rcases h with (h | h) | h
      · exact Or.inr ⟨a, by simp, h⟩
      · exact Or.inl h
      · rcases ih h with h | ⟨p, hp, hc⟩
        · exact Or.inl h
        · exact Or.inr ⟨p, List.mem_cons_of_mem _ hp, hc⟩

/-! ## Parsing an encoded query -/

theorem Encode_eq (v : Values) : v.Encode = Join (v.pairs.map encPair) [ch '&'] := by
  unfold Values.Encode Values.pairs
  rw [List.map_flatMap]
  simp only [List.map_map]
  rfl

theorem eq_not_mem_QueryEscape (s : GoString) : ch '=' ∉ QueryEscape s :=
  fun h => mem_QueryEscape s _ h (by simp)

theorem amp_not_mem_QueryEscape (s : GoString) : ch '&' ∉ QueryEscape s :=
  fun h => mem_QueryEscape s _ h (by simp)

theorem semi_not_mem_QueryEscape (s : GoString) : ch ';' ∉ QueryEscape s :=
  fun h => mem_QueryEscape s _ h (by simp)

theorem hash_not_mem_QueryEscape (s : GoString) : ch '#' ∉ QueryEscape s :=
  fun h => mem_QueryEscape s _ h (by simp)

theorem mem_encPair (p : GoString × GoString) (c : Byte) (h : c ∈ encPair p) :
    c = ch '=' ∨ c ∈ QueryEscape p.1 ∨ c ∈ QueryEscape p.2 := by
  simp only [encPair, List.mem_append, List.mem_cons] at h
  tauto

theorem amp_not_mem_encPair (p : GoString × GoString) : ch '&' ∉ encPair p := by
  intro h
  rcases mem_encPair p _ h with h | h | h
  · exact absurd h (by decide)
  · exact amp_not_mem_QueryEscape _ h
  · exact amp_not_mem_QueryEscape _ h

theorem semi_not_mem_encPair (p : GoString × GoString) : ch ';' ∉ encPair p := by
  intro h
  rcases mem_encPair p _ h with h | h | h
  · exact absurd h (by decide)
  · exact semi_not_mem_QueryEscape _ h
  · exact semi_not_mem_QueryEscape _ h

theorem hash_not_mem_encPair (p : GoString × GoString) : ch '#' ∉ encPair p := by
  intro h
  rcases mem_encPair p _ h with h | h | h
  · exact absurd h (by decide)
  · exact hash_not_mem_QueryEscape _ h
  · exact hash_not_mem_QueryEscape _ h

theorem parseQueryPiece_encPair (m : Values) (p : GoString × GoString) :
    parseQueryPiece m (encPair p) = m.append p.1 p.2 := by
  have h1 : containsByte (encPair p) (ch ';') = false := by
    have := semi_not_mem_encPair p
    simp only [containsByte, List.any_eq_false, decide_eq_true_eq]
    intro x hx e
    exact this (e ▸ hx)
  have h2 : encPair p ≠ [] := by simp [encPair]
  have h3 : Cut (encPair p) (ch '=') = (QueryEscape p.1, QueryEscape p.2) :=
    Cut_append_sep _ _ _ (eq_not_mem_QueryEscape _)
  simp [parseQueryPiece, h1, h2, h3, QueryUnescape_QueryEscape]

theorem foldl_parseQueryPiece_encPair (ps : List (GoString × GoString)) (m : Values) :
    (ps.map encPair).foldl parseQueryPiece m = ps.foldl (fun (m : Values) p => Values.append m p.1 p.2) m := by
  induction ps generalizing m with
  | nil => rfl
  | cons p ps ih => simp only [List.map_cons, List.foldl_cons, parseQueryPiece_encPair, ih]

/-- Parsing an encoded query adds the encoded pairs one by one. -/
theorem ParseQuery_Encode_eq (v : Values) :
    ParseQuery v.Encode = v.pairs.foldl (fun (m : Values) p => Values.append m p.1 p.2) [] := by
  rw [Encode_eq]
  unfold ParseQuery
  by_cases hp : v.pairs = []
  · simp [hp, Join, Split, parseQueryPiece, containsByte]
  · rw [Split_Join _ _ (by simpa using hp), foldl_parseQueryPiece_encPair]
    intro p hp
    obtain ⟨q, _, rfl⟩ := List.mem_map.1 hp
    exact amp_not_mem_encPair q

theorem lookup_foldl_append (ps : List (GoString × GoString)) (m : Values) (key : GoString) :
    (ps.foldl (fun (m : Values) p => Values.append m p.1 p.2) m).lookup key =
      if valsOf ps key = [] then m.lookup key
      else some ((m.lookup key).getD [] ++ valsOf ps key) := by
  induction ps generalizing m with
  | nil => simp [valsOf]
  | cons p ps ih =>
    simp only [List.foldl_cons, ih]
    by_cases hk : p.1 = key
    · have hv : valsOf (p :: ps) key = p.2 :: valsOf ps key := by simp [valsOf, hk]
      rw [hv]
      simp only [Values.append, Values.lookup_assign, hk, if_true]
      by_cases he : valsOf ps key = [] <;> simp [he]
    · have hv : valsOf (p :: ps) key = valsOf ps key := by simp [valsOf, hk]
      rw [hv]
      simp only [Values.append, Values.lookup_assign, hk, if_false]

theorem valsOf_append (a b : List (GoString × GoString)) (key : GoString) :
    valsOf (a ++ b) key = valsOf a key ++ valsOf b key := by
  simp [valsOf]

theorem valsOf_map_pair (k : GoString) (l : List GoString) (key : GoString) :
    valsOf (l.map (fun x => (k, x))) key = if k = key then l else [] := by
  induction l with
  | nil => simp [valsOf]
  | cons x l ih =>
    simp only [valsOf] at ih
    by_cases h : k = key <;> simp [valsOf, h] at ih ⊢
    · exact ih

theorem valsOf_flatMap (v : Values) (keys : List GoString) (hn : keys.Nodup) (key : GoString) :
    valsOf (keys.flatMap (fun k => ((v.lookup k).getD []).map (fun x => (k, x)))) key =
      if key ∈ keys then (v.lookup key).getD [] else [] := by
  induction keys with
  | nil => simp [valsOf]
  | cons k ks ih =>
    simp only [List.nodup_cons] at hn
    rw [List.flatMap_cons, valsOf_append, valsOf_map_pair, ih hn.2]
    by_cases h : k = key
    · subst h
      simp [hn.1]
    · have h2 : ¬ key = k := fun e => h e.symm
      simp [h, h2]

theorem valsOf_pairs (v : Values) (hv : v.WF) (key : GoString) :
    valsOf v.pairs key = (v.lookup key).getD [] := by
  have hperm := List.perm_insertionSort (fun a b => strLe a b = true) (v.map Prod.fst)
  have hn : ((v.map Prod.fst).insertionSort (fun a b => strLe a b = true)).Nodup :=
    hperm.nodup_iff.2 hv.1
  have hm : key ∈ (v.map Prod.fst).insertionSort (fun a b => strLe a b = true) ↔
      key ∈ v.map Prod.fst := hperm.mem_iff
  unfold Values.pairs
  rw [valsOf_flatMap v _ hn key]
  cases hl : v.lookup key with
  | none => simp
  | some vs =>
    have hmem : key ∈ v.map Prod.fst := by
      by_contra hc
      rw [← Values.lookup_eq_none_iff] at hc
      rw [hc] at hl
      cases hl
    simp [hm.2 hmem]

/-- Parsing the text `Values.Encode` wrote gives back the value list of every
key. -/
theorem lookup_ParseQuery_Encode (v : Values) (hv : v.WF) (key : GoString) :
    (ParseQuery v.Encode).lookup key = v.lookup key := by
  rw [ParseQuery_Encode_eq, lookup_foldl_append, valsOf_pairs v hv]
  cases hl : v.lookup key with
  | none => simp [Values.lookup]
  | some vs =>
    have hne : vs ≠ [] := hv.2 _ (Values.lookup_mem v key vs hl)
    simp [hne, Values.lookup]

theorem QueryEscape_injective (a b : GoString) (h : QueryEscape a = QueryEscape b) : a = b := by
  have h1 := QueryUnescape_QueryEscape a
  rw [h, QueryUnescape_QueryEscape] at h1
  exact (Except.ok.inj h1).symm

/-- The pieces of an encoded query that are written with the name `name`: one
for each value of `name`, in order. -/
theorem filter_Split_Encode (v : Values) (hv : v.WF) (name : GoString) (hne : name ≠ [])
    (hesc : QueryEscape name = name) :
    (Split v.Encode (ch '&')).filter (fun piece => (Cut piece (ch '=')).1 = name) =
      ((v.lookup name).getD []).map (fun x => name ++ ch '=' :: QueryEscape x) := by
  rw [← valsOf_pairs v hv, Encode_eq]
  by_cases hp : v.pairs = []
  · simp [hp, Join, Split, Cut, valsOf, Ne.symm hne]
  · rw [Split_Join _ _ (by simpa using hp)]
    · rw [List.filter_map]
      have hf : ((fun piece => decide ((Cut piece (ch '=')).1 = name)) ∘ encPair) =
          (fun p : GoString × GoString => decide (p.1 = name)) := by
        funext p
        have h3 : Cut (encPair p) (ch '=') = (QueryEscape p.1, QueryEscape p.2) :=
          Cut_append_sep _ _ _ (eq_not_mem_QueryEscape _)
        simp only [Function.comp, h3]
        by_cases h : p.1 = name
        · simp [h, hesc]
        · have h2 : QueryEscape p.1 ≠ name := by
            intro e
            rw [← hesc] at e
            exact h (QueryEscape_injective _ _ e)
          simp [h, h2]
      rw [hf]
      unfold valsOf
      rw [List.map_map]
      apply List.map_congr_left
      intro p hp
      have h1 : p.1 = name := by simpa using (List.mem_filter.1 hp).2
      simp only [Function.comp, encPair, ← h1]
      rw [h1, hesc]
    · intro p hp
      obtain ⟨q, _, rfl⟩ := List.mem_map.1 hp
      exact amp_not_mem_encPair q

/-! ## The text before the query holds no `?` and no `#` -/

theorem clean_nil : clean [] := by simp [clean]

theorem clean_append (a b : GoString) (ha : clean a) (hb : clean b) : clean (a ++ b) := by
  simp only [clean, List.mem_append, not_or] at *
  tauto

theorem clean_cons (c : Byte) (s : GoString) (h1 : c ≠ ch '?') (h2 : c ≠ ch '#') (hs : clean s) :
    clean (c :: s) := by
  simp only [clean, List.mem_cons, not_or] at *
  exact ⟨⟨fun e => h1 e.symm, hs.1⟩, ⟨fun e => h2 e.symm, hs.2⟩⟩

theorem clean_ite (c : Prop) [Decidable c] (a b : GoString) (ha : clean a) (hb : clean b) :
    clean (if c then a else b) := by
  split <;> assumption

theorem cleanByte_of_not_shouldEscape : ∀ c : Byte,
    (shouldEscape c encodePath = false ∨ shouldEscape c encodeHost = false ∨
      shouldEscape c encodeUserPassword = false) → c ≠ ch '?' ∧ c ≠ ch '#' := by
  decide!

theorem cleanByte_upperhex (d : Nat) (h : d < 16) :
    upperhex d ≠ ch '?' ∧ upperhex d ≠ ch '#' := by
  have := upperhex_plain ⟨d, h⟩
  simp only [List.mem_cons, not_or] at this
  exact ⟨this.2.2.2.2.1, this.2.2.2.1⟩

theorem clean_escape (s : GoString) (mode : encoding)
    (hm : mode = encodePath ∨ mode = encodeHost ∨ mode = encodeUserPassword) :
    clean (escape s mode) := by
  induction s with
  | nil => exact clean_nil
  | cons a s ih =>
    simp only [escape]
    split
    · split
      · rename_i h
        rcases hm with hm | hm | hm <;> rw [hm] at h <;> exact absurd h.2 (by decide)
      · have h1 := cleanByte_upperhex (a.val / 16) (by omega)
        have h2 := cleanByte_upperhex (a.val % 16) (by omega)
        exact clean_cons _ _ (by decide) (by decide)
          (clean_cons _ _ h1.1 h1.2 (clean_cons _ _ h2.1 h2.2 ih))
    · rename_i hne
      have hb : a ≠ ch '?' ∧ a ≠ ch '#' := by
        apply cleanByte_of_not_shouldEscape
        rcases hm with hm | hm | hm <;> subst hm <;> simp [hne]
      exact clean_cons _ _ hb.1 hb.2 ih

theorem cleanByte_of_validEncoded : ∀ c : Byte,
    ((if c ∈ [ch '!', ch '$', ch '&', ch '\'', ch '(', ch ')', ch '*', ch '+', ch ',', ch ';',
            ch '=', ch ':', ch '@'] then true
      else if c ∈ [ch '[', ch ']'] then true
      else if c = ch '%' then true
      else !shouldEscape c encodePath) = true) → c ≠ ch '?' ∧ c ≠ ch '#' := by
  decide!

theorem clean_of_validEncoded (s : GoString) (h : validEncoded s encodePath = true) : clean s := by
  induction s with
  | nil => exact clean_nil
  | cons a s ih =>
    simp only [validEncoded, List.all_cons, Bool.and_eq_true] at h ih
    have hb := cleanByte_of_validEncoded a h.1
    exact clean_cons _ _ hb.1 hb.2 (ih h.2)

theorem clean_EscapedPath (u : URL) : clean u.EscapedPath := by
  unfold URL.EscapedPath
  split
  · rename_i h
    exact clean_of_validEncoded _ h.2.1
  · split
    · simp only [clean]; decide
    · exact clean_escape _ _ (Or.inl rfl)

theorem clean_Userinfo_String (ui : Userinfo) : clean ui.String := by
  unfold Userinfo.String
  apply clean_append
  · exact clean_escape _ _ (Or.inr (Or.inr rfl))
  · split
    · exact clean_cons _ _ (by decide) (by decide) (clean_escape _ _ (Or.inr (Or.inr rfl)))
    · exact clean_nil

theorem clean_authorityString (u : URL) : clean u.authorityString := by
  unfold URL.authorityString
  split
  · split
    · exact clean_nil
    · apply clean_append
      · apply clean_append
        · split
          · simp only [clean]; decide
          · exact clean_nil
        · cases u.User with
          | none => exact clean_nil
          | some ui =>
            exact clean_append _ _ (clean_Userinfo_String ui)
              (clean_cons _ _ (by decide) (by decide) clean_nil)
      · split
        · exact clean_escape _ _ (Or.inr (Or.inl rfl))
        · exact clean_nil
  · exact clean_nil

/-- The text `URL.String` writes before the query holds no `?` and no `#`,
when the scheme and the opaque part hold none. -/
theorem clean_headString (u : URL) (hs : clean u.Scheme) (ho : clean u.Opaque) :
    clean u.headString := by
  have h0 : clean (if u.Scheme ≠ [] then u.Scheme ++ [ch ':'] else []) := by
    split
    · exact clean_append _ _ hs (clean_cons _ _ (by decide) (by decide) clean_nil)
    · exact clean_nil
  unfold URL.headString
  simp only
  split
  · exact clean_append _ _ h0 ho
  · have h1 := clean_append _ _ h0 (clean_authorityString u)
    have hsl : clean [ch '/'] := clean_cons _ _ (by decide) (by decide) clean_nil
    have hdot : clean (B "./") := by simp only [clean]; decide
    apply clean_append _ _ _ (clean_EscapedPath u)
    apply clean_ite
    · apply clean_append _ _ _ hdot
      exact clean_ite _ _ _ (clean_append _ _ h1 hsl) h1
    · exact clean_ite _ _ _ (clean_append _ _ h1 hsl) h1

/-! ## The scheme and the opaque part of a parsed URL -/

theorem getSchemeLoop_spec (raw : GoString) (rest : GoString) :
    ∀ (acc sch rst : GoString), getSchemeLoop raw acc rest = .ok (sch, rst) →
      (∀ c ∈ acc, schemeByte c = true) → (∀ c ∈ rest, c ∈ raw) →
      (∀ c ∈ sch, schemeByte c = true) ∧ (∀ c ∈ rst, c ∈ raw) := by
  induction rest with
  | nil =>
    intro acc sch rst h _ _
    simp only [getSchemeLoop, Except.ok.injEq, Prod.mk.injEq] at h
    obtain ⟨rfl, rfl⟩ := h
    simp
  | cons c rest ih =>
    intro acc sch rst h hacc hrest
    have hrest2 : ∀ d ∈ rest, d ∈ raw := fun d hd => hrest d (List.mem_cons_of_mem _ hd)
    simp only [getSchemeLoop] at h
    split at h
    · rename_i hc
      refine ih _ _ _ h ?_ hrest2
      intro d hd
      rcases List.mem_append.1 hd with hd | hd
      · exact hacc d hd
      · simp only [List.mem_singleton] at hd
        subst hd
        simp only [schemeByte, Bool.or_eq_true, Bool.and_eq_true, decide_eq_true_eq]
        tauto
    · split at h
      · rename_i hc
        split at h
        · simp only [Except.ok.injEq, Prod.mk.injEq] at h
          obtain ⟨rfl, rfl⟩ := h
          simp
        · refine ih _ _ _ h ?_ hrest2
          intro d hd
          rcases List.mem_append.1 hd with hd | hd
          · exact hacc d hd
          · simp only [List.mem_singleton] at hd
            subst hd
            simp only [schemeByte, Bool.or_eq_true, Bool.and_eq_true, decide_eq_true_eq]
            tauto
      · split at h
        · split at h
          · cases h
          · simp only [Except.ok.injEq, Prod.mk.injEq] at h
            obtain ⟨rfl, rfl⟩ := h
            exact ⟨hacc, hrest2⟩
        · simp only [Except.ok.injEq, Prod.mk.injEq] at h
          obtain ⟨rfl, rfl⟩ := h
          simp

theorem getScheme_spec (raw sch rst : GoString) (h : getScheme raw = .ok (sch, rst)) :
    (∀ c ∈ sch, schemeByte c = true) ∧ (∀ c ∈ rst, c ∈ raw) :=
  getSchemeLoop_spec raw raw [] sch rst h (by simp) (fun _ hc => hc)

theorem cleanByte_lower : ∀ c : Byte, schemeByte c = true →
    (if (ch 'A').val ≤ c.val ∧ c.val ≤ (ch 'Z').val then (Fin.ofNat (c.val + 32) : Byte) else c) ≠ ch '?' ∧
    (if (ch 'A').val ≤ c.val ∧ c.val ≤ (ch 'Z').val then (Fin.ofNat (c.val + 32) : Byte) else c) ≠ ch '#' := by
  decide!

theorem clean_ToLower (s : GoString) (h : ∀ c ∈ s, schemeByte c = true) : clean (ToLower s) := by
  induction s with
  | nil => exact clean_nil
  | cons a s ih =>
    have ha := cleanByte_lower a (h a (by simp))
    exact clean_cons _ _ ha.1 ha.2 (ih (fun c hc => h c (List.mem_cons_of_mem _ hc)))

theorem setPath_fields (u u2 : URL) (p : GoString) (h : URL.setPath u p = .ok u2) :
    u2.Scheme = u.Scheme ∧ u2.Opaque = u.Opaque ∧ u2.RawQuery = u.RawQuery := by
  unfold URL.setPath at h
  split at h
  · cases h
  · simp only [Except.ok.injEq] at h
    subst h
    simp

theorem setFragment_fields (u u2 : URL) (f : GoString) (h : URL.setFragment u f = .ok u2) :
    u2.Scheme = u.Scheme ∧ u2.Opaque = u.Opaque ∧ u2.RawQuery = u.RawQuery := by
  unfold URL.setFragment at h
  split at h
  · cases h
  · simp only [Except.ok.injEq] at h
    subst h
    simp

theorem not_mem_dropLast_of_count (s : GoString) (sep : Byte)
    (hl : s.getLast? = some sep) (hc : countByte s sep = 1) : sep ∉ s.dropLast := by
  have hs : s = s.dropLast ++ [sep] := by
    cases hne : s with
    | nil => simp [hne] at hl
    | cons a t =>
      rw [← hne]
      have hne2 : s ≠ [] := by simp [hne]
      rw [List.getLast?_eq_getLast _ hne2] at hl
      simp only [Option.some.injEq] at hl
      rw [← hl]
      exact (List.dropLast_append_getLast hne2).symm
  rw [hs, countByte, List.countP_append] at hc
  simp only [List.countP_cons, List.countP_nil, decide_True, if_true] at hc
  have h0 : List.countP (fun c => decide (c = sep)) s.dropLast = 0 := by omega
  rw [List.countP_eq_zero] at h0
  intro hm
  have := h0 sep hm
  simp at this

theorem parseRest_fields (url u : URL) (rest : GoString) (h : parseRest url rest = .ok u) :
    u.Scheme = url.Scheme ∧ (u.Opaque = url.Opaque ∨ u.Opaque = rest) ∧
      u.RawQuery = url.RawQuery := by
  unfold parseRest at h
  split at h
  · simp only [Except.ok.injEq] at h
    subst h
    simp
  · split at h
    · cases h
    · split at h
      · simp only at h
        split at h
        · cases h
        · have := setPath_fields _ _ _ h
          exact ⟨this.1, Or.inl this.2.1, this.2.2⟩
      · split at h
        · have := setPath_fields _ _ _ h
          exact ⟨this.1, Or.inl this.2.1, this.2.2⟩
        · have := setPath_fields _ _ _ h
          exact ⟨this.1, Or.inl this.2.1, this.2.2⟩

theorem parse_clean (raw : GoString) (u : URL) (hraw : ch '#' ∉ raw) (h : parse raw = .ok u) :
    clean u.Scheme ∧ clean u.Opaque := by
  unfold parse at h
  split at h
  · cases h
  · split at h
    · simp only [Except.ok.injEq] at h
      subst h
      exact ⟨clean_nil, clean_nil⟩
    · split at h
      · cases h
      · rename_i scheme rest0 hsch
        have hspec := getScheme_spec raw scheme rest0 hsch
        have hS : clean (ToLower scheme) := clean_ToLower _ hspec.1
        have hrest0 : ch '#' ∉ rest0 := fun hm => hraw (hspec.2 _ hm)
        split at h
        · rename_i hf
          have hR : clean rest0.dropLast :=
            ⟨not_mem_dropLast_of_count _ _ hf.1 hf.2,
              fun hm => hrest0 (List.mem_of_mem_dropLast hm)⟩
          have := parseRest_fields _ _ _ h
          rw [this.1]
          refine ⟨hS, ?_⟩
          rcases this.2.1 with e | e <;> rw [e]
          · exact clean_nil
          · exact hR
        · have hR : clean (Cut rest0 (ch '?')).1 :=
            ⟨Cut_fst_no_sep _ _, fun hm => hrest0 (Cut_fst_subset _ _ _ hm)⟩
          have := parseRest_fields _ _ _ h
          rw [this.1]
          refine ⟨hS, ?_⟩
          rcases this.2.1 with e | e <;> rw [e]
          · exact clean_nil
          · exact hR

/-- The scheme and the opaque part of a URL that `Parse` returns hold no `?`
and no `#`. -/
theorem Parse_clean (rawURL : GoString) (u : URL) (h : Parse rawURL = .ok u) :
    clean u.Scheme ∧ clean u.Opaque := by
  unfold Parse at h
  split at h
  · cases h
  · rename_i url hp
    have hc := parse_clean _ url (Cut_fst_no_sep _ _) hp
    split at h
    · simp only [Except.ok.injEq] at h
      subst h
      exact hc
    · split at h
      · cases h
      · rename_i url2 hf
        simp only [Except.ok.injEq] at h
        subst h
        have := setFragment_fields _ _ _ hf
        rw [this.1, this.2.1]
        exact hc

theorem getSchemeLoop_shape (raw : GoString) (rest : GoString) :
    ∀ (acc sch rst : GoString), getSchemeLoop raw acc rest = .ok (sch, rst) →
      (sch = [] ∧ rst = raw) ∨ acc ++ rest = sch ++ ch ':' :: rst := by
  induction rest with
  | nil =>
    intro acc sch rst h
    simp only [getSchemeLoop, Except.ok.injEq, Prod.mk.injEq] at h
    exact Or.inl ⟨h.1.symm, h.2.symm⟩
  | cons c rest ih =>
    intro acc sch rst h
    have hstep : ∀ x y : GoString, getSchemeLoop raw (acc ++ [c]) rest = .ok (x, y) →
        (x = [] ∧ y = raw) ∨ acc ++ c :: rest = x ++ ch ':' :: y := by
      intro x y hxy
      rcases ih _ _ _ hxy with h1 | h1
      · exact Or.inl h1
      · exact Or.inr (by simpa using h1)
    simp only [getSchemeLoop] at h
    split at h
    · exact hstep _ _ h
    · split at h
      · split at h
        · simp only [Except.ok.injEq, Prod.mk.injEq] at h
          exact Or.inl ⟨h.1.symm, h.2.symm⟩
        · exact hstep _ _ h
      · split at h
        · rename_i hc
          split at h
          · cases h
          · simp only [Except.ok.injEq, Prod.mk.injEq] at h
            obtain ⟨rfl, rfl⟩ := h
            exact Or.inr (by rw [hc])
        · simp only [Except.ok.injEq, Prod.mk.injEq] at h
          exact Or.inl ⟨h.1.symm, h.2.symm⟩

theorem question_not_schemeByte (s : GoString) (h : ∀ c ∈ s, schemeByte c = true) :
    ch '?' ∉ s := by
  intro hm
  exact absurd (h _ hm) (by decide)

theorem Cut_append_left (a b : GoString) (sep : Byte) (h : sep ∉ a) :
    Cut (a ++ b) sep = (a ++ (Cut b sep).1, (Cut b sep).2) := by
  induction a with
  | nil => simp
  | cons c a ih =>
    simp only [List.mem_cons, not_or] at h
    have hc : ¬ c = sep := fun e => h.1 e.symm
    simp [Cut, hc, ih h.2]

theorem parse_RawQuery (raw : GoString) (u : URL) (h : parse raw = .ok u) :
    u.RawQuery = (Cut raw (ch '?')).2 := by
  unfold parse at h
  split at h
  · cases h
  · split at h
    · rename_i hstar
      simp only [Except.ok.injEq] at h
      subst h
      rw [hstar]
      decide
    · split at h
      · cases h
      · rename_i scheme rest0 hsch
        have hspec := getScheme_spec raw scheme rest0 hsch
        have hshape := getSchemeLoop_shape raw raw [] scheme rest0 hsch
        have hq : ch '?' ∉ scheme := question_not_schemeByte _ hspec.1
        have hraw : ∃ pre : GoString, ch '?' ∉ pre ∧ raw = pre ++ rest0 := by
          rcases hshape with h1 | h1
          · exact ⟨[], by simp, by simp [h1.2]⟩
          · refine ⟨scheme ++ [ch ':'], ?_, by simpa using h1⟩
            simp only [List.mem_append, List.mem_singleton, not_or]
            exact ⟨hq, by decide⟩
        obtain ⟨pre, hpre, hrw⟩ := hraw
        split at h
        · rename_i hf
          have hd := not_mem_dropLast_of_count _ _ hf.1 hf.2
          have hs : rest0 = rest0.dropLast ++ [ch '?'] := by
            have hne2 : rest0 ≠ [] := by
              intro e
              rw [e] at hf
              simp at hf
            have hl := hf.1
            rw [List.getLast?_eq_getLast _ hne2] at hl
            simp only [Option.some.injEq] at hl
            rw [← hl]
            exact (List.dropLast_append_getLast hne2).symm
          rw [(parseRest_fields _ _ _ h).2.2, hrw, Cut_append_left _ _ _ hpre]
          rw [hs, Cut_append_sep _ _ _ hd]
        · rw [(parseRest_fields _ _ _ h).2.2, hrw, Cut_append_left _ _ _ hpre]

/-- The query string `rawQueryOf` reads in a URL text is the `RawQuery` that
`url.Parse` finds there. -/
theorem Parse_RawQuery (rawURL : GoString) (u : URL) (h : Parse rawURL = .ok u) :
    u.RawQuery = rawQueryOf rawURL := by
  unfold Parse at h
  unfold rawQueryOf
  split at h
  · cases h
  · rename_i url hp
    have hc := parse_RawQuery _ url hp
    split at h
    · simp only [Except.ok.injEq] at h
      subst h
      exact hc
    · split at h
      · cases h
      · rename_i url2 hf
        simp only [Except.ok.injEq] at h
        subst h
        rw [(setFragment_fields _ _ _ hf).2.2]
        exact hc

/-- The query string read back from the text of a URL is its `RawQuery`, when
nothing before the query holds a `?` or a `#` and the query holds no `#`. -/
theorem rawQueryOf_String (u : URL) (hs : clean u.Scheme) (ho : clean u.Opaque)
    (hq : ch '#' ∉ u.RawQuery) : rawQueryOf u.String = u.RawQuery := by
  have hh := clean_headString u hs ho
  have hne : ch '?' ≠ ch '#' := by decide
  unfold rawQueryOf URL.String
  by_cases hQ : u.ForceQuery = true ∨ u.RawQuery ≠ []
  · have h1 : ch '#' ∉ u.headString ++ ch '?' :: u.RawQuery := by
      simp only [List.mem_append, List.mem_cons, not_or]
      exact ⟨hh.2, fun e => hne e.symm, hq⟩
    have hcut : (Cut (u.headString ++ (if u.ForceQuery = true ∨ u.RawQuery ≠ [] then
        ch '?' :: u.RawQuery else []) ++ (if u.Fragment ≠ [] then ch '#' :: u.EscapedFragment else []))
        (ch '#')).1 = u.headString ++ ch '?' :: u.RawQuery := by
      rw [if_pos hQ]
      by_cases hF : u.Fragment ≠ []
      · rw [if_pos hF, Cut_append_sep _ _ _ h1]
      · rw [if_neg hF, List.append_nil, Cut_no_sep _ _ h1]
    rw [hcut, Cut_append_sep _ _ _ hh.1]
  · have hq0 : u.RawQuery = [] := by
      by_contra hc
      exact hQ (Or.inr hc)
    have hcut : (Cut (u.headString ++ (if u.ForceQuery = true ∨ u.RawQuery ≠ [] then
        ch '?' :: u.RawQuery else []) ++ (if u.Fragment ≠ [] then ch '#' :: u.EscapedFragment else []))
        (ch '#')).1 = u.headString := by
      rw [if_neg hQ, List.append_nil]
      by_cases hF : u.Fragment ≠ []
      · rw [if_pos hF, Cut_append_sep _ _ _ hh.2]
      · rw [if_neg hF, List.append_nil, Cut_no_sep _ _ hh.2]
    rw [hcut, Cut_no_sep _ _ hh.1, hq0]

theorem hash_not_mem_Encode (v : Values) : ch '#' ∉ v.Encode := by
  rw [Encode_eq]
  intro h
  rcases mem_Join _ _ _ h with h | ⟨p, hp, hc⟩
  · simp only [List.mem_singleton] at h
    exact absurd h (by decide)
  · obtain ⟨q, _, rfl⟩ := List.mem_map.1 hp
    exact hash_not_mem_encPair q hc

/-! ## The values the builder sets -/

theorem Values.lookup_Set_self (v : Values) (k x : GoString) :
    (v.Set k x).lookup k = some [x] := by
  simp [Values.lookup_Set]

theorem Values.lookup_Set_ne (v : Values) (k x key : GoString) (h : k ≠ key) :
    (v.Set k x).lookup key = v.lookup key := by
  simp [Values.lookup_Set, h]

theorem Values.WF_setOpt (q : Values) (step : GoString × Option GoString) (hq : q.WF) :
    (q.setOpt step).WF := by
  unfold Values.setOpt
  split
  · exact Values.WF_Set _ _ _ hq
  · exact hq

theorem WF_applySteps (steps : List (GoString × Option GoString)) (q : Values) (hq : q.WF) :
    (applySteps q steps).WF := by
  induction steps generalizing q with
  | nil => exact hq
  | cons st steps ih => exact ih _ (Values.WF_setOpt q st hq)

theorem lookup_applySteps (steps : List (GoString × Option GoString)) (q : Values)
    (key : GoString) :
    (applySteps q steps).lookup key = stepsValue steps key (q.lookup key) := by
  induction steps generalizing q with
  | nil => rfl
  | cons st steps ih =>
    obtain ⟨k, o⟩ := st
    cases o with
    | none => exact ih q
    | some x =>
      have := ih (q.Set k x)
      simp only [applySteps, List.foldl_cons, Values.setOpt] at this ⊢
      rw [this, Values.lookup_Set]
      rfl

theorem stepsValue_append (a b : List (GoString × Option GoString)) (key : GoString)
    (r : Option (List GoString)) :
    stepsValue (a ++ b) key r = stepsValue b key (stepsValue a key r) := by
  induction a generalizing r with
  | nil => rfl
  | cons st a ih =>
    obtain ⟨k, o⟩ := st
    cases o with
    | none => exact ih r
    | some x => exact ih _

theorem stepsValue_cons_ne (k : GoString) (o : Option GoString)
    (steps : List (GoString × Option GoString)) (key : GoString) (r : Option (List GoString))
    (h : k ≠ key) : stepsValue ((k, o) :: steps) key r = stepsValue steps key r := by
  cases o <;> simp [stepsValue, h]

theorem stepsValue_cons_some (k x : GoString) (steps : List (GoString × Option GoString))
    (r : Option (List GoString)) :
    stepsValue ((k, some x) :: steps) k r = stepsValue steps k (some [x]) := by
  simp [stepsValue]

theorem stepsValue_cons_none (k : GoString) (steps : List (GoString × Option GoString))
    (key : GoString) (r : Option (List GoString)) :
    stepsValue ((k, none) :: steps) key r = stepsValue steps key r := rfl

theorem stepsValue_nil (key : GoString) (r : Option (List GoString)) :
    stepsValue [] key r = r := rfl

theorem stepsValue_untouched (steps : List (GoString × Option GoString)) (key : GoString)
    (r : Option (List GoString)) (h : ∀ st ∈ steps, st.1 ≠ key) : stepsValue steps key r = r := by
  induction steps generalizing r with
  | nil => rfl
  | cons st steps ih =>
    obtain ⟨k, o⟩ := st
    rw [stepsValue_cons_ne _ _ _ _ _ (h (k, o) (by simp))]
    exact ih r (fun st hst => h st (List.mem_cons_of_mem _ hst))

theorem setOpt_ite (c : Prop) [Decidable c] (q : Values) (k x : GoString) :
    (if c then q.Set k x else q) = q.setOpt (k, if c then some x else none) := by
  unfold Values.setOpt
  split <;> rfl

theorem setAddressParams_eq (req : NominatimSearchRequest) (q : Values) :
    setAddressParams req q = applySteps q (addressSteps req) := by
  unfold setAddressParams addressSteps
  split
  · rfl
  · simp only [setOpt_ite]
    rfl

theorem setFilterParams_eq (fmtF : Float64 → GoString) (req : NominatimSearchRequest)
    (q : Values) : setFilterParams fmtF req q = applySteps q (filterSteps fmtF req) := by
  unfold setFilterParams
  lift_lets
  extract_lets q1 q2 q3 q4 q5 q6 q7 q8 q9
  have e1 : q1 = q.setOpt (B "addressdetails", some (B "1")) := rfl
  have e2 : q2 = q1.setOpt (B "limit",
      if req.Limit > 0 then some (Sprintf_d req.Limit) else none) := setOpt_ite _ _ _ _
  have e3 : q3 = q2.setOpt (B "countrycodes",
      if req.CountryCodes.length > 0 then some (Join req.CountryCodes (B ",")) else none) :=
    setOpt_ite _ _ _ _
  have e4 : q4 = q3.setOpt (B "viewbox",
      match req.ViewBox with
      | [a, b, c, d] => some (fmtF a ++ B "," ++ fmtF b ++ B "," ++ fmtF c ++ B "," ++ fmtF d)
      | _ => none) := by
    simp only [q4, Values.setOpt]
    split <;> rfl
  have e5 : q5 = q4.setOpt (B "exclude_place_ids",
      if req.ExcludePlaceIds.length > 0 then some (Join req.ExcludePlaceIds (B ",")) else none) :=
    setOpt_ite _ _ _ _
  have e6 : q6 = q5.setOpt (B "bounded",
      match req.Bounded with
      | some true => some (B "1")
      | some false => some (B "0")
      | none => none) := by
    simp only [q6, Values.setOpt]
    split <;> rfl
  have e7 : q7 = q6.setOpt (B "routewidth",
      match req.RouteWidth with
      | some w => some (fmtF w)
      | none => none) := by
    simp only [q7, Values.setOpt]
    split <;> rfl
  have e8 : q8 = q7.setOpt (B "osm_type", if req.OSMType ≠ [] then some req.OSMType else none) :=
    setOpt_ite _ _ _ _
  have e9 : q9 = q8.setOpt (B "osm_id", if req.OSMId ≠ [] then some req.OSMId else none) :=
    setOpt_ite _ _ _ _
  simp only [filterSteps, applySteps, List.foldl_cons, List.foldl_nil]
  rw [← e1, ← e2, ← e3, ← e4, ← e5, ← e6, ← e7, ← e8, ← e9]

theorem applySteps_append (q : Values) (a b : List (GoString × Option GoString)) :
    applySteps q (a ++ b) = applySteps (applySteps q a) b := by
  simp [applySteps]

/-- The builder runs its statements in order on the values of the base URL. -/
theorem searchValues_eq (fmtF : Float64 → GoString) (key : GoString)
    (req : NominatimSearchRequest) (q0 : Values) :
    searchValues fmtF key req q0 = applySteps q0 (searchSteps fmtF key req) := by
  unfold searchValues searchSteps
  simp only [setOpt_ite, setAddressParams_eq, setFilterParams_eq]
  simp only [applySteps, List.foldl_cons, List.foldl_append, List.foldl_nil]
  rfl

theorem WF_searchValues (fmtF : Float64 → GoString) (key : GoString)
    (req : NominatimSearchRequest) (q0 : Values) (h : q0.WF) :
    (searchValues fmtF key req q0).WF := by
  rw [searchValues_eq]
  exact WF_applySteps _ _ h

/-- The value list of `name` in the values the builder encodes. -/
theorem lookup_searchValues (fmtF : Float64 → GoString) (key : GoString)
    (req : NominatimSearchRequest) (q0 : Values) (name : GoString) :
    (searchValues fmtF key req q0).lookup name =
      stepsValue (searchSteps fmtF key req) name (q0.lookup name) := by
  rw [searchValues_eq, lookup_applySteps]

/-! ## The URL the builder returns -/

theorem buildSearchURL_of_Parse (fmtF : Float64 → GoString) (c : Client)
    (req : NominatimSearchRequest) (u : URL) (hu : Parse (urls c) = .ok u) :
    buildSearchURL fmtF c req =
      (URL.String { u with RawQuery := (searchValues fmtF c.key req u.Query).Encode }, none) := by
  simp only [buildSearchURL, hu]

theorem buildSearchURL_of_Parse_error (fmtF : Float64 → GoString) (c : Client)
    (req : NominatimSearchRequest) (e : Error) (he : Parse (urls c) = .error e) :
    buildSearchURL fmtF c req = ([], some e) := by
  simp only [buildSearchURL, he]

/-- The query string of the returned URL is the encoding of the values the
builder set. -/
theorem rawQueryOf_buildSearchURL (fmtF : Float64 → GoString) (c : Client)
    (req : NominatimSearchRequest) (u : URL) (hu : Parse (urls c) = .ok u) :
    rawQueryOf (buildSearchURL fmtF c req).1 = (searchValues fmtF c.key req u.Query).Encode := by
  rw [buildSearchURL_of_Parse fmtF c req u hu]
  have hc := Parse_clean _ u hu
  exact rawQueryOf_String { u with RawQuery := (searchValues fmtF c.key req u.Query).Encode }
    hc.1 hc.2 (hash_not_mem_Encode _)

/-- The values of a parameter of the returned URL: what the last statement of
the builder that sets it gave it, or else what the base URL carried. -/
theorem lookup_queryParams_buildSearchURL (fmtF : Float64 → GoString) (c : Client)
    (req : NominatimSearchRequest) (u : URL) (hu : Parse (urls c) = .ok u) (name : GoString) :
    (queryParams (buildSearchURL fmtF c req).1).lookup name =
      stepsValue (searchSteps fmtF c.key req) name (u.Query.lookup name) := by
  unfold queryParams
  have hwf : (searchValues fmtF c.key req u.Query).WF :=
    WF_searchValues _ _ _ _ (WF_ParseQuery u.RawQuery)
  rw [rawQueryOf_buildSearchURL fmtF c req u hu, lookup_ParseQuery_Encode _ hwf,
    lookup_searchValues]

theorem stepsValue_filterSteps_untouched (fmtF : Float64 → GoString)
    (req : NominatimSearchRequest) (name : GoString) (r : Option (List GoString))
    (h : name ∉ [B "addressdetails", B "limit", B "countrycodes", B "viewbox",
      B "exclude_place_ids", B "bounded", B "routewidth", B "osm_type", B "osm_id"]) :
    stepsValue (filterSteps fmtF req) name r = r := by
  apply stepsValue_untouched
  intro st hst e
  apply h
  simp only [filterSteps, List.mem_cons, List.mem_singleton, List.not_mem_nil, or_false] at hst
  rcases hst with rfl | rfl | rfl | rfl | rfl | rfl | rfl | rfl | rfl <;> simp [← e]

theorem stepsValue_addressSteps_untouched (req : NominatimSearchRequest) (name : GoString)
    (r : Option (List GoString))
    (h : name ∉ [B "q", B "street", B "city", B "county", B "state", B "country",
      B "postalcode"]) :
    stepsValue (addressSteps req) name r = r := by
  apply stepsValue_untouched
  intro st hst e
  apply h
  unfold addressSteps at hst
  split at hst
  · simp only [List.mem_singleton] at hst
    subst hst
    simp [← e]
  · simp only [List.mem_cons, List.mem_singleton, List.not_mem_nil, or_false] at hst
    rcases hst with rfl | rfl | rfl | rfl | rfl | rfl <;> simp [← e]

theorem valueOr_ite (c : Prop) [Decidable c] (x : GoString) (r : Option (List GoString)) :
    valueOr (if c then some x else none) r = if c then some [x] else r := by
  split <;> rfl

theorem valueOr_some (x : GoString) (r : Option (List GoString)) :
    valueOr (some x) r = some [x] := rfl

theorem valueOr_none (r : Option (List GoString)) : valueOr none r = r := rfl

theorem stepsValue_cons_self (k : GoString) (o : Option GoString)
    (steps : List (GoString × Option GoString)) (r : Option (List GoString)) :
    stepsValue ((k, o) :: steps) k r = stepsValue steps k (valueOr o r) := by
  cases o <;> simp [stepsValue, valueOr]

theorem stepsValue_searchSteps (fmtF : Float64 → GoString) (key : GoString)
    (req : NominatimSearchRequest) (name : GoString) (r : Option (List GoString)) :
    stepsValue (searchSteps fmtF key req) name r =
      stepsValue [(B "key", if key ≠ [] then some key else none)] name
        (stepsValue (filterSteps fmtF req) name
          (stepsValue (addressSteps req) name
            (stepsValue [(B "format", some (B "json"))] name r))) := by
  unfold searchSteps
  rw [← List.singleton_append, stepsValue_append, stepsValue_append, stepsValue_append]

/-! ## The parameters of the returned URL, one by one

`u` is the URL that `url.Parse` read from the base URL followed by
`/nominatim/v1/search.php`; `u.Query` holds the parameters that the base URL
itself carried. -/

section Params

variable (fmtF : Float64 → GoString) (c : Client) (req : NominatimSearchRequest) (u : URL)
  (hu : Parse (urls c) = .ok u)

include hu

theorem param_format :
    (queryParams (buildSearchURL fmtF c req).1).lookup (B "format") = some [B "json"] := by
  rw [lookup_queryParams_buildSearchURL fmtF c req u hu, stepsValue_searchSteps,
    stepsValue_cons_some, stepsValue_nil,
    stepsValue_addressSteps_untouched _ _ _ (by decide),
    stepsValue_filterSteps_untouched _ _ _ _ (by decide),
    stepsValue_cons_ne _ _ _ _ _ (by decide), stepsValue_nil]

theorem param_addressdetails :
    (queryParams (buildSearchURL fmtF c req).1).lookup (B "addressdetails") = some [B "1"] := by
  rw [lookup_queryParams_buildSearchURL fmtF c req u hu, stepsValue_searchSteps,
    stepsValue_cons_ne _ _ _ _ _ (by decide), stepsValue_nil,
    stepsValue_addressSteps_untouched _ _ _ (by decide),
    stepsValue_cons_ne _ _ _ _ _ (by decide), stepsValue_nil]
  simp (disch := decide) only [filterSteps, stepsValue_cons_ne, stepsValue_cons_self,
    stepsValue_nil, valueOr_ite, valueOr_some, valueOr_none]

theorem param_q :
    (queryParams (buildSearchURL fmtF c req).1).lookup (B "q") =
      if req.Query ≠ [] then some [req.Query] else u.Query.lookup (B "q") := by
  rw [lookup_queryParams_buildSearchURL fmtF c req u hu, stepsValue_searchSteps,
    stepsValue_cons_ne _ _ _ _ _ (by decide), stepsValue_nil,
    stepsValue_filterSteps_untouched _ _ _ _ (by decide),
    stepsValue_cons_ne _ _ _ _ _ (by decide), stepsValue_nil]
  by_cases hq : req.Query = [] <;>
    simp (disch := decide) only [addressSteps, hq, ne_eq, not_true_eq_false, not_false_eq_true,
      if_true, if_false, stepsValue_cons_ne, stepsValue_cons_self, stepsValue_nil, valueOr_ite,
      valueOr_some, valueOr_none]

theorem param_street :
    (queryParams (buildSearchURL fmtF c req).1).lookup (B "street") =
      if req.Query ≠ [] then u.Query.lookup (B "street")
      else if req.Street ≠ [] then some [req.Street] else u.Query.lookup (B "street") := by
  rw [lookup_queryParams_buildSearchURL fmtF c req u hu, stepsValue_searchSteps,
    stepsValue_cons_ne _ _ _ _ _ (by decide), stepsValue_nil,
    stepsValue_filterSteps_untouched _ _ _ _ (by decide),
    stepsValue_cons_ne _ _ _ _ _ (by decide), stepsValue_nil]
  by_cases hq : req.Query = [] <;>
    simp (disch := decide) only [addressSteps, hq, ne_eq, not_true_eq_false, not_false_eq_true,
      if_true, if_false, stepsValue_cons_ne, stepsValue_cons_self, stepsValue_nil, valueOr_ite,
      valueOr_some, valueOr_none]

theorem param_city :
    (queryParams (buildSearchURL fmtF c req).1).lookup (B "city") =
      if req.Query ≠ [] then u.Query.lookup (B "city")
      else if req.City ≠ [] then some [req.City] else u.Query.lookup (B "city") := by
  rw [lookup_queryParams_buildSearchURL fmtF c req u hu, stepsValue_searchSteps,
    stepsValue_cons_ne _ _ _ _ _ (by decide), stepsValue_nil,
    stepsValue_filterSteps_untouched _ _ _ _ (by decide),
    stepsValue_cons_ne _ _ _ _ _ (by decide), stepsValue_nil]
  by_cases hq : req.Query = [] <;>
    simp (disch := decide) only [addressSteps, hq, ne_eq, not_true_eq_false, not_false_eq_true,
      if_true, if_false, stepsValue_cons_ne, stepsValue_cons_self, stepsValue_nil, valueOr_ite,
      valueOr_some, valueOr_none]

theorem param_county :
    (queryParams (buildSearchURL fmtF c req).1).lookup (B "county") =
      if req.Query ≠ [] then u.Query.lookup (B "county")
      else if req.County ≠ [] then some [req.County] else u.Query.lookup (B "county") := by
  rw [lookup_queryParams_buildSearchURL fmtF c req u hu, stepsValue_searchSteps,
    stepsValue_cons_ne _ _ _ _ _ (by decide), stepsValue_nil,
    stepsValue_filterSteps_untouched _ _ _ _ (by decide),
    stepsValue_cons_ne _ _ _ _ _ (by decide), stepsValue_nil]
  by_cases hq : req.Query = [] <;>
    simp (disch := decide) only [addressSteps, hq, ne_eq, not_true_eq_false, not_false_eq_true,
      if_true, if_false, stepsValue_cons_ne, stepsValue_cons_self, stepsValue_nil, valueOr_ite,
      valueOr_some, valueOr_none]

theorem param_state :
    (queryParams (buildSearchURL fmtF c req).1).lookup (B "state") =
      if req.Query ≠ [] then u.Query.lookup (B "state")
      else if req.State ≠ [] then some [req.State] else u.Query.lookup (B "state") := by
  rw [lookup_queryParams_buildSearchURL fmtF c req u hu, stepsValue_searchSteps,
    stepsValue_cons_ne _ _ _ _ _ (by decide), stepsValue_nil,
    stepsValue_filterSteps_untouched _ _ _ _ (by decide),
    stepsValue_cons_ne _ _ _ _ _ (by decide), stepsValue_nil]
  by_cases hq : req.Query = [] <;>
    simp (disch := decide) only [addressSteps, hq, ne_eq, not_true_eq_false, not_false_eq_true,
      if_true, if_false, stepsValue_cons_ne, stepsValue_cons_self, stepsValue_nil, valueOr_ite,
      valueOr_some, valueOr_none]

theorem param_country :
    (queryParams (buildSearchURL fmtF c req).1).lookup (B "country") =
      if req.Query ≠ [] then u.Query.lookup (B "country")
      else if req.Country ≠ [] then some [req.Country] else u.Query.lookup (B "country") := by
  rw [lookup_queryParams_buildSearchURL fmtF c req u hu, stepsValue_searchSteps,
    stepsValue_cons_ne _ _ _ _ _ (by decide), stepsValue_nil,
    stepsValue_filterSteps_untouched _ _ _ _ (by decide),
    stepsValue_cons_ne _ _ _ _ _ (by decide), stepsValue_nil]
  by_cases hq : req.Query = [] <;>
    simp (disch := decide) only [addressSteps, hq, ne_eq, not_true_eq_false, not_false_eq_true,
      if_true, if_false, stepsValue_cons_ne, stepsValue_cons_self, stepsValue_nil, valueOr_ite,
      valueOr_some, valueOr_none]

theorem param_postalcode :
    (queryParams (buildSearchURL fmtF c req).1).lookup (B "postalcode") =
      if req.Query ≠ [] then u.Query.lookup (B "postalcode")
      else if req.PostalCode ≠ [] then some [req.PostalCode] else u.Query.lookup (B "postalcode") := by
  rw [lookup_queryParams_buildSearchURL fmtF c req u hu, stepsValue_searchSteps,
    stepsValue_cons_ne _ _ _ _ _ (by decide), stepsValue_nil,
    stepsValue_filterSteps_untouched _ _ _ _ (by decide),
    stepsValue_cons_ne _ _ _ _ _ (by decide), stepsValue_nil]
  by_cases hq : req.Query = [] <;>
    simp (disch := decide) only [addressSteps, hq, ne_eq, not_true_eq_false, not_false_eq_true,
      if_true, if_false, stepsValue_cons_ne, stepsValue_cons_self, stepsValue_nil, valueOr_ite,
      valueOr_some, valueOr_none]

theorem param_limit :
    (queryParams (buildSearchURL fmtF c req).1).lookup (B "limit") =
      if req.Limit > 0 then some [Sprintf_d req.Limit] else u.Query.lookup (B "limit") := by
  rw [lookup_queryParams_buildSearchURL fmtF c req u hu, stepsValue_searchSteps,
    stepsValue_cons_ne _ _ _ _ _ (by decide), stepsValue_nil,
    stepsValue_addressSteps_untouched _ _ _ (by decide),
    stepsValue_cons_ne _ _ _ _ _ (by decide), stepsValue_nil]
  simp (disch := decide) only [filterSteps, stepsValue_cons_ne, stepsValue_cons_self,
    stepsValue_nil, valueOr_ite, valueOr_some, valueOr_none]

theorem param_countrycodes :
    (queryParams (buildSearchURL fmtF c req).1).lookup (B "countrycodes") =
      if req.CountryCodes.length > 0 then some [Join req.CountryCodes (B ",")]
      else u.Query.lookup (B "countrycodes") := by
  rw [lookup_queryParams_buildSearchURL fmtF c req u hu, stepsValue_searchSteps,
    stepsValue_cons_ne _ _ _ _ _ (by decide), stepsValue_nil,
    stepsValue_addressSteps_untouched _ _ _ (by decide),
    stepsValue_cons_ne _ _ _ _ _ (by decide), stepsValue_nil]
  simp (disch := decide) only [filterSteps, stepsValue_cons_ne, stepsValue_cons_self,
    stepsValue_nil, valueOr_ite, valueOr_some, valueOr_none]

theorem param_exclude_place_ids :
    (queryParams (buildSearchURL fmtF c req).1).lookup (B "exclude_place_ids") =
      if req.ExcludePlaceIds.length > 0 then some [Join req.ExcludePlaceIds (B ",")]
      else u.Query.lookup (B "exclude_place_ids") := by
  rw [lookup_queryParams_buildSearchURL fmtF c req u hu, stepsValue_searchSteps,
    stepsValue_cons_ne _ _ _ _ _ (by decide), stepsValue_nil,
    stepsValue_addressSteps_untouched _ _ _ (by decide),
    stepsValue_cons_ne _ _ _ _ _ (by decide), stepsValue_nil]
  simp (disch := decide) only [filterSteps, stepsValue_cons_ne, stepsValue_cons_self,
    stepsValue_nil, valueOr_ite, valueOr_some, valueOr_none]

theorem param_viewbox_four (x0 x1 x2 x3 : Float64) (hv : req.ViewBox = [x0, x1, x2, x3]) :
    (queryParams (buildSearchURL fmtF c req).1).lookup (B "viewbox") =
      some [fmtF x0 ++ B "," ++ fmtF x1 ++ B "," ++ fmtF x2 ++ B "," ++ fmtF x3] := by
  rw [lookup_queryParams_buildSearchURL fmtF c req u hu, stepsValue_searchSteps,
    stepsValue_cons_ne _ _ _ _ _ (by decide), stepsValue_nil,
    stepsValue_addressSteps_untouched _ _ _ (by decide),
    stepsValue_cons_ne _ _ _ _ _ (by decide), stepsValue_nil]
  simp (disch := decide) only [filterSteps, stepsValue_cons_ne, stepsValue_cons_self,
    stepsValue_nil, valueOr_ite, valueOr_some, valueOr_none]
  simp only [hv, valueOr_some]

theorem param_viewbox_other (hv : req.ViewBox.length ≠ 4) :
    (queryParams (buildSearchURL fmtF c req).1).lookup (B "viewbox") =
      u.Query.lookup (B "viewbox") := by
  rw [lookup_queryParams_buildSearchURL fmtF c req u hu, stepsValue_searchSteps,
    stepsValue_cons_ne _ _ _ _ _ (by decide), stepsValue_nil,
    stepsValue_addressSteps_untouched _ _ _ (by decide),
    stepsValue_cons_ne _ _ _ _ _ (by decide), stepsValue_nil]
  simp (disch := decide) only [filterSteps, stepsValue_cons_ne, stepsValue_cons_self,
    stepsValue_nil, valueOr_ite, valueOr_some, valueOr_none]
  split
  · rename_i h
    simp [h] at hv
  · rfl

theorem param_bounded :
    (queryParams (buildSearchURL fmtF c req).1).lookup (B "bounded") =
      match req.Bounded with
      | some true => some [B "1"]
      | some false => some [B "0"]
      | none => u.Query.lookup (B "bounded") := by
  rw [lookup_queryParams_buildSearchURL fmtF c req u hu, stepsValue_searchSteps,
    stepsValue_cons_ne _ _ _ _ _ (by decide), stepsValue_nil,
    stepsValue_addressSteps_untouched _ _ _ (by decide),
    stepsValue_cons_ne _ _ _ _ _ (by decide), stepsValue_nil]
  simp (disch := decide) only [filterSteps, stepsValue_cons_ne, stepsValue_cons_self,
    stepsValue_nil, valueOr_ite, valueOr_some, valueOr_none]
  rcases req.Bounded with _ | _ | _ <;> rfl

theorem param_routewidth :
    (queryParams (buildSearchURL fmtF c req).1).lookup (B "routewidth") =
      match req.RouteWidth with
      | some w => some [fmtF w]
      | none => u.Query.lookup (B "routewidth") := by
  rw [lookup_queryParams_buildSearchURL fmtF c req u hu, stepsValue_searchSteps,
    stepsValue_cons_ne _ _ _ _ _ (by decide), stepsValue_nil,
    stepsValue_addressSteps_untouched _ _ _ (by decide),
    stepsValue_cons_ne _ _ _ _ _ (by decide), stepsValue_nil]
  simp (disch := decide) only [filterSteps, stepsValue_cons_ne, stepsValue_cons_self,
    stepsValue_nil, valueOr_ite, valueOr_some, valueOr_none]
  rcases req.RouteWidth with _ | _ <;> rfl

theorem param_osm_type :
    (queryParams (buildSearchURL fmtF c req).1).lookup (B "osm_type") =
      if req.OSMType ≠ [] then some [req.OSMType] else u.Query.lookup (B "osm_type") := by
  rw [lookup_queryParams_buildSearchURL fmtF c req u hu, stepsValue_searchSteps,
    stepsValue_cons_ne _ _ _ _ _ (by decide), stepsValue_nil,
    stepsValue_addressSteps_untouched _ _ _ (by decide),
    stepsValue_cons_ne _ _ _ _ _ (by decide), stepsValue_nil]
  simp (disch := decide) only [filterSteps, stepsValue_cons_ne, stepsValue_cons_self,
    stepsValue_nil, valueOr_ite, valueOr_some, valueOr_none]

theorem param_osm_id :
    (queryParams (buildSearchURL fmtF c req).1).lookup (B "osm_id") =
      if req.OSMId ≠ [] then some [req.OSMId] else u.Query.lookup (B "osm_id") := by
  rw [lookup_queryParams_buildSearchURL fmtF c req u hu, stepsValue_searchSteps,
    stepsValue_cons_ne _ _ _ _ _ (by decide), stepsValue_nil,
    stepsValue_addressSteps_untouched _ _ _ (by decide),
    stepsValue_cons_ne _ _ _ _ _ (by decide), stepsValue_nil]
  simp (disch := decide) only [filterSteps, stepsValue_cons_ne, stepsValue_cons_self,
    stepsValue_nil, valueOr_ite, valueOr_some, valueOr_none]

theorem param_key :
    (queryParams (buildSearchURL fmtF c req).1).lookup (B "key") =
      if c.key ≠ [] then some [c.key] else u.Query.lookup (B "key") := by
  rw [lookup_queryParams_buildSearchURL fmtF c req u hu, stepsValue_searchSteps,
    stepsValue_cons_self, stepsValue_nil, valueOr_ite,
    stepsValue_filterSteps_untouched _ _ _ _ (by decide),
    stepsValue_addressSteps_untouched _ _ _ (by decide),
    stepsValue_cons_ne _ _ _ _ _ (by decide), stepsValue_nil]

end Params

/-- The pieces of the returned URL written with the name `name`: one for each
value of the parameter, the value escaped. -/
theorem rawPieces_buildSearchURL (fmtF : Float64 → GoString) (c : Client)
    (req : NominatimSearchRequest) (u : URL) (hu : Parse (urls c) = .ok u) (name : GoString)
    (hne : name ≠ []) (hesc : QueryEscape name = name) :
    rawPieces (buildSearchURL fmtF c req).1 name =
      (((queryParams (buildSearchURL fmtF c req).1).lookup name).getD []).map
        (fun x => name ++ ch '=' :: QueryEscape x) := by
  have hwf : (searchValues fmtF c.key req u.Query).WF :=
    WF_searchValues _ _ _ _ (WF_ParseQuery u.RawQuery)
  unfold rawPieces queryParams
  rw [rawQueryOf_buildSearchURL fmtF c req u hu, lookup_ParseQuery_Encode _ hwf,
    filter_Split_Encode _ hwf name hne hesc]

/-! ## A base URL without a query component -/

theorem Cut_fst_append_of_mem (a b : GoString) (sep : Byte) (h : sep ∈ a) :
    (Cut (a ++ b) sep).1 = (Cut a sep).1 := by
  induction a with
  | nil => simp at h
  | cons c a ih =>
    by_cases hc : c = sep
    · simp [Cut, hc]
    · have h2 : sep ∈ a := by
        rcases List.mem_cons.1 h with h | h
        · exact absurd h.symm hc
        · exact h
      simp [Cut, hc, ih h2]

/-- When the base URL has no query component, `u.Query()` is empty. -/
theorem Query_eq_nil_of_no_base_query (c : Client) (u : URL) (hu : Parse (urls c) = .ok u)
    (hb : c.hasBaseQuery = false) : u.Query = [] := by
  have hq : ch '?' ∉ (Cut c.baseURL (ch '#')).1 := by
    intro hm
    simp only [Client.hasBaseQuery, containsByte, List.any_eq_false, decide_eq_true_eq] at hb
    exact hb _ hm rfl
  have hsuf : ∀ x ∈ NominatimPathPrefix ++ B "/search.php", x ≠ ch '?' ∧ x ≠ ch '#' := by decide
  have hcut : ch '?' ∉ (Cut (urls c) (ch '#')).1 := by
    unfold urls
    rw [List.append_assoc]
    by_cases hh : ch '#' ∈ c.baseURL
    · rw [Cut_fst_append_of_mem _ _ _ hh]
      exact hq
    · rw [Cut_append_left _ _ _ hh]
      rw [Cut_no_sep _ _ hh] at hq
      simp only [List.mem_append, not_or]
      exact ⟨hq, fun hm => (hsuf _ (Cut_fst_subset _ _ _ hm)).1 rfl⟩
  have hr : u.RawQuery = [] := by
    rw [Parse_RawQuery _ u hu, rawQueryOf, Cut_no_sep _ _ hcut]
  unfold URL.Query
  rw [hr]
  rfl

theorem lookup_nil (name : GoString) : Values.lookup [] name = none := rfl

/-! ## C1 -/

/-- C1, as stated, fails: with the base URL `http://h?street=x` and the query
`a`, the builder succeeds and the returned URL has a `street` parameter. -/
theorem C1_counterexample :
    buildSearchURL fmtZero ⟨B "http://h?street=x", []⟩ { Query := B "a" } =
      (B "http://h?addressdetails=1&format=json&q=a&street=x%2Fnominatim%2Fv1%2Fsearch.php",
        none) ∧
    (queryParams (buildSearchURL fmtZero ⟨B "http://h?street=x", []⟩ { Query := B "a" }).1).lookup
      (B "street") = some [B "x/nominatim/v1/search.php"] := by
  decide

/-- C1 (amended): when the base URL followed by `/nominatim/v1/search.php`
parses (to `u`) and `Query` is not empty, the builder succeeds, the returned URL
has exactly one parameter `q`, whose decoded value is `Query`, and the builder
adds none of `street`, `city`, `county`, `state`, `country`, `postalcode`,
whatever the address fields of the request: each of these names has in the
returned URL exactly the values `u.Query()` holds for it, those read from the
query string of the parsed text (the base URL's own query string, when it has
one).  In particular none of the six names appears when the base URL has no
query component. -/
theorem C1_query_sets_q_and_skips_address (fmtF : Float64 → GoString) (c : Client)
    (req : NominatimSearchRequest) (u : URL) (hu : Parse (urls c) = .ok u)
    (hq : req.Query ≠ []) :
    (buildSearchURL fmtF c req).2 = none ∧
    (queryParams (buildSearchURL fmtF c req).1).lookup (B "q") = some [req.Query] ∧
    (∀ name ∈ [B "street", B "city", B "county", B "state", B "country", B "postalcode"],
      (queryParams (buildSearchURL fmtF c req).1).lookup name = u.Query.lookup name) ∧
    (c.hasBaseQuery = false →
      ∀ name ∈ [B "street", B "city", B "county", B "state", B "country", B "postalcode"],
        (queryParams (buildSearchURL fmtF c req).1).lookup name = none) := by
  have hpass : ∀ name ∈ [B "street", B "city", B "county", B "state", B "country",
      B "postalcode"],
      (queryParams (buildSearchURL fmtF c req).1).lookup name = u.Query.lookup name := by
    intro name hn
    simp only [List.mem_cons, List.mem_singleton, List.not_mem_nil, or_false] at hn
    rcases hn with rfl | rfl | rfl | rfl | rfl | rfl
    · rw [param_street fmtF c req u hu, if_pos hq]
    · rw [param_city fmtF c req u hu, if_pos hq]
    · rw [param_county fmtF c req u hu, if_pos hq]
    · rw [param_state fmtF c req u hu, if_pos hq]
    · rw [param_country fmtF c req u hu, if_pos hq]
    · rw [param_postalcode fmtF c req u hu, if_pos hq]
  refine ⟨by rw [buildSearchURL_of_Parse fmtF c req u hu], ?_, hpass, ?_⟩
  · rw [param_q fmtF c req u hu, if_pos hq]
  · intro hb name hn
    rw [hpass name hn, Query_eq_nil_of_no_base_query c u hu hb]
    rfl

/-- C1 at `sampleClient` and `sampleQueryRequest`. -/
theorem C1_witness :
    Parse (urls sampleClient) = .ok sampleURL ∧ sampleQueryRequest.Query ≠ [] ∧
    (buildSearchURL fmtZero sampleClient sampleQueryRequest).2 = none ∧
    (queryParams (buildSearchURL fmtZero sampleClient sampleQueryRequest).1).lookup (B "q") =
      some [B "10 Downing St & Whitehall"] ∧
    ∀ name ∈ [B "street", B "city", B "county", B "state", B "country", B "postalcode"],
      (queryParams (buildSearchURL fmtZero sampleClient sampleQueryRequest).1).lookup name =
        none :=
  have h := C1_query_sets_q_and_skips_address fmtZero sampleClient sampleQueryRequest sampleURL
    (by decide) (by decide)
  ⟨by decide, by decide, h.1, h.2.1, h.2.2.2 (by decide)⟩

/-! ## C2 -/

/-- C2: two requests with the same non-empty `Query` that agree on every field
other than `Street`, `City`, `County`, `State`, `Country` and `PostalCode` get
the same result from `buildSearchURL`, for every client. -/
theorem C2_address_fields_ignored_when_query_set (fmtF : Float64 → GoString) (c : Client)
    (r1 r2 : NominatimSearchRequest) (hq : r1.Query = r2.Query) (hne : r1.Query ≠ [])
    (hLimit : r1.Limit = r2.Limit) (hCountryCodes : r1.CountryCodes = r2.CountryCodes)
    (hViewBox : r1.ViewBox = r2.ViewBox) (hExclude : r1.ExcludePlaceIds = r2.ExcludePlaceIds)
    (hBounded : r1.Bounded = r2.Bounded) (hRouteWidth : r1.RouteWidth = r2.RouteWidth)
    (hOSMType : r1.OSMType = r2.OSMType) (hOSMId : r1.OSMId = r2.OSMId) :
    buildSearchURL fmtF c r1 = buildSearchURL fmtF c r2 := by
  have ha : setAddressParams r1 = setAddressParams r2 := by
    funext q
    unfold setAddressParams
    rw [if_pos hne, if_pos (hq ▸ hne), hq]
  have hf : setFilterParams fmtF r1 = setFilterParams fmtF r2 := by
    funext q
    unfold setFilterParams
    rw [hLimit, hCountryCodes, hViewBox, hExclude, hBounded, hRouteWidth, hOSMType, hOSMId]
  unfold buildSearchURL searchValues
  rw [ha, hf]

/-- C2 at `sampleQueryRequest` and the same request with other address
fields. -/
theorem C2_witness :
    buildSearchURL fmtZero sampleClient sampleQueryRequest =
      buildSearchURL fmtZero sampleClient
        { sampleQueryRequest with Street := [], City := B "Shelbyville", County := B "x&y=z",
                                  PostalCode := B "00000" } :=
  C2_address_fields_ignored_when_query_set fmtZero sampleClient sampleQueryRequest
    { sampleQueryRequest with Street := [], City := B "Shelbyville", County := B "x&y=z",
                              PostalCode := B "00000" }
    rfl (by decide) rfl rfl rfl rfl rfl rfl rfl rfl

/-! ## C3 -/

/-- C3: when the base URL followed by `/nominatim/v1/search.php` parses (to
`u`) and `Query` is empty, each of the six address fields that is not empty
gives the returned URL exactly one parameter of its name: the query string has
one piece written with that name, `name=` followed by the escaped field,
unescaping the escaped field gives the field back, and the decoded values of the
name are the field alone.  The builder does not set `q`: `q` has the values
`u.Query()` holds for it, and none when the base URL has no query component. -/
theorem C3_address_fields_set_once (fmtF : Float64 → GoString) (c : Client)
    (req : NominatimSearchRequest) (u : URL) (hu : Parse (urls c) = .ok u)
    (hq : req.Query = []) :
    (∀ p ∈ [(req.Street, B "street"), (req.City, B "city"), (req.County, B "county"),
        (req.State, B "state"), (req.Country, B "country"), (req.PostalCode, B "postalcode")],
      p.1 ≠ [] →
        rawPieces (buildSearchURL fmtF c req).1 p.2 = [p.2 ++ ch '=' :: QueryEscape p.1] ∧
        QueryUnescape (QueryEscape p.1) = .ok p.1 ∧
        (queryParams (buildSearchURL fmtF c req).1).lookup p.2 = some [p.1]) ∧
    (queryParams (buildSearchURL fmtF c req).1).lookup (B "q") = u.Query.lookup (B "q") ∧
    (c.hasBaseQuery = false →
      (queryParams (buildSearchURL fmtF c req).1).lookup (B "q") = none) := by
  have hq2 : ¬ req.Query ≠ [] := fun h => h hq
  refine ⟨?_, ?_, ?_⟩
  rotate_left 2
  · intro hb
    rw [param_q fmtF c req u hu, if_neg hq2, Query_eq_nil_of_no_base_query c u hu hb]
    rfl
  · intro p hp hne
    have key : ∀ (field name : GoString), name ≠ [] → QueryEscape name = name →
        (queryParams (buildSearchURL fmtF c req).1).lookup name = some [field] →
        rawPieces (buildSearchURL fmtF c req).1 name = [name ++ ch '=' :: QueryEscape field] ∧
        QueryUnescape (QueryEscape field) = .ok field ∧
        (queryParams (buildSearchURL fmtF c req).1).lookup name = some [field] := by
      intro field name h1 h2 h3
      refine ⟨?_, QueryUnescape_QueryEscape field, h3⟩
      rw [rawPieces_buildSearchURL fmtF c req u hu name h1 h2, h3]
      rfl
    simp only [List.mem_cons, List.mem_singleton, List.not_mem_nil, or_false] at hp
    rcases hp with rfl | rfl | rfl | rfl | rfl | rfl
    · exact key req.Street (B "street") (by decide) (by decide)
        (by rw [param_street fmtF c req u hu, if_neg hq2, if_pos hne])
    · exact key req.City (B "city") (by decide) (by decide)
        (by rw [param_city fmtF c req u hu, if_neg hq2, if_pos hne])
    · exact key req.County (B "county") (by decide) (by decide)
        (by rw [param_county fmtF c req u hu, if_neg hq2, if_pos hne])
    · exact key req.State (B "state") (by decide) (by decide)
        (by rw [param_state fmtF c req u hu, if_neg hq2, if_pos hne])
    · exact key req.Country (B "country") (by decide) (by decide)
        (by rw [param_country fmtF c req u hu, if_neg hq2, if_pos hne])
    · exact key req.PostalCode (B "postalcode") (by decide) (by decide)
        (by rw [param_postalcode fmtF c req u hu, if_neg hq2, if_pos hne])
  · rw [param_q fmtF c req u hu, if_neg hq2]

/-- C3 at `sampleClient` and `sampleAddressRequest`. -/
theorem C3_witness :
    Parse (urls sampleClient) = .ok sampleURL ∧ sampleAddressRequest.Query = [] ∧
    rawPieces (buildSearchURL fmtZero sampleClient sampleAddressRequest).1 (B "city") =
      [B "city=K%26R+%235"] ∧
    (queryParams (buildSearchURL fmtZero sampleClient sampleAddressRequest).1).lookup (B "city") =
      some [B "K&R #5"] ∧
    (queryParams (buildSearchURL fmtZero sampleClient sampleAddressRequest).1).lookup (B "q") =
      none :=
  have h := C3_address_fields_set_once fmtZero sampleClient sampleAddressRequest sampleURL
    (by decide) (by decide)
  ⟨by decide, by decide, (h.1 (B "K&R #5", B "city") (by decide) (by decide)).1,
    (h.1 (B "K&R #5", B "city") (by decide) (by decide)).2.2, h.2.2 (by decide)⟩

/-! ## C4 -/

/-- C4, as stated, fails: with the base URL `http://h?key=&x=` and no API key,
the builder succeeds and the returned URL has a `key` parameter, written as the
empty `key=`. -/
theorem C4_counterexample :
    buildSearchURL fmtZero ⟨B "http://h?key=&x=", []⟩ {} =
      (B "http://h?addressdetails=1&format=json&key=&x=%2Fnominatim%2Fv1%2Fsearch.php", none) ∧
    (queryParams (buildSearchURL fmtZero ⟨B "http://h?key=&x=", []⟩ {}).1).lookup (B "key") =
      some [[]] ∧
    rawPieces (buildSearchURL fmtZero ⟨B "http://h?key=&x=", []⟩ {}).1 (B "key") = [B "key="] := by
  decide

/-- C4 (amended): when the base URL followed by `/nominatim/v1/search.php`
parses (to `u`), a non-empty API key gives the returned URL exactly one `key`
parameter, whose decoded value is the key; with an empty API key the builder
adds no `key` parameter, so `key` has exactly the values `u.Query()` holds for
it, those read from the query string of the parsed text (the base URL's own
query string, when it has one), and when there are none the returned URL has no
`key` parameter and no `key=` piece.  In particular, when the base URL has no
query component, the returned URL has a `key` parameter if and only if the API
key is not empty. -/
theorem C4_key_param (fmtF : Float64 → GoString) (c : Client)
    (req : NominatimSearchRequest) (u : URL) (hu : Parse (urls c) = .ok u) :
    (c.key ≠ [] →
      (queryParams (buildSearchURL fmtF c req).1).lookup (B "key") = some [c.key]) ∧
    (c.key = [] →
      (queryParams (buildSearchURL fmtF c req).1).lookup (B "key") = u.Query.lookup (B "key")) ∧
    (c.key = [] → u.Query.lookup (B "key") = none →
      (queryParams (buildSearchURL fmtF c req).1).lookup (B "key") = none ∧
      rawPieces (buildSearchURL fmtF c req).1 (B "key") = []) ∧
    (c.hasBaseQuery = false →
      ((queryParams (buildSearchURL fmtF c req).1).lookup (B "key") ≠ none ↔ c.key ≠ [])) := by
  have hk := param_key fmtF c req u hu
  refine ⟨?_, ?_, ?_, ?_⟩
  rotate_left 3
  · intro hb
    rw [hk, Query_eq_nil_of_no_base_query c u hu hb, lookup_nil]
    by_cases h : c.key = [] <;> simp [h]
  · intro h
    rw [hk, if_pos h]
  · intro h
    rw [hk, if_neg (fun h2 => h2 h)]
  · intro h hb
    have h0 : (queryParams (buildSearchURL fmtF c req).1).lookup (B "key") = none := by
      rw [hk, if_neg (fun h2 => h2 h), hb]
    refine ⟨h0, ?_⟩
    rw [rawPieces_buildSearchURL fmtF c req u hu (B "key") (by decide) (by decide), h0]
    rfl

/-- C4 at `sampleClient`, whose API key is `s3cret`. -/
theorem C4_witness :
    Parse (urls sampleClient) = .ok sampleURL ∧
    (queryParams (buildSearchURL fmtZero sampleClient sampleAddressRequest).1).lookup (B "key") =
      some [B "s3cret"] :=
  ⟨by decide,
    (C4_key_param fmtZero sampleClient sampleAddressRequest sampleURL (by decide)).1 (by decide)⟩

/-! ## C5 -/

/-- C5, as stated, fails: with the base URL `http://h?viewbox=1` and an empty
`ViewBox`, the builder succeeds and the returned URL has a `viewbox`
parameter. -/
theorem C5_counterexample :
    ({} : NominatimSearchRequest).ViewBox.length = 0 ∧
    buildSearchURL fmtZero ⟨B "http://h?viewbox=1", []⟩ {} =
      (B "http://h?addressdetails=1&format=json&viewbox=1%2Fnominatim%2Fv1%2Fsearch.php",
        none) ∧
    (queryParams (buildSearchURL fmtZero ⟨B "http://h?viewbox=1", []⟩ {}).1).lookup
      (B "viewbox") = some [B "1/nominatim/v1/search.php"] := by
  decide

/-- C5 (amended): when the base URL followed by `/nominatim/v1/search.php`
parses (to `u`), the builder succeeds whatever the length of `ViewBox`; a
`ViewBox` of exactly four floats gives the returned URL exactly one `viewbox`
parameter, the four floats formatted and joined by commas; for every other
length the builder adds no `viewbox` parameter, so `viewbox` has exactly the
values `u.Query()` holds for it, those read from the query string of the parsed
text (the base URL's own query string, when it has one).  In particular, when
the base URL has no query component, the returned URL has a `viewbox` parameter
if and only if `ViewBox` has length 4. -/
theorem C5_viewbox_param (fmtF : Float64 → GoString) (c : Client)
    (req : NominatimSearchRequest) (u : URL) (hu : Parse (urls c) = .ok u) :
    (buildSearchURL fmtF c req).2 = none ∧
    (req.ViewBox.length = 4 →
      ∃ x0 x1 x2 x3, req.ViewBox = [x0, x1, x2, x3] ∧
        (queryParams (buildSearchURL fmtF c req).1).lookup (B "viewbox") =
          some [fmtF x0 ++ B "," ++ fmtF x1 ++ B "," ++ fmtF x2 ++ B "," ++ fmtF x3]) ∧
    (req.ViewBox.length ≠ 4 →
      (queryParams (buildSearchURL fmtF c req).1).lookup (B "viewbox") =
        u.Query.lookup (B "viewbox")) ∧
    (c.hasBaseQuery = false →
      ((queryParams (buildSearchURL fmtF c req).1).lookup (B "viewbox") ≠ none ↔
        req.ViewBox.length = 4)) := by
  have h4 : req.ViewBox.length = 4 →
      ∃ x0 x1 x2 x3, req.ViewBox = [x0, x1, x2, x3] ∧
        (queryParams (buildSearchURL fmtF c req).1).lookup (B "viewbox") =
          some [fmtF x0 ++ B "," ++ fmtF x1 ++ B "," ++ fmtF x2 ++ B "," ++ fmtF x3] := by
    intro h
    rcases hv : req.ViewBox with _ | ⟨x0, _ | ⟨x1, _ | ⟨x2, _ | ⟨x3, _ | ⟨x4, t⟩⟩⟩⟩⟩ <;>
      rw [hv] at h <;> simp only [List.length_cons, List.length_nil] at h <;> try omega
    exact ⟨x0, x1, x2, x3, rfl, param_viewbox_four fmtF c req u hu x0 x1 x2 x3 hv⟩
  refine ⟨by rw [buildSearchURL_of_Parse fmtF c req u hu], h4,
    fun h => param_viewbox_other fmtF c req u hu h, ?_⟩
  intro hb
  by_cases h : req.ViewBox.length = 4
  · obtain ⟨x0, x1, x2, x3, _, hl⟩ := h4 h
    simp [hl, h]
  · rw [param_viewbox_other fmtF c req u hu h, Query_eq_nil_of_no_base_query c u hu hb,
      lookup_nil]
    simp [h]

/-- C5 at `sampleClient` and `sampleAddressRequest`, whose `ViewBox` has four
floats. -/
theorem C5_witness :
    Parse (urls sampleClient) = .ok sampleURL ∧
    (buildSearchURL fmtZero sampleClient sampleAddressRequest).2 = none ∧
    (queryParams (buildSearchURL fmtZero sampleClient sampleAddressRequest).1).lookup
      (B "viewbox") = some [B "0.000000,0.000000,0.000000,0.000000"] ∧
    (queryParams (buildSearchURL fmtZero sampleClient sampleQueryRequest).1).lookup
      (B "viewbox") = none :=
  ⟨by decide, (C5_viewbox_param fmtZero sampleClient sampleAddressRequest sampleURL (by decide)).1,
    param_viewbox_four fmtZero sampleClient sampleAddressRequest sampleURL (by decide) 1 2 3 4 rfl,
    (C5_viewbox_param fmtZero sampleClient sampleQueryRequest sampleURL (by decide)).2.2.1
      (by decide)⟩

/-! ## C6 -/

/-- C6, as stated, fails: with the base URL `http://h?bounded=1&x=` and
`Bounded` unset, the builder succeeds and the returned URL has `bounded=1`. -/
theorem C6_counterexample :
    ({} : NominatimSearchRequest).Bounded = none ∧
    buildSearchURL fmtZero ⟨B "http://h?bounded=1&x=", []⟩ {} =
      (B "http://h?addressdetails=1&bounded=1&format=json&x=%2Fnominatim%2Fv1%2Fsearch.php",
        none) ∧
    (queryParams (buildSearchURL fmtZero ⟨B "http://h?bounded=1&x=", []⟩ {}).1).lookup
      (B "bounded") = some [B "1"] := by
  decide

/-- C6 (amended): when the base URL followed by `/nominatim/v1/search.php`
parses (to `u`): `Bounded` set to true gives the returned URL the one parameter
`bounded=1`, `Bounded` set to false the one parameter `bounded=0`, and with
`Bounded` unset the builder adds no `bounded` parameter, so `bounded` has
exactly the values `u.Query()` holds for it, those read from the query string of
the parsed text (the base URL's own query string, when it has one).  In
particular, when the base URL has no query component and `Bounded` is unset, the
returned URL has no `bounded` parameter. -/
theorem C6_bounded_param (fmtF : Float64 → GoString) (c : Client)
    (req : NominatimSearchRequest) (u : URL) (hu : Parse (urls c) = .ok u) :
    (req.Bounded = none →
      (queryParams (buildSearchURL fmtF c req).1).lookup (B "bounded") =
        u.Query.lookup (B "bounded")) ∧
    (req.Bounded = some true →
      (queryParams (buildSearchURL fmtF c req).1).lookup (B "bounded") = some [B "1"] ∧
      rawPieces (buildSearchURL fmtF c req).1 (B "bounded") = [B "bounded=1"]) ∧
    (req.Bounded = some false →
      (queryParams (buildSearchURL fmtF c req).1).lookup (B "bounded") = some [B "0"] ∧
      rawPieces (buildSearchURL fmtF c req).1 (B "bounded") = [B "bounded=0"]) ∧
    (c.hasBaseQuery = false → req.Bounded = none →
      (queryParams (buildSearchURL fmtF c req).1).lookup (B "bounded") = none ∧
      rawPieces (buildSearchURL fmtF c req).1 (B "bounded") = []) := by
  have hb := param_bounded fmtF c req u hu
  have hr := rawPieces_buildSearchURL fmtF c req u hu (B "bounded") (by decide) (by decide)
  refine ⟨?_, ?_, ?_, ?_⟩
  rotate_left 3
  · intro hq h
    have h0 : (queryParams (buildSearchURL fmtF c req).1).lookup (B "bounded") = none := by
      rw [hb, h, Query_eq_nil_of_no_base_query c u hu hq]
      rfl
    refine ⟨h0, ?_⟩
    rw [hr, h0]
    rfl
  · intro h
    rw [hb, h]
  · intro h
    have h1 : (queryParams (buildSearchURL fmtF c req).1).lookup (B "bounded") = some [B "1"] := by
      rw [hb, h]
    refine ⟨h1, ?_⟩
    rw [hr, h1]
    decide
  · intro h
    have h0 : (queryParams (buildSearchURL fmtF c req).1).lookup (B "bounded") = some [B "0"] := by
      rw [hb, h]
    refine ⟨h0, ?_⟩
    rw [hr, h0]
    decide

/-- C6 at `sampleClient`: `Bounded` is set to true in `sampleAddressRequest`,
to false in `sampleQueryRequest`. -/
theorem C6_witness :
    Parse (urls sampleClient) = .ok sampleURL ∧
    rawPieces (buildSearchURL fmtZero sampleClient sampleAddressRequest).1 (B "bounded") =
      [B "bounded=1"] ∧
    rawPieces (buildSearchURL fmtZero sampleClient sampleQueryRequest).1 (B "bounded") =
      [B "bounded=0"] :=
  ⟨by decide,
    ((C6_bounded_param fmtZero sampleClient sampleAddressRequest sampleURL (by decide)).2.1
      rfl).2,
    ((C6_bounded_param fmtZero sampleClient sampleQueryRequest sampleURL (by decide)).2.2.1
      rfl).2⟩

/-! ## C7 -/

/-- C7: when the base URL followed by `/nominatim/v1/search.php` parses, the
returned URL has the parameter `format` with the single value `json` and the
parameter `addressdetails` with the single value `1`, written once each as
`format=json` and `addressdetails=1`, whatever the request and whatever the base
URL carried for those names. -/
theorem C7_format_and_addressdetails (fmtF : Float64 → GoString) (c : Client)
    (req : NominatimSearchRequest) (u : URL) (hu : Parse (urls c) = .ok u) :
    (queryParams (buildSearchURL fmtF c req).1).lookup (B "format") = some [B "json"] ∧
    rawPieces (buildSearchURL fmtF c req).1 (B "format") = [B "format=json"] ∧
    (queryParams (buildSearchURL fmtF c req).1).lookup (B "addressdetails") = some [B "1"] ∧
    rawPieces (buildSearchURL fmtF c req).1 (B "addressdetails") = [B "addressdetails=1"] := by
  have h1 := param_format fmtF c req u hu
  have h2 := param_addressdetails fmtF c req u hu
  refine ⟨h1, ?_, h2, ?_⟩
  · rw [rawPieces_buildSearchURL fmtF c req u hu (B "format") (by decide) (by decide), h1]
    decide
  · rw [rawPieces_buildSearchURL fmtF c req u hu (B "addressdetails") (by decide) (by decide),
      h2]
    decide

/-- C7 at the all-empty request and a base URL that carries other values for
both names. -/
theorem C7_witness :
    buildSearchURL fmtZero ⟨B "http://h/?format=xml&format=html&addressdetails=0&x=", []⟩ {} =
      (B "http://h/?addressdetails=1&format=json&x=%2Fnominatim%2Fv1%2Fsearch.php", none) ∧
    (queryParams (buildSearchURL fmtZero
      ⟨B "http://h/?format=xml&format=html&addressdetails=0&x=", []⟩ {}).1).lookup (B "format") =
      some [B "json"] :=
  ⟨by decide,
    (C7_format_and_addressdetails fmtZero
      ⟨B "http://h/?format=xml&format=html&addressdetails=0&x=", []⟩ {}
      { Scheme := B "http", Host := B "h", Path := B "/",
        RawQuery := B "format=xml&format=html&addressdetails=0&x=/nominatim/v1/search.php" }
      (by decide)).1⟩

/-! ## C8 -/

/-- C8, as stated, fails: with the base URL `http://h?limit=5&x=` and `Limit`
zero, the builder succeeds and the returned URL has `limit=5`. -/
theorem C8_counterexample :
    ({} : NominatimSearchRequest).Limit = 0 ∧
    buildSearchURL fmtZero ⟨B "http://h?limit=5&x=", []⟩ {} =
      (B "http://h?addressdetails=1&format=json&limit=5&x=%2Fnominatim%2Fv1%2Fsearch.php",
        none) ∧
    (queryParams (buildSearchURL fmtZero ⟨B "http://h?limit=5&x=", []⟩ {}).1).lookup
      (B "limit") = some [B "5"] := by
  decide

/-- C8 (amended): when the base URL followed by `/nominatim/v1/search.php`
parses (to `u`), a `Limit` above zero gives the returned URL exactly one `limit`
parameter, whose value is `Limit` in base 10; with a `Limit` of zero or below
the builder adds no `limit` parameter, so `limit` has exactly the values
`u.Query()` holds for it, those read from the query string of the parsed text
(the base URL's own query string, when it has one).  In particular, when the
base URL has no query component, the returned URL has a `limit` parameter if and
only if `Limit > 0`. -/
theorem C8_limit_param (fmtF : Float64 → GoString) (c : Client)
    (req : NominatimSearchRequest) (u : URL) (hu : Parse (urls c) = .ok u) :
    (req.Limit > 0 →
      (queryParams (buildSearchURL fmtF c req).1).lookup (B "limit") =
        some [B (Nat.repr req.Limit.toNat)] ∧
      Sprintf_d req.Limit = B (Nat.repr req.Limit.toNat)) ∧
    (req.Limit ≤ 0 →
      (queryParams (buildSearchURL fmtF c req).1).lookup (B "limit") =
        u.Query.lookup (B "limit")) ∧
    (c.hasBaseQuery = false →
      ((queryParams (buildSearchURL fmtF c req).1).lookup (B "limit") ≠ none ↔
        req.Limit > 0)) := by
  have hl := param_limit fmtF c req u hu
  refine ⟨?_, ?_, ?_⟩
  rotate_left 2
  · intro hb
    rw [hl, Query_eq_nil_of_no_base_query c u hu hb, lookup_nil]
    by_cases h : req.Limit > 0 <;> simp [h]
  · intro h
    have hs : Sprintf_d req.Limit = B (Nat.repr req.Limit.toNat) := by
      cases hL : req.Limit with
      | ofNat m => rfl
      | negSucc m =>
        rw [hL] at h
        exact absurd h (by simp)
    rw [hl, if_pos h, hs]
    exact ⟨rfl, rfl⟩
  · intro h
    rw [hl, if_neg (by omega)]

/-- C8 at `sampleClient` and `sampleQueryRequest`, whose `Limit` is 3, and at
`sampleAddressRequest`, whose `Limit` is zero. -/
theorem C8_witness :
    Parse (urls sampleClient) = .ok sampleURL ∧
    (queryParams (buildSearchURL fmtZero sampleClient sampleQueryRequest).1).lookup (B "limit") =
      some [B "3"] ∧
    (queryParams (buildSearchURL fmtZero sampleClient sampleAddressRequest).1).lookup
      (B "limit") = none :=
  ⟨by decide,
    ((C8_limit_param fmtZero sampleClient sampleQueryRequest sampleURL (by decide)).1
      (by decide)).1,
    (C8_limit_param fmtZero sampleClient sampleAddressRequest sampleURL (by decide)).2.1
      (by decide)⟩

/-! ## C9 -/

/-- C9, as stated, fails: with the base URL `http://h?countrycodes=de&x=` and
an empty `CountryCodes`, the builder succeeds and the returned URL has
`countrycodes=de`. -/
theorem C9_counterexample :
    ({} : NominatimSearchRequest).CountryCodes = [] ∧
    buildSearchURL fmtZero ⟨B "http://h?countrycodes=de&x=", []⟩ {} =
      (B ("http://h?addressdetails=1&countrycodes=de&format=json" ++
          "&x=%2Fnominatim%2Fv1%2Fsearch.php"), none) ∧
    (queryParams (buildSearchURL fmtZero ⟨B "http://h?countrycodes=de&x=", []⟩ {}).1).lookup
      (B "countrycodes") = some [B "de"] := by
  decide

/-- C9 (amended): when the base URL followed by `/nominatim/v1/search.php`
parses (to `u`), a non-empty `CountryCodes` gives the returned URL exactly one
`countrycodes` parameter, whose decoded value is the elements joined by single
commas in the order of the list, and a non-empty `ExcludePlaceIds` does the same
for `exclude_place_ids`; for an empty list the builder adds no such parameter,
so the name has exactly the values `u.Query()` holds for it, those read from the
query string of the parsed text (the base URL's own query string, when it has
one).  In particular, when the base URL has no query component, each of the two
parameters is present if and only if its list is not empty. -/
theorem C9_list_params (fmtF : Float64 → GoString) (c : Client)
    (req : NominatimSearchRequest) (u : URL) (hu : Parse (urls c) = .ok u) :
    (req.CountryCodes ≠ [] →
      (queryParams (buildSearchURL fmtF c req).1).lookup (B "countrycodes") =
        some [(B ",").intercalate req.CountryCodes]) ∧
    (req.CountryCodes = [] →
      (queryParams (buildSearchURL fmtF c req).1).lookup (B "countrycodes") =
        u.Query.lookup (B "countrycodes")) ∧
    (req.ExcludePlaceIds ≠ [] →
      (queryParams (buildSearchURL fmtF c req).1).lookup (B "exclude_place_ids") =
        some [(B ",").intercalate req.ExcludePlaceIds]) ∧
    (req.ExcludePlaceIds = [] →
      (queryParams (buildSearchURL fmtF c req).1).lookup (B "exclude_place_ids") =
        u.Query.lookup (B "exclude_place_ids")) ∧
    (c.hasBaseQuery = false →
      ((queryParams (buildSearchURL fmtF c req).1).lookup (B "countrycodes") ≠ none ↔
        req.CountryCodes ≠ []) ∧
      ((queryParams (buildSearchURL fmtF c req).1).lookup (B "exclude_place_ids") ≠ none ↔
        req.ExcludePlaceIds ≠ [])) := by
  have h1 := param_countrycodes fmtF c req u hu
  have h2 := param_exclude_place_ids fmtF c req u hu
  refine ⟨?_, ?_, ?_, ?_, ?_⟩
  rotate_left 4
  · intro hb
    rw [h1, h2, Query_eq_nil_of_no_base_query c u hu hb, lookup_nil, lookup_nil]
    constructor
    · by_cases h : req.CountryCodes = []
      · simp [h]
      · simp [h, List.length_pos.2 h]
    · by_cases h : req.ExcludePlaceIds = []
      · simp [h]
      · simp [h, List.length_pos.2 h]
  · intro h
    rw [h1, if_pos (List.length_pos.2 h), Join_eq_intercalate]
  · intro h
    rw [h1, h]
    rfl
  · intro h
    rw [h2, if_pos (List.length_pos.2 h), Join_eq_intercalate]
  · intro h
    rw [h2, h]
    rfl

/-- C9 at `sampleClient` and a request whose country codes are neither sorted nor
distinct. -/
theorem C9_witness :
    Parse (urls sampleClient) = .ok sampleURL ∧
    (queryParams (buildSearchURL fmtZero sampleClient
      { CountryCodes := [B "gb", B "de", B "gb"] }).1).lookup (B "countrycodes") =
        some [B "gb,de,gb"] ∧
    (queryParams (buildSearchURL fmtZero sampleClient
      { CountryCodes := [B "gb", B "de", B "gb"] }).1).lookup (B "exclude_place_ids") = none :=
  ⟨by decide,
    (C9_list_params fmtZero sampleClient { CountryCodes := [B "gb", B "de", B "gb"] } sampleURL
      (by decide)).1 (by decide),
    (C9_list_params fmtZero sampleClient { CountryCodes := [B "gb", B "de", B "gb"] } sampleURL
      (by decide)).2.2.2.1 rfl⟩

/-! ## C10 -/

/-- C10: `buildSearchURL` fails exactly when `url.Parse` fails on the base URL
followed by `/nominatim/v1/search.php`.  When that text parses, the builder
returns a URL and no error, for every request; when it does not, the builder
returns the empty string and the error of `url.Parse`. -/
theorem C10_fails_iff_parse_fails (fmtF : Float64 → GoString) (c : Client)
    (req : NominatimSearchRequest) :
    urls c = c.baseURL ++ B "/nominatim/v1/search.php" ∧
    (∀ u, Parse (urls c) = .ok u →
      buildSearchURL fmtF c req =
        (URL.String { u with RawQuery := (searchValues fmtF c.key req u.Query).Encode }, none)) ∧
    (∀ e, Parse (urls c) = .error e → buildSearchURL fmtF c req = ([], some e)) ∧
    ((buildSearchURL fmtF c req).2 = none ↔ ∃ u, Parse (urls c) = .ok u) := by
  refine ⟨?_, fun u hu => buildSearchURL_of_Parse fmtF c req u hu,
    fun e he => buildSearchURL_of_Parse_error fmtF c req e he, ?_⟩
  · have : NominatimPathPrefix ++ B "/search.php" = B "/nominatim/v1/search.php" := by decide
    rw [urls, List.append_assoc, this]
  · cases h : Parse (urls c) with
    | error e => simp [buildSearchURL_of_Parse_error fmtF c req e h]
    | ok u => simp [buildSearchURL_of_Parse fmtF c req u h]

/-- C10 at a base URL that does not parse (a `%` that starts no escape) and at
`sampleClient`, whose base URL parses. -/
theorem C10_witness :
    buildSearchURL fmtZero ⟨B "http://h/%zz", B "k"⟩ sampleQueryRequest =
      ([], some ⟨"parse", B "http://h/%zz/nominatim/v1/search.php",
        .EscapeError (B "%zz")⟩) ∧
    (buildSearchURL fmtZero sampleClient sampleQueryRequest).2 = none :=
  ⟨(C10_fails_iff_parse_fails fmtZero ⟨B "http://h/%zz", B "k"⟩ sampleQueryRequest).2.2.1 _
      (by decide),
    (C10_fails_iff_parse_fails fmtZero sampleClient sampleQueryRequest).2.2.2.2
      ⟨sampleURL, by decide⟩⟩

/-! ## Values with one value for each name -/

theorem Values.Single_nil : Values.Single [] := by
  intro p hp
  simp at hp

theorem Values.Single_Set (v : Values) (k x : GoString) (hv : v.Single) : (v.Set k x).Single := by
  intro p hp
  rcases Values.mem_assign v k [x] p hp with h | h
  · exact ⟨x, by rw [h]⟩
  · exact hv p h

theorem Values.Single_setOpt (v : Values) (st : GoString × Option GoString) (hv : v.Single) :
    (v.setOpt st).Single := by
  unfold Values.setOpt
  split
  · exact Values.Single_Set _ _ _ hv
  · exact hv

theorem Single_applySteps (steps : List (GoString × Option GoString)) (q : Values)
    (hq : q.Single) : (applySteps q steps).Single := by
  induction steps generalizing q with
  | nil => exact hq
  | cons st steps ih => exact ih _ (Values.Single_setOpt q st hq)

theorem Values.mem_keys_Set (v : Values) (k x key : GoString) :
    key ∈ (v.Set k x).map Prod.fst ↔ key = k ∨ key ∈ v.map Prod.fst :=
  Values.mem_keys_assign v k [x] key

theorem mem_keys_applySteps (steps : List (GoString × Option GoString)) (q : Values)
    (key : GoString) (h : key ∈ (applySteps q steps).map Prod.fst) :
    key ∈ q.map Prod.fst ∨ key ∈ steps.map Prod.fst := by
  induction steps generalizing q with
  | nil => exact Or.inl h
  | cons st steps ih =>
    obtain ⟨k, o⟩ := st
    have h2 := ih (q.setOpt (k, o)) h
    rcases h2 with h2 | h2
    · cases o with
      | none => exact Or.inl h2
      | some x =>
        rcases (Values.mem_keys_Set q k x key).1 h2 with h3 | h3
        · exact Or.inr (by simp [h3])
        · exact Or.inl h3
    · exact Or.inr (List.mem_cons_of_mem _ h2)

theorem searchSteps_names (fmtF : Float64 → GoString) (key : GoString)
    (req : NominatimSearchRequest) (name : GoString)
    (h : name ∈ (searchSteps fmtF key req).map Prod.fst) : name ∈ paramNames := by
  unfold searchSteps addressSteps filterSteps at h
  unfold paramNames
  split at h <;>
    simp only [List.map_cons, List.map_append, List.map_nil, List.mem_cons, List.mem_append,
      List.mem_singleton, List.not_mem_nil, or_false, List.cons_append, List.nil_append] at h ⊢ <;>
    tauto

/-! ## The pieces of the query string of the returned URL -/

theorem Split_Encode (v : Values) (hne : v.pairs ≠ []) :
    Split v.Encode (ch '&') = v.pairs.map encPair := by
  rw [Encode_eq, Split_Join _ _ (by simpa using hne)]
  intro p hp
  obtain ⟨q, _, rfl⟩ := List.mem_map.1 hp
  exact amp_not_mem_encPair q

theorem Cut_encPair (p : GoString × GoString) :
    Cut (encPair p) (ch '=') = (QueryEscape p.1, QueryEscape p.2) :=
  Cut_append_sep _ _ _ (eq_not_mem_QueryEscape _)

theorem pairs_ne_nil (v : Values) (hv : v.WF) (key : GoString) (vs : List GoString)
    (h : v.lookup key = some vs) : v.pairs ≠ [] := by
  intro he
  have h1 := valsOf_pairs v hv key
  rw [he, h] at h1
  have hne : vs ≠ [] := hv.2 _ (Values.lookup_mem v key vs h)
  simp [valsOf] at h1
  exact hne h1

theorem searchValues_pairs_ne_nil (fmtF : Float64 → GoString) (key : GoString)
    (req : NominatimSearchRequest) (q0 : Values) (hq : q0.WF) :
    (searchValues fmtF key req q0).pairs ≠ [] := by
  apply pairs_ne_nil _ (WF_searchValues _ _ _ _ hq) (B "format") [B "json"]
  rw [lookup_searchValues, stepsValue_searchSteps, stepsValue_cons_some, stepsValue_nil,
    stepsValue_addressSteps_untouched _ _ _ (by decide),
    stepsValue_filterSteps_untouched _ _ _ _ (by decide),
    stepsValue_cons_ne _ _ _ _ _ (by decide), stepsValue_nil]

/-- The query string of the returned URL, cut at `&`, is one piece
`name=value` for each pair of the values the builder set, names and values
escaped, in the order of `Values.Encode`. -/
theorem Split_rawQueryOf_buildSearchURL (fmtF : Float64 → GoString) (c : Client)
    (req : NominatimSearchRequest) (u : URL) (hu : Parse (urls c) = .ok u) :
    Split (rawQueryOf (buildSearchURL fmtF c req).1) (ch '&') =
      (searchValues fmtF c.key req u.Query).pairs.map encPair := by
  rw [rawQueryOf_buildSearchURL fmtF c req u hu]
  exact Split_Encode _
    (searchValues_pairs_ne_nil fmtF c.key req u.Query (WF_ParseQuery u.RawQuery))

theorem rawNames_buildSearchURL (fmtF : Float64 → GoString) (c : Client)
    (req : NominatimSearchRequest) (u : URL) (hu : Parse (urls c) = .ok u) :
    rawNames (buildSearchURL fmtF c req).1 =
      (searchValues fmtF c.key req u.Query).pairs.map (fun p => QueryEscape p.1) := by
  unfold rawNames
  rw [Split_rawQueryOf_buildSearchURL fmtF c req u hu, List.map_map]
  apply List.map_congr_left
  intro p _
  simp only [Function.comp, Cut_encPair]

theorem pairs_fst_of_Single (v : Values) (keys : List GoString)
    (h : ∀ k ∈ keys, ∃ x, v.lookup k = some [x]) :
    (keys.flatMap (fun k => ((v.lookup k).getD []).map (fun x => (k, x)))).map Prod.fst =
      keys := by
  induction keys with
  | nil => rfl
  | cons k ks ih =>
    obtain ⟨x, hx⟩ := h k (by simp)
    rw [List.flatMap_cons, List.map_append, ih (fun k hk => h k (List.mem_cons_of_mem _ hk)), hx]
    rfl

theorem lookup_of_mem_keys (v : Values) (key : GoString) (h : key ∈ v.map Prod.fst) :
    ∃ vs, v.lookup key = some vs := by
  cases hl : v.lookup key with
  | none =>
    rw [Values.lookup_eq_none_iff] at hl
    exact absurd h hl
  | some vs => exact ⟨vs, rfl⟩

/-- The names `Values.Encode` writes, when every name has one value: the keys
in ascending order, each once. -/
theorem pairs_fst_eq_sorted_keys (v : Values) (hs : v.Single) :
    v.pairs.map Prod.fst = (v.map Prod.fst).insertionSort (fun a b => strLe a b = true) := by
  unfold Values.pairs
  apply pairs_fst_of_Single
  intro k hk
  have hk2 : k ∈ v.map Prod.fst :=
    (List.perm_insertionSort (fun a b => strLe a b = true) (v.map Prod.fst)).mem_iff.1 hk
  obtain ⟨vs, hvs⟩ := lookup_of_mem_keys v k hk2
  obtain ⟨x, hx⟩ := hs _ (Values.lookup_mem v k vs hvs)
  exact ⟨x, by rw [hvs]; exact congrArg some hx⟩

theorem QueryEscape_paramNames : ∀ name ∈ paramNames, QueryEscape name = name := by
  decide

/-! ## C14 -/

/-- C14: when the base URL has no query component and, followed by
`/nominatim/v1/search.php`, parses, every parameter name of the returned URL is
one of `format`, `addressdetails`, `q`, `street`, `city`, `county`, `state`,
`country`, `postalcode`, `limit`, `countrycodes`, `viewbox`, `exclude_place_ids`,
`bounded`, `routewidth`, `osm_type`, `osm_id`, `key`, and each name occurs at
most once: the names written in the query string are among these and pairwise
distinct, and every decoded parameter has one of these names and one value. -/
theorem C14_only_known_names_each_once (fmtF : Float64 → GoString) (c : Client)
    (req : NominatimSearchRequest) (u : URL) (hu : Parse (urls c) = .ok u)
    (hb : c.hasBaseQuery = false) :
    (∀ name ∈ rawNames (buildSearchURL fmtF c req).1, name ∈ paramNames) ∧
    (rawNames (buildSearchURL fmtF c req).1).Nodup ∧
    (∀ name, (queryParams (buildSearchURL fmtF c req).1).lookup name ≠ none →
      name ∈ paramNames ∧
      ∃ x, (queryParams (buildSearchURL fmtF c req).1).lookup name = some [x]) := by
  have hq0 : u.Query = [] := Query_eq_nil_of_no_base_query c u hu hb
  have hwf : (searchValues fmtF c.key req u.Query).WF :=
    WF_searchValues _ _ _ _ (WF_ParseQuery u.RawQuery)
  have hsingle : (searchValues fmtF c.key req u.Query).Single := by
    rw [searchValues_eq, hq0]
    exact Single_applySteps _ _ Values.Single_nil
  have hkeys : ∀ k ∈ (searchValues fmtF c.key req u.Query).map Prod.fst, k ∈ paramNames := by
    intro k hk
    rw [searchValues_eq, hq0] at hk
    rcases mem_keys_applySteps _ _ _ hk with h | h
    · simp at h
    · exact searchSteps_names fmtF c.key req k h
  have hperm := List.perm_insertionSort (fun a b => strLe a b = true)
    ((searchValues fmtF c.key req u.Query).map Prod.fst)
  have hnames : rawNames (buildSearchURL fmtF c req).1 =
      ((searchValues fmtF c.key req u.Query).map Prod.fst).insertionSort
        (fun a b => strLe a b = true) := by
    rw [rawNames_buildSearchURL fmtF c req u hu, ← pairs_fst_eq_sorted_keys _ hsingle]
    apply List.map_congr_left
    intro p hp
    have hp1 : p.1 ∈ (searchValues fmtF c.key req u.Query).pairs.map Prod.fst :=
      List.mem_map.2 ⟨p, hp, rfl⟩
    rw [pairs_fst_eq_sorted_keys _ hsingle] at hp1
    exact QueryEscape_paramNames p.1 (hkeys p.1 (hperm.mem_iff.1 hp1))
  refine ⟨?_, ?_, ?_⟩
  · intro name hn
    rw [hnames] at hn
    exact hkeys name (hperm.mem_iff.1 hn)
  · rw [hnames]
    exact hperm.nodup_iff.2 hwf.1
  · intro name hn
    unfold queryParams at hn ⊢
    rw [rawQueryOf_buildSearchURL fmtF c req u hu, lookup_ParseQuery_Encode _ hwf] at hn ⊢
    cases hl : (searchValues fmtF c.key req u.Query).lookup name with
    | none => exact absurd hl hn
    | some vs =>
      have hmem := Values.lookup_mem _ name vs hl
      obtain ⟨x, hx⟩ := hsingle _ hmem
      refine ⟨hkeys name (List.mem_map.2 ⟨_, hmem, rfl⟩), x, ?_⟩
      exact congrArg some hx

/-- C14 at `sampleClient` and `sampleAddressRequest`: the names written in the
returned URL. -/
theorem C14_witness :
    Parse (urls sampleClient) = .ok sampleURL ∧ sampleClient.hasBaseQuery = false ∧
    rawNames (buildSearchURL fmtZero sampleClient sampleAddressRequest).1 =
      [B "addressdetails", B "bounded", B "city", B "exclude_place_ids", B "format", B "key",
       B "postalcode", B "street", B "viewbox"] ∧
    (rawNames (buildSearchURL fmtZero sampleClient sampleAddressRequest).1).Nodup :=
  ⟨by decide, by decide, by decide,
    (C14_only_known_names_each_once fmtZero sampleClient sampleAddressRequest sampleURL
      (by decide) (by decide)).2.1⟩

/-! ## C15 -/

/-- C15, as stated, fails: with the base URL `http://h?routewidth=1&x=` and
`RouteWidth` unset, the builder succeeds and the returned URL has
`routewidth=1`. -/
theorem C15_counterexample :
    ({} : NominatimSearchRequest).RouteWidth = none ∧
    buildSearchURL fmtZero ⟨B "http://h?routewidth=1&x=", []⟩ {} =
      (B ("http://h?addressdetails=1&format=json&routewidth=1" ++
          "&x=%2Fnominatim%2Fv1%2Fsearch.php"), none) ∧
    (queryParams (buildSearchURL fmtZero ⟨B "http://h?routewidth=1&x=", []⟩ {}).1).lookup
      (B "routewidth") = some [B "1"] := by
  decide

/-- C15 (amended): when the base URL followed by `/nominatim/v1/search.php`
parses (to `u`), a `RouteWidth` that is set, zero included, gives the returned
URL exactly one `routewidth` parameter, the float formatted; with `RouteWidth`
unset the builder adds no `routewidth` parameter, so `routewidth` has exactly
the values `u.Query()` holds for it, those read from the query string of the
parsed text (the base URL's own query string, when it has one).  In particular,
when the base URL has no query component, the returned URL has a `routewidth`
parameter if and only if `RouteWidth` is set. -/
theorem C15_routewidth_param (fmtF : Float64 → GoString) (c : Client)
    (req : NominatimSearchRequest) (u : URL) (hu : Parse (urls c) = .ok u) :
    (∀ w, req.RouteWidth = some w →
      (queryParams (buildSearchURL fmtF c req).1).lookup (B "routewidth") = some [fmtF w]) ∧
    (req.RouteWidth = none →
      (queryParams (buildSearchURL fmtF c req).1).lookup (B "routewidth") =
        u.Query.lookup (B "routewidth")) ∧
    (c.hasBaseQuery = false →
      ((queryParams (buildSearchURL fmtF c req).1).lookup (B "routewidth") ≠ none ↔
        req.RouteWidth ≠ none)) := by
  have hr := param_routewidth fmtF c req u hu
  refine ⟨?_, ?_, ?_⟩
  · intro w hw
    rw [hr, hw]
  · intro hn
    rw [hr, hn]
  · intro hb
    rw [hr, Query_eq_nil_of_no_base_query c u hu hb]
    cases req.RouteWidth with
    | none => simp [lookup_nil]
    | some w => simp

/-- C15 at `sampleClient`: a `RouteWidth` set to zero gives the parameter, an
unset one gives none. -/
theorem C15_witness :
    Parse (urls sampleClient) = .ok sampleURL ∧
    (queryParams (buildSearchURL fmtZero sampleClient { RouteWidth := some 0 }).1).lookup
      (B "routewidth") = some [B "0.000000"] ∧
    (queryParams (buildSearchURL fmtZero sampleClient sampleQueryRequest).1).lookup
      (B "routewidth") = none :=
  ⟨by decide,
    (C15_routewidth_param fmtZero sampleClient { RouteWidth := some 0 } sampleURL
      (by decide)).1 0 rfl,
    ((C15_routewidth_param fmtZero sampleClient sampleQueryRequest sampleURL
      (by decide)).2.1 rfl).trans (by decide)⟩

/-! ## C16 -/

/-- C16, as stated, fails: with the base URL `http://h?osm_id=7&x=` and an
empty `OSMId`, the builder succeeds and the returned URL has `osm_id=7`. -/
theorem C16_counterexample :
    ({} : NominatimSearchRequest).OSMId = [] ∧
    buildSearchURL fmtZero ⟨B "http://h?osm_id=7&x=", []⟩ {} =
      (B "http://h?addressdetails=1&format=json&osm_id=7&x=%2Fnominatim%2Fv1%2Fsearch.php",
        none) ∧
    (queryParams (buildSearchURL fmtZero ⟨B "http://h?osm_id=7&x=", []⟩ {}).1).lookup
      (B "osm_id") = some [B "7"] := by
  decide

/-- C16 (amended): when the base URL followed by `/nominatim/v1/search.php`
parses (to `u`), a non-empty `OSMType` gives the returned URL exactly one
`osm_type` parameter, whose decoded value is `OSMType`, and a non-empty `OSMId`
exactly one `osm_id` parameter, whose decoded value is `OSMId`, each decided on
its own; for an empty field the builder adds no such parameter, so the name has
exactly the values `u.Query()` holds for it, those read from the query string of
the parsed text (the base URL's own query string, when it has one).  In
particular, when the base URL has no query component, each of the two
parameters is present if and only if its field is not empty. -/
theorem C16_osm_params (fmtF : Float64 → GoString) (c : Client)
    (req : NominatimSearchRequest) (u : URL) (hu : Parse (urls c) = .ok u) :
    (req.OSMType ≠ [] →
      (queryParams (buildSearchURL fmtF c req).1).lookup (B "osm_type") = some [req.OSMType]) ∧
    (req.OSMType = [] →
      (queryParams (buildSearchURL fmtF c req).1).lookup (B "osm_type") =
        u.Query.lookup (B "osm_type")) ∧
    (req.OSMId ≠ [] →
      (queryParams (buildSearchURL fmtF c req).1).lookup (B "osm_id") = some [req.OSMId]) ∧
    (req.OSMId = [] →
      (queryParams (buildSearchURL fmtF c req).1).lookup (B "osm_id") =
        u.Query.lookup (B "osm_id")) ∧
    (c.hasBaseQuery = false →
      ((queryParams (buildSearchURL fmtF c req).1).lookup (B "osm_type") ≠ none ↔
        req.OSMType ≠ []) ∧
      ((queryParams (buildSearchURL fmtF c req).1).lookup (B "osm_id") ≠ none ↔
        req.OSMId ≠ [])) := by
  have h1 := param_osm_type fmtF c req u hu
  have h2 := param_osm_id fmtF c req u hu
  refine ⟨?_, ?_, ?_, ?_, ?_⟩
  · intro h
    rw [h1, if_pos h]
  · intro h
    rw [h1, if_neg (fun hne => hne h)]
  · intro h
    rw [h2, if_pos h]
  · intro h
    rw [h2, if_neg (fun hne => hne h)]
  · intro hb
    rw [h1, h2, Query_eq_nil_of_no_base_query c u hu hb, lookup_nil, lookup_nil]
    constructor
    · by_cases h : req.OSMType = [] <;> simp [h]
    · by_cases h : req.OSMId = [] <;> simp [h]

/-- C16 at `sampleClient` and a request with an `OSMId` and no `OSMType`. -/
theorem C16_witness :
    Parse (urls sampleClient) = .ok sampleURL ∧
    (queryParams (buildSearchURL fmtZero sampleClient { OSMId := B "4 2" }).1).lookup
      (B "osm_id") = some [B "4 2"] ∧
    (queryParams (buildSearchURL fmtZero sampleClient { OSMId := B "4 2" }).1).lookup
      (B "osm_type") = none :=
  ⟨by decide,
    (C16_osm_params fmtZero sampleClient { OSMId := B "4 2" } sampleURL (by decide)).2.2.1
      (by decide),
    ((C16_osm_params fmtZero sampleClient { OSMId := B "4 2" } sampleURL (by decide)).2.1
      rfl).trans (by decide)⟩

/-! ## The order of strings -/

theorem strLe_refl (a : GoString) : strLe a a = true := by
  induction a with
  | nil => rfl
  | cons c a ih => simp [strLe, ih]

theorem strLe_total (a b : GoString) : strLe a b = true ∨ strLe b a = true := by
  induction a generalizing b with
  | nil => exact Or.inl rfl
  | cons c a ih =>
    cases b with
    | nil => exact Or.inr rfl
    | cons d b =>
      simp only [strLe, Bool.or_eq_true, Bool.and_eq_true, decide_eq_true_eq]
      rcases Nat.lt_trichotomy c.val d.val with h | h | h
      · exact Or.inl (Or.inl h)
      · have hcd : c = d := Fin.ext h
        rcases ih b with h2 | h2
        · exact Or.inl (Or.inr ⟨hcd, h2⟩)
        · exact Or.inr (Or.inr ⟨hcd.symm, h2⟩)
      · exact Or.inr (Or.inl h)

theorem strLe_trans (a b c : GoString) (h1 : strLe a b = true) (h2 : strLe b c = true) :
    strLe a c = true := by
  induction a generalizing b c with
  | nil => rfl
  | cons x a ih =>
    cases b with
    | nil => simp [strLe] at h1
    | cons y b =>
      cases c with
      | nil => simp [strLe] at h2
      | cons z c =>
        simp only [strLe, Bool.or_eq_true, Bool.and_eq_true, decide_eq_true_eq] at h1 h2 ⊢
        rcases h1 with h1 | ⟨h1, h1'⟩
        · rcases h2 with h2 | ⟨h2, _⟩
          · exact Or.inl (by omega)
          · exact Or.inl (by rw [← h2]; exact h1)
        · rcases h2 with h2 | ⟨h2, h2'⟩
          · exact Or.inl (by rw [h1]; exact h2)
          · exact Or.inr ⟨h1.trans h2, ih b c h1' h2'⟩

theorem strLe_antisymm (a b : GoString) (h1 : strLe a b = true) (h2 : strLe b a = true) :
    a = b := by
  induction a generalizing b with
  | nil =>
    cases b with
    | nil => rfl
    | cons d b => simp [strLe] at h2
  | cons c a ih =>
    cases b with
    | nil => simp [strLe] at h1
    | cons d b =>
      simp only [strLe, Bool.or_eq_true, Bool.and_eq_true, decide_eq_true_eq] at h1 h2
      rcases h1 with h1 | ⟨h1, h1'⟩
      · rcases h2 with h2 | ⟨h2, _⟩
        · omega
        · rw [h2] at h1
          omega
      · rcases h2 with h2 | ⟨_, h2'⟩
        · rw [h1] at h2
          omega
        · rw [h1, ih b h1' h2']

theorem sorted_keys (l : List GoString) :
    (l.insertionSort (fun a b => strLe a b = true)).Sorted (fun a b => strLe a b = true) :=
  @List.sorted_insertionSort _ (fun a b => strLe a b = true) _
    ⟨strLe_total⟩ ⟨strLe_trans⟩ l

/-- Two lists of strings with the same elements, each once, sort to the same
list. -/
theorem insertionSort_eq_of_perm (l1 l2 : List GoString) (h : l1.Perm l2) :
    l1.insertionSort (fun a b => strLe a b = true) =
      l2.insertionSort (fun a b => strLe a b = true) := by
  have p1 := List.perm_insertionSort (fun a b => strLe a b = true) l1
  have p2 := List.perm_insertionSort (fun a b => strLe a b = true) l2
  exact @List.eq_of_perm_of_sorted _ (fun a b => strLe a b = true) ⟨strLe_antisymm⟩ _ _
    (p1.trans (h.trans p2.symm)) (sorted_keys l1) (sorted_keys l2)

/-- The names `Values.Encode` writes are in ascending order. -/
theorem sorted_pairs_fst (v : Values) :
    (v.pairs.map Prod.fst).Sorted (fun a b => strLe a b = true) := by
  unfold Values.pairs
  have hs := sorted_keys (v.map Prod.fst)
  generalize (v.map Prod.fst).insertionSort (fun a b => strLe a b = true) = keys at hs
  induction keys with
  | nil => exact List.sorted_nil
  | cons k ks ih =>
    rw [List.flatMap_cons, List.map_append]
    have hk := List.sorted_cons.1 hs
    unfold List.Sorted
    rw [List.pairwise_append]
    refine ⟨?_, ih hk.2, ?_⟩
    · rw [List.map_map]
      generalize (v.lookup k).getD [] = vals
      induction vals with
      | nil => exact List.Pairwise.nil
      | cons x xs ihx =>
        rw [List.map_cons, List.pairwise_cons]
        refine ⟨?_, ihx⟩
        intro a ha
        obtain ⟨_, _, rfl⟩ := List.mem_map.1 ha
        exact strLe_refl k
    · intro a ha b hb
      rw [List.map_map] at ha
      obtain ⟨_, _, rfl⟩ := List.mem_map.1 ha
      obtain ⟨p, hp, rfl⟩ := List.mem_map.1 hb
      obtain ⟨k2, hk2, hp2⟩ := List.mem_flatMap.1 hp
      obtain ⟨_, _, rfl⟩ := List.mem_map.1 hp2
      exact hk.1 k2 hk2

/-- The text `Values.Encode` writes depends on the map alone, not on the order
in which the keys were set. -/
theorem Encode_congr (v1 v2 : Values) (h1 : v1.WF) (h2 : v2.WF)
    (h : ∀ k, v1.lookup k = v2.lookup k) : v1.Encode = v2.Encode := by
  have hperm : (v1.map Prod.fst).Perm (v2.map Prod.fst) := by
    rw [List.perm_ext_iff_of_nodup h1.1 h2.1]
    intro k
    rw [← not_iff_not, ← Values.lookup_eq_none_iff, ← Values.lookup_eq_none_iff, h k]
  unfold Values.Encode
  rw [insertionSort_eq_of_perm _ _ hperm]
  congr 1
  apply List.flatMap_congr
  intro k _
  rw [h k]

theorem decodedNames_buildSearchURL (fmtF : Float64 → GoString) (c : Client)
    (req : NominatimSearchRequest) (u : URL) (hu : Parse (urls c) = .ok u) :
    decodedNames (buildSearchURL fmtF c req).1 =
      (searchValues fmtF c.key req u.Query).pairs.map Prod.fst := by
  unfold decodedNames
  rw [rawNames_buildSearchURL fmtF c req u hu, List.filterMap_map]
  rw [← List.filterMap_eq_map]
  apply List.filterMap_congr
  intro p _
  simp only [Function.comp, QueryUnescape_QueryEscape]

/-! ## C18 -/

/-- C18: when the base URL has no query component and, followed by
`/nominatim/v1/search.php`, parses, reading the query string of the returned URL
back (cut at `&` and `=`, names and values unescaped) gives exactly the map the
builder set: every name has the value list the builder gave it, and no other
name has any.  The same holds for the query that `url.Parse` finds in the
returned URL; the map read back has each name once, and the query string has as
many pieces as the builder set parameters. -/
theorem C18_query_round_trip (fmtF : Float64 → GoString) (c : Client)
    (req : NominatimSearchRequest) (u : URL) (hu : Parse (urls c) = .ok u)
    (hb : c.hasBaseQuery = false) :
    (∀ name, (queryParams (buildSearchURL fmtF c req).1).lookup name =
      (searchValues fmtF c.key req []).lookup name) ∧
    (∀ u2, Parse (buildSearchURL fmtF c req).1 = .ok u2 →
      ∀ name, u2.Query.lookup name = (searchValues fmtF c.key req []).lookup name) ∧
    (queryParams (buildSearchURL fmtF c req).1).WF ∧
    (Split (rawQueryOf (buildSearchURL fmtF c req).1) (ch '&')).length =
      (searchValues fmtF c.key req []).length := by
  have hq0 : u.Query = [] := Query_eq_nil_of_no_base_query c u hu hb
  have hwf : (searchValues fmtF c.key req u.Query).WF :=
    WF_searchValues _ _ _ _ (WF_ParseQuery u.RawQuery)
  have hsingle : (searchValues fmtF c.key req u.Query).Single := by
    rw [searchValues_eq, hq0]
    exact Single_applySteps _ _ Values.Single_nil
  have hround : ∀ name, (queryParams (buildSearchURL fmtF c req).1).lookup name =
      (searchValues fmtF c.key req []).lookup name := by
    intro name
    unfold queryParams
    rw [rawQueryOf_buildSearchURL fmtF c req u hu, lookup_ParseQuery_Encode _ hwf, hq0]
  refine ⟨hround, ?_, WF_ParseQuery _, ?_⟩
  · intro u2 hu2 name
    rw [← hround name]
    unfold URL.Query queryParams
    rw [Parse_RawQuery _ u2 hu2]
  · rw [Split_rawQueryOf_buildSearchURL fmtF c req u hu, List.length_map,
      ← List.length_map (searchValues fmtF c.key req u.Query).pairs Prod.fst,
      pairs_fst_eq_sorted_keys _ hsingle, List.length_insertionSort, List.length_map, hq0]

/-- C18 at `sampleClient` and a request whose values hold `&`, `=`, `+`, `%`,
`,`, `#` and spaces. -/
theorem C18_witness :
    Parse (urls sampleClient) = .ok sampleURL ∧ sampleClient.hasBaseQuery = false ∧
    (buildSearchURL fmtZero sampleClient
      { Query := B "a&b=c+d%e,f#g h", CountryCodes := [B "x,y", B "&z"] }).1 =
      B ("http://open.mapquestapi.com/nominatim/v1/search.php?addressdetails=1" ++
         "&countrycodes=x%2Cy%2C%26z&format=json&key=s3cret" ++
         "&q=a%26b%3Dc%2Bd%25e%2Cf%23g+h") ∧
    ∀ name, (queryParams (buildSearchURL fmtZero sampleClient
      { Query := B "a&b=c+d%e,f#g h", CountryCodes := [B "x,y", B "&z"] }).1).lookup name =
      Values.lookup
        [(B "format", [B "json"]), (B "q", [B "a&b=c+d%e,f#g h"]),
         (B "addressdetails", [B "1"]), (B "countrycodes", [B "x,y,&z"]),
         (B "key", [B "s3cret"])] name :=
  ⟨by decide, by decide, by decide,
    (C18_query_round_trip fmtZero sampleClient
      { Query := B "a&b=c+d%e,f#g h", CountryCodes := [B "x,y", B "&z"] } sampleURL
      (by decide) (by decide)).1⟩

/-! ## C20 -/

/-- C20: when the base URL followed by `/nominatim/v1/search.php` parses (to
`u`), the parameters of the returned URL appear in ascending order of their
decoded names, bytewise.  The returned URL depends on the map of parameters
alone: any values with the same map encode to the same URL, whatever the order
in which they were set, so two requests that set the same map get byte-identical
results. -/
theorem C20_names_ascending (fmtF : Float64 → GoString) (c : Client)
    (req : NominatimSearchRequest) (u : URL) (hu : Parse (urls c) = .ok u) :
    (decodedNames (buildSearchURL fmtF c req).1).Sorted (fun a b => strLe a b = true) ∧
    (∀ v : Values, v.WF →
      (∀ name, v.lookup name = (searchValues fmtF c.key req u.Query).lookup name) →
      URL.String { u with RawQuery := v.Encode } = (buildSearchURL fmtF c req).1) ∧
    (∀ req2 : NominatimSearchRequest,
      (∀ name, (searchValues fmtF c.key req2 u.Query).lookup name =
        (searchValues fmtF c.key req u.Query).lookup name) →
      buildSearchURL fmtF c req2 = buildSearchURL fmtF c req) := by
  have hwf : ∀ r, (searchValues fmtF c.key r u.Query).WF :=
    fun r => WF_searchValues _ _ _ _ (WF_ParseQuery u.RawQuery)
  refine ⟨?_, ?_, ?_⟩
  · rw [decodedNames_buildSearchURL fmtF c req u hu]
    exact sorted_pairs_fst _
  · intro v hv h
    rw [buildSearchURL_of_Parse fmtF c req u hu, Encode_congr v _ hv (hwf req) h]
  · intro req2 h
    rw [buildSearchURL_of_Parse fmtF c req u hu, buildSearchURL_of_Parse fmtF c req2 u hu,
      Encode_congr _ _ (hwf req2) (hwf req) h]

/-- C20 at `sampleClient` and `sampleAddressRequest`: the names in the order of
the returned URL, and the same URL for a request that sets the same map. -/
theorem C20_witness :
    Parse (urls sampleClient) = .ok sampleURL ∧
    decodedNames (buildSearchURL fmtZero sampleClient sampleAddressRequest).1 =
      [B "addressdetails", B "bounded", B "city", B "exclude_place_ids", B "format", B "key",
       B "postalcode", B "street", B "viewbox"] ∧
    (decodedNames (buildSearchURL fmtZero sampleClient sampleAddressRequest).1).Sorted
      (fun a b => strLe a b = true) :=
  ⟨by decide, by decide,
    (C20_names_ascending fmtZero sampleClient sampleAddressRequest sampleURL (by decide)).1⟩

/-! ## A base URL without query and without fragment -/

theorem setPath_flags (u u2 : URL) (p : GoString) (h : URL.setPath u p = .ok u2) :
    u2.ForceQuery = u.ForceQuery ∧ u2.Fragment = u.Fragment := by
  unfold URL.setPath at h
  split at h
  · cases h
  · simp only [Except.ok.injEq] at h
    subst h
    simp

theorem parseRest_flags (url u : URL) (rest : GoString) (h : parseRest url rest = .ok u) :
    u.ForceQuery = url.ForceQuery ∧ u.Fragment = url.Fragment := by
  unfold parseRest at h
  split at h
  · simp only [Except.ok.injEq] at h
    subst h
    simp
  · split at h
    · cases h
    · split at h
      · simp only at h
        split at h
        · cases h
        · have := setPath_flags _ _ _ h
          exact this
      · split at h
        · have := setPath_flags _ _ _ h
          exact this
        · exact setPath_flags _ _ _ h

theorem mem_of_getLast? (s : GoString) (x : Byte) (h : s.getLast? = some x) : x ∈ s := by
  exact List.mem_of_getLast?_eq_some h

theorem parse_flags (raw : GoString) (u : URL) (hq : ch '?' ∉ raw) (h : parse raw = .ok u) :
    u.ForceQuery = false ∧ u.Fragment = [] := by
  unfold parse at h
  split at h
  · cases h
  · split at h
    · simp only [Except.ok.injEq] at h
      subst h
      simp
    · split at h
      · cases h
      · rename_i scheme rest0 hsch
        have hspec := getScheme_spec raw scheme rest0 hsch
        split at h
        · rename_i hf
          exact absurd (hspec.2 _ (mem_of_getLast? _ _ hf.1)) hq
        · exact parseRest_flags _ _ _ h

/-- A URL parsed from a text with no `?` and no `#` has no query, no forced `?`
and no fragment. -/
theorem Parse_plain (rawURL : GoString) (u : URL) (hq : ch '?' ∉ rawURL) (hf : ch '#' ∉ rawURL)
    (h : Parse rawURL = .ok u) : u.RawQuery = [] ∧ u.ForceQuery = false ∧ u.Fragment = [] := by
  have hr : u.RawQuery = [] := by
    rw [Parse_RawQuery _ u h, rawQueryOf, Cut_no_sep _ _ hf, Cut_no_sep _ _ hq]
  refine ⟨hr, ?_⟩
  unfold Parse at h
  rw [Cut_no_sep _ _ hf] at h
  simp only [if_true] at h
  split at h
  · cases h
  · rename_i url hp
    simp only [Except.ok.injEq] at h
    subst h
    exact parse_flags _ _ hq hp

theorem Encode_ne_nil (v : Values) (hne : v.pairs ≠ []) : v.Encode ≠ [] := by
  intro he
  have hs := Split_Encode v hne
  rw [he] at hs
  cases hp : v.pairs with
  | nil => exact hne hp
  | cons p ps =>
    rw [hp] at hs
    simp only [Split, List.map_cons, List.cons.injEq] at hs
    have : encPair p ≠ [] := by simp [encPair]
    exact this hs.1.symm

theorem question_hash_not_mem_suffix :
    ch '?' ∉ NominatimPathPrefix ++ B "/search.php" ∧
    ch '#' ∉ NominatimPathPrefix ++ B "/search.php" := by
  decide

/-! ## C19 -/

/-- C19, as stated, fails: with the base URL `HTTP://h`, which has no query and
no fragment, the returned URL starts with `http://h`, the scheme in lower case,
and not with the base URL. -/
theorem C19_counterexample :
    (⟨B "HTTP://h", []⟩ : Client).hasBaseQuery = false ∧
    ch '#' ∉ (⟨B "HTTP://h", []⟩ : Client).baseURL ∧
    buildSearchURL fmtZero ⟨B "HTTP://h", []⟩ {} =
      (B "http://h/nominatim/v1/search.php?addressdetails=1&format=json", none) ∧
    (buildSearchURL fmtZero ⟨B "HTTP://h", []⟩ {}).1 ≠
      B "HTTP://h" ++ B "/nominatim/v1/search.php" ++ B "?" ++
        rawQueryOf (buildSearchURL fmtZero ⟨B "HTTP://h", []⟩ {}).1 := by
  decide

/-- C19 (amended): when the base URL has no query and no fragment and, followed
by `/nominatim/v1/search.php`, parses (to `u`), the returned URL is the text
`u.String()` gives for the parsed URL, then `?`, then the encoded query, and
nothing after the query.  `u.String()` is the base URL followed by
`/nominatim/v1/search.php` as `url.Parse` and `URL.String` rewrite it (the
scheme in lower case, the path, the host and the user information escaped
anew); whenever it is that text unchanged, the returned URL is the base URL
followed by `/nominatim/v1/search.php`, `?` and the encoded query. -/
theorem C19_url_shape (fmtF : Float64 → GoString) (c : Client)
    (req : NominatimSearchRequest) (u : URL) (hu : Parse (urls c) = .ok u)
    (hb : c.hasBaseQuery = false) (hf : ch '#' ∉ c.baseURL) :
    (buildSearchURL fmtF c req).1 =
      URL.String u ++ ch '?' :: (searchValues fmtF c.key req []).Encode ∧
    rawQueryOf (buildSearchURL fmtF c req).1 = (searchValues fmtF c.key req []).Encode ∧
    (URL.String u = c.baseURL ++ B "/nominatim/v1/search.php" →
      (buildSearchURL fmtF c req).1 =
        c.baseURL ++ B "/nominatim/v1/search.php" ++ B "?" ++
          (searchValues fmtF c.key req []).Encode) := by
  have hq0 : u.Query = [] := Query_eq_nil_of_no_base_query c u hu hb
  have hqb : ch '?' ∉ c.baseURL := by
    intro hm
    simp only [Client.hasBaseQuery, containsByte, List.any_eq_false, decide_eq_true_eq] at hb
    rw [Cut_no_sep _ _ hf] at hb
    exact hb _ hm rfl
  have hsuf := question_hash_not_mem_suffix
  have hq : ch '?' ∉ urls c := by
    unfold urls
    rw [List.append_assoc]
    intro hm
    rcases List.mem_append.1 hm with hm | hm
    · exact hqb hm
    · exact hsuf.1 hm
  have hh : ch '#' ∉ urls c := by
    unfold urls
    rw [List.append_assoc]
    intro hm
    rcases List.mem_append.1 hm with hm | hm
    · exact hf hm
    · exact hsuf.2 hm
  obtain ⟨h1, h2, h3⟩ := Parse_plain _ u hq hh hu
  have hne : (searchValues fmtF c.key req []).Encode ≠ [] :=
    Encode_ne_nil _ (searchValues_pairs_ne_nil fmtF c.key req [] Values.WF_nil)
  have hout : (buildSearchURL fmtF c req).1 =
      URL.String u ++ ch '?' :: (searchValues fmtF c.key req []).Encode := by
    rw [buildSearchURL_of_Parse fmtF c req u hu, hq0]
    unfold URL.String
    simp [h1, h2, h3, hne]
    rfl
  refine ⟨hout, ?_, ?_⟩
  · rw [rawQueryOf_buildSearchURL fmtF c req u hu, hq0]
  · intro hs
    rw [hout, hs]
    simp only [List.append_assoc]
    rfl

/-- C19 at `sampleClient`, whose base URL `url.Parse` and `URL.String` leave
unchanged. -/
theorem C19_witness :
    Parse (urls sampleClient) = .ok sampleURL ∧ sampleClient.hasBaseQuery = false ∧
    ch '#' ∉ sampleClient.baseURL ∧
    (buildSearchURL fmtZero sampleClient sampleQueryRequest).1 =
      sampleClient.baseURL ++ B "/nominatim/v1/search.php" ++ B "?" ++
        B ("addressdetails=1&bounded=0&countrycodes=gb%2Cde&format=json&key=s3cret&limit=3" ++
           "&q=10+Downing+St+%26+Whitehall") :=
  ⟨by decide, by decide, by decide,
    ((C19_url_shape fmtZero sampleClient sampleQueryRequest sampleURL (by decide) (by decide)
      (by decide)).2.2 (by decide)).trans (by decide)⟩

/-! ## `Search` -/

theorem Search_of_build_error {E : Type} (fmtF : Float64 → GoString)
    (getJSON : GoString → ResultSlice → ResultSlice × Option E) (c : Client)
    (req : NominatimSearchRequest) (s : GoString) (err : Error)
    (h : buildSearchURL fmtF c req = (s, some err)) :
    Search fmtF getJSON c req = { res := none, err := some (.url err), calls := [] } := by
  simp only [Search, h]

theorem Search_of_getJSON_error {E : Type} (fmtF : Float64 → GoString)
    (getJSON : GoString → ResultSlice → ResultSlice × Option E) (c : Client)
    (req : NominatimSearchRequest) (u : GoString) (t : ResultSlice) (e : E)
    (hb : buildSearchURL fmtF c req = (u, none)) (hg : getJSON u (some []) = (t, some e)) :
    Search fmtF getJSON c req = { res := none, err := some (.client e), calls := [u] } := by
  simp only [Search, hb, hg]

theorem Search_of_getJSON_ok {E : Type} (fmtF : Float64 → GoString)
    (getJSON : GoString → ResultSlice → ResultSlice × Option E) (c : Client)
    (req : NominatimSearchRequest) (u : GoString) (t : ResultSlice)
    (hb : buildSearchURL fmtF c req = (u, none)) (hg : getJSON u (some []) = (t, none)) :
    Search fmtF getJSON c req = { res := some { Results := t }, err := none, calls := [u] } := by
  simp only [Search, hb, hg]

/-- When `Search` returns no error, the URL was built, `getJSON` returned no
error, and the response holds the slice `getJSON` left in the target. -/
theorem Search_success {E : Type} (fmtF : Float64 → GoString)
    (getJSON : GoString → ResultSlice → ResultSlice × Option E) (c : Client)
    (req : NominatimSearchRequest) (h : (Search fmtF getJSON c req).err = none) :
    ∃ u t, buildSearchURL fmtF c req = (u, none) ∧ getJSON u (some []) = (t, none) ∧
      Search fmtF getJSON c req = { res := some { Results := t }, err := none, calls := [u] } := by
  rcases hb : buildSearchURL fmtF c req with ⟨u, _ | err⟩
  · rcases hg : getJSON u (some []) with ⟨t, _ | e⟩
    · exact ⟨u, t, rfl, hg, Search_of_getJSON_ok fmtF getJSON c req u t hb hg⟩
    · rw [Search_of_getJSON_error fmtF getJSON c req u t e hb hg] at h
      cases h
  · rw [Search_of_build_error fmtF getJSON c req u err hb] at h
    cases h

/-- When the `getJSON` of the specification returns no error, the target holds
a slice that is not nil. -/
theorem getJSON_ok {T : Type} (httpGet : GoString → Except T GoString) (url : GoString)
    (target t : ResultSlice) (h : getJSON httpGet url target = (t, none)) :
    ∃ body rs, httpGet url = .ok body ∧ Decode body = .ok rs ∧ t = some (rs.map some) := by
  unfold getJSON at h
  split at h
  · cases h
  · rename_i body hbody
    split at h
    · cases h
    · rename_i rs hrs
      simp only [Prod.mk.injEq, and_true] at h
      exact ⟨body, rs, hbody, hrs, h.symm⟩

/-! ## C11 -/

/-- C11: when `buildSearchURL` fails with an error, `Search` returns a nil
response and that same error, and it does not invoke `getJSON`, whatever
`getJSON` is. -/
theorem C11_build_failure_returned_without_call {E : Type} (fmtF : Float64 → GoString)
    (getJSON : GoString → ResultSlice → ResultSlice × Option E) (c : Client)
    (req : NominatimSearchRequest) (err : Error)
    (h : (buildSearchURL fmtF c req).2 = some err) :
    (Search fmtF getJSON c req).res = none ∧
    (Search fmtF getJSON c req).err = some (.url err) ∧
    (Search fmtF getJSON c req).calls = [] := by
  rcases hb : buildSearchURL fmtF c req with ⟨s, e⟩
  rw [hb] at h
  simp only at h
  subst h
  rw [Search_of_build_error fmtF getJSON c req s err hb]
  exact ⟨rfl, rfl, rfl⟩

/-- C11 at a base URL that does not parse, with a `getJSON` that would
succeed. -/
theorem C11_witness :
    (buildSearchURL fmtZero ⟨B "http://h/%zz", B "k"⟩ sampleQueryRequest).2 =
      some ⟨"parse", B "http://h/%zz/nominatim/v1/search.php", .EscapeError (B "%zz")⟩ ∧
    (Search fmtZero (fun _ t => (t, (none : Option String))) ⟨B "http://h/%zz", B "k"⟩
      sampleQueryRequest).res = none ∧
    (Search fmtZero (fun _ t => (t, (none : Option String))) ⟨B "http://h/%zz", B "k"⟩
      sampleQueryRequest).err =
      some (.url ⟨"parse", B "http://h/%zz/nominatim/v1/search.php", .EscapeError (B "%zz")⟩) ∧
    (Search fmtZero (fun _ t => (t, (none : Option String))) ⟨B "http://h/%zz", B "k"⟩
      sampleQueryRequest).calls = [] :=
  ⟨by decide,
    C11_build_failure_returned_without_call fmtZero (fun _ t => (t, (none : Option String)))
      ⟨B "http://h/%zz", B "k"⟩ sampleQueryRequest
      ⟨"parse", B "http://h/%zz/nominatim/v1/search.php", .EscapeError (B "%zz")⟩ (by decide)⟩

/-! ## C12 -/

/-- C12: when the URL builds and `getJSON` returns an error `e`, `Search`
returns a nil response, whatever `getJSON` left in the target, and exactly the
error `e`; it invoked `getJSON` once, with the URL that `buildSearchURL`
returned. -/
theorem C12_getJSON_error_returned {E : Type} (fmtF : Float64 → GoString)
    (getJSON : GoString → ResultSlice → ResultSlice × Option E) (c : Client)
    (req : NominatimSearchRequest) (e : E)
    (hb : (buildSearchURL fmtF c req).2 = none)
    (hg : (getJSON (buildSearchURL fmtF c req).1 (some [])).2 = some e) :
    (Search fmtF getJSON c req).res = none ∧
    (Search fmtF getJSON c req).err = some (.client e) ∧
    (Search fmtF getJSON c req).calls = [(buildSearchURL fmtF c req).1] := by
  rcases hbu : buildSearchURL fmtF c req with ⟨u, be⟩
  rw [hbu] at hb hg
  simp only at hb hg
  subst hb
  rcases hgu : getJSON u (some []) with ⟨t, ge⟩
  rw [hgu] at hg
  simp only at hg
  subst hg
  rw [Search_of_getJSON_error fmtF getJSON c req u t e hbu hgu]
  exact ⟨rfl, rfl, rfl⟩

/-- C12 at `sampleClient` and a `getJSON` that fills the target in part and
then fails. -/
theorem C12_witness :
    (buildSearchURL fmtZero sampleClient sampleAddressRequest).2 = none ∧
    (Search fmtZero (fun _ _ => (some [some {}, none], some "unexpected EOF")) sampleClient
      sampleAddressRequest).res = none ∧
    (Search fmtZero (fun _ _ => (some [some {}, none], some "unexpected EOF")) sampleClient
      sampleAddressRequest).err = some (.client "unexpected EOF") ∧
    (Search fmtZero (fun _ _ => (some [some {}, none], some "unexpected EOF")) sampleClient
      sampleAddressRequest).calls = [(buildSearchURL fmtZero sampleClient sampleAddressRequest).1] :=
  ⟨by decide,
    C12_getJSON_error_returned fmtZero (fun _ _ => (some [some {}, none], some "unexpected EOF"))
      sampleClient sampleAddressRequest "unexpected EOF" (by decide) rfl⟩

/-! ## C13 -/

/-- C13: whenever `Search` returns no error the response is not nil, and its
`Results` is the slice `getJSON` left in the target, which `Search` handed over
as the empty slice that is not nil; this part holds whatever `getJSON` is.  With
the `getJSON` of the specification that slice is not nil: it holds the decoded
records, in the order of the body, possibly none.  In particular, when the body
decodes to the empty array, as the body `[]` does, `Results` is the empty slice,
not nil. -/
theorem C13_results_not_nil {T : Type} (fmtF : Float64 → GoString)
    (httpGet : GoString → Except T GoString) (c : Client) (req : NominatimSearchRequest)
    (h : (Search fmtF (getJSON httpGet) c req).err = none) :
    (∀ (E : Type) (g : GoString → ResultSlice → ResultSlice × Option E),
      (Search fmtF g c req).err = none →
      ∃ t, g (buildSearchURL fmtF c req).1 (some []) = (t, none) ∧
        (Search fmtF g c req).res = some { Results := t }) ∧
    (∃ body rs, httpGet (buildSearchURL fmtF c req).1 = .ok body ∧ Decode body = .ok rs ∧
      (Search fmtF (getJSON httpGet) c req).res = some { Results := some (rs.map some) }) ∧
    (∀ body, httpGet (buildSearchURL fmtF c req).1 = .ok body → Decode body = .ok [] →
      (Search fmtF (getJSON httpGet) c req).res = some { Results := some [] }) ∧
    Decode (B "[]") = .ok [] := by
  obtain ⟨u, t, hb, hg, hs⟩ := Search_success fmtF (getJSON httpGet) c req h
  obtain ⟨body, rs, hbody, hrs, ht⟩ := getJSON_ok httpGet u (some []) t hg
  have hcode : ∀ (E : Type) (g : GoString → ResultSlice → ResultSlice × Option E),
      (Search fmtF g c req).err = none →
      ∃ t, g (buildSearchURL fmtF c req).1 (some []) = (t, none) ∧
        (Search fmtF g c req).res = some { Results := t } := by
    intro E g hgn
    obtain ⟨u2, t2, hb2, hg2, hs2⟩ := Search_success fmtF g c req hgn
    rw [hb2]
    exact ⟨t2, hg2, by rw [hs2]⟩
  refine ⟨hcode, ?_⟩
  rw [hb]
  simp only
  refine ⟨⟨body, rs, hbody, hrs, by rw [hs, ht]⟩, ?_, by decide!⟩
  intro body2 hbody2 hd
  rw [hbody] at hbody2
  cases hbody2
  rw [hrs] at hd
  cases hd
  rw [hs, ht]
  rfl

/-- C13 at `sampleClient` and a service that answers `[]`. -/
theorem C13_witness :
    (Search fmtZero (getJSON (httpAlways (B "[]"))) sampleClient sampleQueryRequest).err = none ∧
    (Search fmtZero (getJSON (httpAlways (B "[]"))) sampleClient sampleQueryRequest).res =
      some { Results := some [] } :=
  ⟨by decide!,
    (C13_results_not_nil fmtZero (httpAlways (B "[]")) sampleClient sampleQueryRequest
      (by decide!)).2.2.1 (B "[]") rfl (by decide!)⟩

/-! ## C17 -/

/-- C17: the decoder of the specification turns the body
`[{"lat":"12.34","lon":"-56.78"}]` into one result whose `Latitude` and
`Longitude` are the floats nearest to 12.34 and to -56.78, parsed from the
strings, with every other field at its zero value: the strings empty,
`Importance` zero, no `Address`.  `getJSON` stores that one result in the
target.  The two floats are given by their bits; each differs from the decimal
number by at most half the gap to the next float. -/
theorem C17_decode_lat_lon :
    Decode (B "[\x7b\"lat\":\"12.34\",\"lon\":\"-56.78\"\x7d]") =
      .ok [{ Address := none, Class := [], DisplayName := [], Importance := 0,
             Latitude := 0x4028AE147AE147AE, Longitude := 0xC04C63D70A3D70A4,
             OSMId := [], OSMType := [], PlaceId := [], Type_ := [], License := [] }] ∧
    (∀ url, getJSON (httpAlways (B "[\x7b\"lat\":\"12.34\",\"lon\":\"-56.78\"\x7d]")) url (some []) =
      (some [some { Address := none, Class := [], DisplayName := [], Importance := 0,
                    Latitude := 0x4028AE147AE147AE, Longitude := 0xC04C63D70A3D70A4,
                    OSMId := [], OSMType := [], PlaceId := [], Type_ := [], License := [] }],
        none)) ∧
    parseFloat64 (B "12.34") = some 0x4028AE147AE147AE ∧
    parseFloat64 (B "-56.78") = some 0xC04C63D70A3D70A4 ∧
    Float64.exp2 0x4028AE147AE147AE = -49 ∧
    |100 * Float64.scaled 0x4028AE147AE147AE * 2 - 1234 * 2 ^ 50| ≤ 100 ∧
    Float64.exp2 0xC04C63D70A3D70A4 = -47 ∧
    |100 * Float64.scaled 0xC04C63D70A3D70A4 * 2 - (-5678) * 2 ^ 48| ≤ 100 := by
  have hd : Decode (B "[\x7b\"lat\":\"12.34\",\"lon\":\"-56.78\"\x7d]") =
      .ok [{ Address := none, Class := [], DisplayName := [], Importance := 0,
             Latitude := 0x4028AE147AE147AE, Longitude := 0xC04C63D70A3D70A4,
             OSMId := [], OSMType := [], PlaceId := [], Type_ := [], License := [] }] := by
    decide!
  refine ⟨hd, ?_, by decide!, by decide!, by decide!, by decide!, by decide!, by decide!⟩
  intro url
  simp only [getJSON, httpAlways, hd]
  rfl

end Mapquest
